import Mathlib

/-!
Verification development for the dhis2eo repository.

This file gives a shallow embedding, in Lean 4, of the parts of the
dhis2eo code base that the checked claims are about:

* `src/dhis2eo/utils/time.py` — period-code helpers,
* `src/dhis2eo/integrations/pandas.py` — the DHIS2 JSON exporter,
* `src/dhis2eo/integrations/chap.py` — the Chap CSV exporter,
* `src/dhis2eo/data/utils.py` — the `netcdf_cache` decorator,
* the per-provider download adapters (ERA5-Land hourly and monthly,
  TIGGE hourly, SEAS5 hourly, WorldPop yearly, CHIRPS3 daily).

Conventions of the embedding:

* Python strings are Lean `String`s; Python decimal rendering of
  integers (`str(n)`, zero-padded format specifiers) is embedded by an
  explicit fueled renderer `decChars` so that everything evaluates in
  the kernel.
* The file system seen by an adapter is a list of existing paths; a
  download run returns the produced file list, the list of periods that
  were fetched from the remote provider, and the resulting file system.
* Remote services (CDS job submission and readiness, HTTP reads) are
  oracles passed in as functions.
* Python floats are modelled as rationals; `pandas` NaN is an explicit
  `PyVal.nan` constructor.
-/

namespace DHIS2EO

/-! ## Decimal rendering of naturals (Python `str(n)` and zero padding) -/

/-- Fueled little helper producing the decimal digits of `n`,
most significant first.  Mirrors Python's decimal rendering of a
non-negative integer. -/
def decCharsAux : Nat → Nat → List Char
  | 0, _ => []
  | fuel + 1, n =>
    if n < 10 then [Nat.digitChar n]
    else decCharsAux fuel (n / 10) ++ [Nat.digitChar (n % 10)]

/-- Decimal digits of `n`, most significant first. -/
def decChars (n : Nat) : List Char := decCharsAux (n + 1) n

/-- Python `str(n)` for a natural number. -/
def pyNatRepr (n : Nat) : String := String.mk (decChars n)

/-- Python `str.zfill(w)` / the `0w d` format specifier: left-pad with
zeros up to width `w`. -/
def zfill (w : Nat) (s : String) : String :=
  if s.length < w then String.mk (List.replicate (w - s.length) '0') ++ s else s

/-- Python `f-string` zero-padded decimal of a natural (e.g. `{n:04d}`). -/
def fmt0 (w : Nat) (n : Nat) : String := zfill w (pyNatRepr n)

theorem decCharsAux_fuel_irrel (fuel1 fuel2 n : Nat) (h1 : n < fuel1) (h2 : n < fuel2) :
    decCharsAux fuel1 n = decCharsAux fuel2 n := by
  induction fuel1 generalizing fuel2 n with
  | zero => omega
  | succ f ih =>
    cases fuel2 with
    | zero => omega
    | succ g =>
      simp only [decCharsAux]
      by_cases hn : n < 10
      · simp [hn]
      · simp only [if_neg hn]
        have hd : n / 10 < n := Nat.div_lt_self (by omega) (by omega)
        rw [ih g (n / 10) (by omega) (by omega)]

theorem decChars_eq (n : Nat) :
    decChars n = if n < 10 then [Nat.digitChar n]
                 else decChars (n / 10) ++ [Nat.digitChar (n % 10)] := by
  by_cases hn : n < 10
  · simp [decChars, decCharsAux, hn]
  · have hd : n / 10 < n := Nat.div_lt_self (by omega) (by omega)
    have h1 : decChars n = decCharsAux n (n / 10) ++ [Nat.digitChar (n % 10)] := by
      simp [decChars, decCharsAux, hn]
    rw [h1, if_neg hn,
      decCharsAux_fuel_irrel n (n / 10 + 1) (n / 10) (by omega) (by omega)]
    rfl

theorem digitChar_isDigit (n : Nat) (h : n < 10) : (Nat.digitChar n).isDigit = true := by
  interval_cases n <;> decide

theorem decChars_all_digit (n : Nat) : (decChars n).all Char.isDigit = true := by
  induction n using Nat.strong_induction_on with
  | _ n ih =>
    rw [decChars_eq]
    by_cases hn : n < 10
    · simp [hn, digitChar_isDigit n hn]
    · have hd : n / 10 < n := Nat.div_lt_self (by omega) (by omega)
      simp only [if_neg hn, List.all_append, List.all_cons, List.all_nil]
      rw [ih (n / 10) hd]
      simp [digitChar_isDigit (n % 10) (Nat.mod_lt _ (by omega))]

theorem decChars_ne_nil (n : Nat) : decChars n ≠ [] := by
  rw [decChars_eq]
  by_cases hn : n < 10 <;> simp [hn]

theorem decChars_length_le (n w : Nat) (hw : 0 < w) (hn : n < 10 ^ w) :
    (decChars n).length ≤ w := by
  induction n using Nat.strong_induction_on generalizing w with
  | _ n ih =>
    rw [decChars_eq]
    by_cases h10 : n < 10
    · simp only [if_pos h10, List.length_cons, List.length_nil]
      omega
    · have hd : n / 10 < n := Nat.div_lt_self (by omega) (by omega)
      have hw2 : 1 < w := by
        by_contra hcon
        have : w = 1 := by omega
        subst this
        simp at hn
        omega
      have hsub : n / 10 < 10 ^ (w - 1) := by
        apply Nat.div_lt_of_lt_mul
        have h1 : 10 ^ w = 10 * 10 ^ (w - 1) := by
          conv_lhs => rw [show w = 1 + (w - 1) by omega]
          rw [pow_add, pow_one]
        omega
      simp only [if_neg h10, List.length_append, List.length_cons, List.length_nil]
      have := ih (n / 10) hd (w - 1) (by omega) hsub
      omega

/-- Numeric value of a digit list, most significant first (used to show
that decimal rendering is injective). -/
def digitsVal (l : List Char) : Nat :=
  l.foldl (fun acc c => acc * 10 + (c.toNat - '0'.toNat)) 0

theorem digitsVal_foldl_shift (a : Nat) (l : List Char) :
    l.foldl (fun acc c => acc * 10 + (c.toNat - '0'.toNat)) a =
      a * 10 ^ l.length + digitsVal l := by
  induction l generalizing a with
  | nil => simp [digitsVal]
  | cons c cs ih =>
    simp only [List.foldl_cons, List.length_cons]
    rw [ih, show digitsVal (c :: cs) =
      cs.foldl (fun acc c => acc * 10 + (c.toNat - '0'.toNat)) (c.toNat - '0'.toNat) from by
        simp [digitsVal], ih]
    ring

theorem digitsVal_append (l1 l2 : List Char) :
    digitsVal (l1 ++ l2) =
      digitsVal l1 * 10 ^ l2.length + digitsVal l2 := by
  unfold digitsVal
  rw [List.foldl_append]
  exact digitsVal_foldl_shift _ l2

theorem digitChar_val (n : Nat) (h : n < 10) :
    (Nat.digitChar n).toNat - 48 = n := by
  interval_cases n <;> decide

theorem digitsVal_decChars (n : Nat) : digitsVal (decChars n) = n := by
  induction n using Nat.strong_induction_on with
  | _ n ih =>
    rw [decChars_eq]
    by_cases hn : n < 10
    · simp [hn, digitsVal, digitChar_val n hn]
    · have hd : n / 10 < n := Nat.div_lt_self (by omega) (by omega)
      rw [if_neg hn, digitsVal_append, ih (n / 10) hd]
      have : digitsVal [Nat.digitChar (n % 10)] = n % 10 := by
        simp [digitsVal, digitChar_val (n % 10) (Nat.mod_lt _ (by omega))]
      rw [this]
      simp only [List.length_cons, List.length_nil, pow_one]
      omega

/-! ## Character classes and a tiny pattern matcher

`detect_period_type` in `src/dhis2eo/utils/time.py` uses `re.fullmatch`
against a fixed set of anchored patterns made of digit classes and
literal characters, so a list-of-tokens matcher embeds them exactly. -/

/-- One token of an anchored regular expression: a digit class or a
literal character. -/
inductive Tok where
  | dig : Tok
  | lit : Char → Tok
deriving DecidableEq, Repr

/-- Full-match of a token list against a character list
(`re.fullmatch` semantics: the whole string must be consumed). -/
def matchToks : List Tok → List Char → Bool
  | [], [] => true
  | Tok.dig :: ts, c :: cs => c.isDigit && matchToks ts cs
  | Tok.lit a :: ts, c :: cs => a == c && matchToks ts cs
  | _, _ => false

/-- Full-match of a token list against a string. -/
def reFull (ts : List Tok) (s : String) : Bool := matchToks ts s.data

/-- A run of `n` digit tokens (the pattern `\d{n}`). -/
def digs (n : Nat) : List Tok := List.replicate n Tok.dig

theorem matchToks_digs (k : Nat) (cs : List Char) :
    matchToks (digs k) cs = (cs.length == k && cs.all Char.isDigit) := by
  induction k generalizing cs with
  | zero => cases cs <;> simp [digs, matchToks]
  | succ k ih =>
    cases cs with
    | nil => simp [digs, matchToks, List.replicate_succ]
    | cons c cs =>
      simp only [digs, List.replicate_succ, matchToks, List.all_cons, List.length_cons]
      rw [show List.replicate k Tok.dig = digs k from rfl, ih]
      by_cases hc : c.isDigit <;> by_cases hl : cs.length = k <;>
        simp [hc, hl, Bool.and_comm, Bool.and_assoc, Bool.and_left_comm]

/-- Python `str.strip()` restricted to ASCII whitespace; every string the
claims feed through it is whitespace-free, for which this agrees with
Python. -/
def pyStrip (s : String) : String :=
  let ws : Char → Bool := fun c => c == ' ' || c == '\t' || c == '\n' || c == '\r'
  String.mk (((s.data.dropWhile ws).reverse.dropWhile ws).reverse)

theorem dropWhile_eq_self_of_all_not {p : Char → Bool} (l : List Char)
    (h : ∀ c ∈ l, p c = false) : l.dropWhile p = l := by
  cases l with
  | nil => rfl
  | cons c cs =>
    rw [List.dropWhile_cons]
    simp [h c (by simp)]

theorem pyStrip_eq_self (s : String)
    (hnows : ∀ c ∈ s.data,
      (fun c => c == ' ' || c == '\t' || c == '\n' || c == '\r') c = false) :
    pyStrip s = s := by
  simp only [pyStrip]
  rw [dropWhile_eq_self_of_all_not _ hnows,
    dropWhile_eq_self_of_all_not _ (by intro c hc; exact hnows c (by simpa using hc)),
    List.reverse_reverse]

theorem ws_false_of_digit (c : Char) (hd : c.isDigit = true) :
    (fun c => c == ' ' || c == '\t' || c == '\n' || c == '\r') c = false := by
  simp only [Bool.or_eq_false_iff, beq_eq_false_iff_ne, ne_eq]
  refine ⟨⟨⟨?_, ?_⟩, ?_⟩, ?_⟩ <;>
    · intro hcon
      subst hcon
      exact absurd hd (by decide)

theorem pyStrip_of_all_digit (s : String) (h : s.data.all Char.isDigit = true) :
    pyStrip s = s := by
  refine pyStrip_eq_self s ?_
  intro c hc
  refine ws_false_of_digit c ?_
  rw [List.all_eq_true] at h
  exact h c hc

/-! ## `src/dhis2eo/utils/time.py` -/

namespace Time

/-- The four period-type constants of `dhis2eo.utils.time`. -/
inductive PeriodType where
  | YEAR | MONTH | WEEK | DAY
deriving DecidableEq, Repr

/-- Pattern `\d{4}-\d{2}` (`YYYY-MM`). -/
def monthDashToks : List Tok := digs 4 ++ [Tok.lit '-'] ++ digs 2

/-- Pattern `\d{4}-W\d{2}` (`YYYY-Wnn`). -/
def weekDashToks : List Tok := digs 4 ++ [Tok.lit '-', Tok.lit 'W'] ++ digs 2

/-- Pattern `\d{4}-\d{2}-\d{2}` (`YYYY-MM-DD`). -/
def dayDashToks : List Tok := digs 4 ++ [Tok.lit '-'] ++ digs 2 ++ [Tok.lit '-'] ++ digs 2

/-- Embedding of `detect_period_type` (src/dhis2eo/utils/time.py):
strip the input, then try the anchored patterns in source order. -/
def detect_period_type (s0 : String) : Option PeriodType :=
  let s := pyStrip s0
  if reFull (digs 4) s then some .YEAR
  else if reFull (digs 6) s || reFull monthDashToks s then some .MONTH
  else if reFull weekDashToks s then some .WEEK
  else if reFull (digs 8) s || reFull dayDashToks s then some .DAY
  else none

/-- Python truthiness of an optional integer argument (`None` and `0`
are falsy). -/
def truthy : Option Nat → Bool
  | none => false
  | some n => n != 0

/-- Embedding of `dhis2_period` (src/dhis2eo/utils/time.py).  The source
raises `ValueError` when no argument combination matches, embedded as
`Except.error`. -/
def dhis2_period (year month day week : Option Nat) : Except String String :=
  if truthy year && truthy month && truthy day then
    .ok (fmt0 4 (year.getD 0) ++ fmt0 2 (month.getD 0) ++ fmt0 2 (day.getD 0))
  else if truthy year && truthy week then
    .ok (fmt0 4 (year.getD 0) ++ "W" ++ fmt0 2 (week.getD 0))
  else if truthy year && truthy month then
    .ok (fmt0 4 (year.getD 0) ++ fmt0 2 (month.getD 0))
  else if truthy year then
    .ok (fmt0 4 (year.getD 0))
  else
    .error "Not enough information to form a DHIS2 period code."

end Time

/-! ## Generic pattern-matching lemmas used to evaluate `detect_period_type` -/

/-- Equality of `Except` values is decidable when both component types
have decidable equality (used to evaluate witnesses by `decide`). -/
instance {ε α : Type} [DecidableEq ε] [DecidableEq α] : DecidableEq (Except ε α) := fun x y =>
  match x, y with
  | .ok a, .ok b =>
    if h : a = b then isTrue (by rw [h])
    else isFalse (by intro hc; cases hc; exact h rfl)
  | .error a, .error b =>
    if h : a = b then isTrue (by rw [h])
    else isFalse (by intro hc; cases hc; exact h rfl)
  | .ok _, .error _ => isFalse (by intro hc; cases hc)
  | .error _, .ok _ => isFalse (by intro hc; cases hc)

theorem matchToks_length_ne (ts : List Tok) (cs : List Char)
    (h : ts.length ≠ cs.length) : matchToks ts cs = false := by
  induction ts generalizing cs with
  | nil => cases cs with
    | nil => simp at h
    | cons c cs => rfl
  | cons t ts ih =>
    cases cs with
    | nil => cases t <;> rfl
    | cons c cs =>
      have hne : ts.length ≠ cs.length := by
        simp only [List.length_cons] at h
        omega
      cases t with
      | dig => simp [matchToks, ih cs hne]
      | lit a => simp [matchToks, ih cs hne]

theorem matchToks_digs_prefix (cs1 cs2 : List Char) (ts : List Tok)
    (h : cs1.all Char.isDigit = true) :
    matchToks (digs cs1.length ++ ts) (cs1 ++ cs2) = matchToks ts cs2 := by
  induction cs1 with
  | nil => simp [digs]
  | cons c cs ih =>
    simp only [List.all_cons, Bool.and_eq_true] at h
    simp only [List.length_cons, digs, List.replicate_succ, List.cons_append, matchToks,
      List.append_eq]
    rw [show List.replicate cs.length Tok.dig ++ ts = digs cs.length ++ ts from rfl,
      ih h.2, h.1]
    simp

theorem lit_beq_digit_false (a c : Char) (ha : a.isDigit = false) (hc : c.isDigit = true) :
    (a == c) = false := by
  by_contra hcon
  rw [Bool.not_eq_false, beq_iff_eq] at hcon
  subst hcon
  rw [hc] at ha
  exact absurd ha (by simp)

/-- Any pattern that expects a literal dash right after `k` digits fails
on an all-digit string longer than `k` characters. -/
theorem matchToks_digs_dash_false (k : Nat) (cs : List Char) (ts : List Tok)
    (hall : cs.all Char.isDigit = true) (hlen : k < cs.length) :
    matchToks (digs k ++ [Tok.lit '-'] ++ ts) cs = false := by
  have hsplit : cs.take k ++ cs.drop k = cs := List.take_append_drop k cs
  have htk : (cs.take k).length = k := by
    rw [List.length_take]
    omega
  have htall : (cs.take k).all Char.isDigit = true := by
    rw [List.all_eq_true] at hall ⊢
    intro c hc
    exact hall c (List.mem_of_mem_take hc)
  have hdrop : ∃ c rest, cs.drop k = c :: rest ∧ c.isDigit = true := by
    have hlen2 : (cs.drop k).length = cs.length - k := List.length_drop k cs
    cases hd : cs.drop k with
    | nil => rw [hd] at hlen2; simp at hlen2; omega
    | cons c rest =>
      refine ⟨c, rest, rfl, ?_⟩
      rw [List.all_eq_true] at hall
      refine hall c ?_
      have : c ∈ cs.drop k := by rw [hd]; simp
      exact List.mem_of_mem_drop this
  obtain ⟨c, rest, hd, hcd⟩ := hdrop
  have key := matchToks_digs_prefix (cs.take k) (cs.drop k) ([Tok.lit '-'] ++ ts) htall
  rw [htk, hsplit] at key
  rw [List.append_assoc, key, hd]
  simp only [List.cons_append, matchToks]
  rw [lit_beq_digit_false '-' c (by decide) hcd]
  simp

theorem reFull_digs_iff (k : Nat) (s : String) :
    reFull (digs k) s = (s.data.length == k && s.data.all Char.isDigit) := by
  unfold reFull
  rw [matchToks_digs]

/-! ## Facts about the zero-padded decimal renderer -/

theorem fmt0_all_digit (w n : Nat) : (fmt0 w n).data.all Char.isDigit = true := by
  unfold fmt0 zfill pyNatRepr
  by_cases h : (String.mk (decChars n)).length < w
  · rw [if_pos h, String.data_append]
    rw [List.all_append]
    have h1 : (List.replicate (w - (String.mk (decChars n)).length) '0').all
        Char.isDigit = true := by
      rw [List.all_eq_true]
      intro c hc
      rw [List.mem_replicate] at hc
      rw [hc.2]
      decide
    rw [show (String.mk (List.replicate (w - (String.mk (decChars n)).length) '0')).data
        = List.replicate (w - (String.mk (decChars n)).length) '0' from rfl, h1]
    rw [show (String.mk (decChars n)).data = decChars n from rfl, decChars_all_digit]
    rfl
  · rw [if_neg h]
    exact decChars_all_digit n

theorem fmt0_data_length (w n : Nat) (h : (decChars n).length ≤ w) :
    (fmt0 w n).data.length = w := by
  unfold fmt0 zfill pyNatRepr
  have hlen : (String.mk (decChars n)).length = (decChars n).length := rfl
  by_cases hlt : (String.mk (decChars n)).length < w
  · rw [if_pos hlt, String.data_append]
    rw [List.length_append]
    rw [show (String.mk (List.replicate (w - (String.mk (decChars n)).length) '0')).data
        = List.replicate (w - (String.mk (decChars n)).length) '0' from rfl]
    rw [List.length_replicate]
    rw [show (String.mk (decChars n)).data = decChars n from rfl]
    omega
  · rw [if_neg hlt]
    show (decChars n).length = w
    omega

theorem fmt0_length_of_lt (w n : Nat) (hw : 0 < w) (hn : n < 10 ^ w) :
    (fmt0 w n).data.length = w :=
  fmt0_data_length w n (decChars_length_le n w hw hn)

namespace Time

/-- Evaluation of `detect_period_type` on an all-digit string of length 4. -/
theorem detect_digits4 (s : String) (hall : s.data.all Char.isDigit = true)
    (hlen : s.data.length = 4) : detect_period_type s = some .YEAR := by
  simp only [detect_period_type]
  rw [pyStrip_of_all_digit s hall, reFull_digs_iff]
  simp [hlen, hall]

/-- Evaluation of `detect_period_type` on an all-digit string of length 6. -/
theorem detect_digits6 (s : String) (hall : s.data.all Char.isDigit = true)
    (hlen : s.data.length = 6) : detect_period_type s = some .MONTH := by
  simp only [detect_period_type]
  rw [pyStrip_of_all_digit s hall]
  rw [reFull_digs_iff, reFull_digs_iff, hlen]
  simp [hall]

/-- Evaluation of `detect_period_type` on an all-digit string of length 8. -/
theorem detect_digits8 (s : String) (hall : s.data.all Char.isDigit = true)
    (hlen : s.data.length = 8) : detect_period_type s = some .DAY := by
  simp only [detect_period_type]
  rw [pyStrip_of_all_digit s hall]
  have h4 : reFull (digs 4) s = false := by rw [reFull_digs_iff, hlen]; rfl
  have h6 : reFull (digs 6) s = false := by rw [reFull_digs_iff, hlen]; rfl
  have h8 : reFull (digs 8) s = true := by rw [reFull_digs_iff, hlen]; simp [hall]
  have hmonth : reFull monthDashToks s = false := by
    unfold reFull monthDashToks
    exact matchToks_digs_dash_false 4 s.data (digs 2) hall (by omega)
  have hweek : reFull weekDashToks s = false := by
    unfold reFull weekDashToks
    rw [show digs 4 ++ [Tok.lit '-', Tok.lit 'W'] ++ digs 2
        = digs 4 ++ [Tok.lit '-'] ++ ([Tok.lit 'W'] ++ digs 2) from by simp]
    exact matchToks_digs_dash_false 4 s.data ([Tok.lit 'W'] ++ digs 2) hall (by omega)
  rw [h4, h6, h8, hmonth, hweek]
  simp

/-- Evaluation of `detect_period_type` on the week-shaped string
`dddd` `W` `dd` (no dash) produced by `dhis2_period`: none of the
patterns matches. -/
theorem detect_week_shape (A B : List Char)
    (hA : A.all Char.isDigit = true) (hAl : A.length = 4)
    (hB : B.all Char.isDigit = true) (hBl : B.length = 2) :
    detect_period_type (String.mk (A ++ 'W' :: B)) = none := by
  simp only [detect_period_type]
  have hlen : (String.mk (A ++ 'W' :: B)).data.length = 7 := by
    show (A ++ 'W' :: B).length = 7
    rw [List.length_append, List.length_cons]
    omega
  have hdata : (String.mk (A ++ 'W' :: B)).data = A ++ 'W' :: B := rfl
  have hstrip : pyStrip (String.mk (A ++ 'W' :: B)) = String.mk (A ++ 'W' :: B) := by
    refine pyStrip_eq_self _ ?_
    rw [hdata]
    intro c hc
    rcases List.mem_append.mp hc with h | h
    · refine ws_false_of_digit c ?_
      rw [List.all_eq_true] at hA
      exact hA c h
    · rcases List.mem_cons.mp h with h | h
      · subst h; decide
      · refine ws_false_of_digit c ?_
        rw [List.all_eq_true] at hB
        exact hB c h
  rw [hstrip]
  have h4 : reFull (digs 4) (String.mk (A ++ 'W' :: B)) = false := by
    rw [reFull_digs_iff, hlen]; rfl
  have h6 : reFull (digs 6) (String.mk (A ++ 'W' :: B)) = false := by
    rw [reFull_digs_iff, hlen]; rfl
  have h8 : reFull (digs 8) (String.mk (A ++ 'W' :: B)) = false := by
    rw [reFull_digs_iff, hlen]; rfl
  have hpre : ∀ ts : List Tok,
      matchToks (digs 4 ++ [Tok.lit '-'] ++ ts) (A ++ 'W' :: B) = false := by
    intro ts
    have key := matchToks_digs_prefix A ('W' :: B) ([Tok.lit '-'] ++ ts) hA
    rw [hAl] at key
    rw [List.append_assoc, key]
    simp [matchToks]
  have hmonth : reFull monthDashToks (String.mk (A ++ 'W' :: B)) = false := by
    unfold reFull monthDashToks
    rw [hdata]
    exact hpre (digs 2)
  have hweek : reFull weekDashToks (String.mk (A ++ 'W' :: B)) = false := by
    unfold reFull weekDashToks
    rw [hdata]
    rw [show digs 4 ++ [Tok.lit '-', Tok.lit 'W'] ++ digs 2
        = digs 4 ++ [Tok.lit '-'] ++ ([Tok.lit 'W'] ++ digs 2) from by simp]
    exact hpre ([Tok.lit 'W'] ++ digs 2)
  have hday : reFull dayDashToks (String.mk (A ++ 'W' :: B)) = false := by
    unfold reFull dayDashToks
    rw [hdata]
    rw [show digs 4 ++ [Tok.lit '-'] ++ digs 2 ++ [Tok.lit '-'] ++ digs 2
        = digs 4 ++ [Tok.lit '-'] ++ (digs 2 ++ [Tok.lit '-'] ++ digs 2) from by simp]
    exact hpre (digs 2 ++ [Tok.lit '-'] ++ digs 2)
  rw [h4, h6, h8, hmonth, hweek, hday]
  simp

end Time

/-! ## Claim C9: round-trip of `dhis2_period` through `detect_period_type` -/

/-- C9 (counterexample): the claim states that weekly codes produced by
`dhis2_period` are detected as WEEK, but `dhis2_period(year=2023, week=5)`
produces `2023W05` (no dash) while `detect_period_type` only recognizes
the dashed form `YYYY-Wnn`, so detection yields `None`, not WEEK. -/
theorem c9_week_counterexample :
    (Time.dhis2_period (some 2023) none none (some 5)).map Time.detect_period_type
      ≠ Except.ok (some Time.PeriodType.WEEK) := by decide

/-- C9 (amended): period codes produced by `dhis2_period` for years
(1 ≤ y ≤ 9999), months (1–12) and days (1–31) are recognized by
`detect_period_type` as YEAR, MONTH and DAY respectively; but weekly
codes (week 1–53) are NOT recognized — `detect_period_type` returns
`None` on them because `dhis2_period` renders `YYYYWnn` without the dash
that the WEEK pattern `\d{4}-W\d{2}` requires. -/
theorem c9_period_roundtrip (y m d w : Nat)
    (hy1 : 1 ≤ y) (hy2 : y ≤ 9999) (hm1 : 1 ≤ m) (hm2 : m ≤ 12)
    (hd1 : 1 ≤ d) (hd2 : d ≤ 31) (hw1 : 1 ≤ w) (hw2 : w ≤ 53) :
    (Time.dhis2_period (some y) none none none).map Time.detect_period_type
        = Except.ok (some Time.PeriodType.YEAR)
    ∧ (Time.dhis2_period (some y) (some m) none none).map Time.detect_period_type
        = Except.ok (some Time.PeriodType.MONTH)
    ∧ (Time.dhis2_period (some y) (some m) (some d) none).map Time.detect_period_type
        = Except.ok (some Time.PeriodType.DAY)
    ∧ (Time.dhis2_period (some y) none none (some w)).map Time.detect_period_type
        = Except.ok none := by
  have hy0 : y ≠ 0 := by omega
  have hm0 : m ≠ 0 := by omega
  have hd0 : d ≠ 0 := by omega
  have hw0 : w ≠ 0 := by omega
  have hp4 : (10:ℕ) ^ 4 = 10000 := by norm_num
  have hp2 : (10:ℕ) ^ 2 = 100 := by norm_num
  have hYlen : (fmt0 4 y).data.length = 4 :=
    fmt0_length_of_lt 4 y (by omega) (by omega)
  have hMlen : (fmt0 2 m).data.length = 2 :=
    fmt0_length_of_lt 2 m (by omega) (by omega)
  have hDlen : (fmt0 2 d).data.length = 2 :=
    fmt0_length_of_lt 2 d (by omega) (by omega)
  have hWlen : (fmt0 2 w).data.length = 2 :=
    fmt0_length_of_lt 2 w (by omega) (by omega)
  refine ⟨?_, ?_, ?_, ?_⟩
  · have heq : Time.dhis2_period (some y) none none none = .ok (fmt0 4 y) := by
      simp [Time.dhis2_period, Time.truthy, bne_iff_ne, hy0]
    rw [heq]
    show Except.ok (Time.detect_period_type (fmt0 4 y)) = _
    rw [Time.detect_digits4 _ (fmt0_all_digit 4 y) hYlen]
  · have heq : Time.dhis2_period (some y) (some m) none none
        = .ok (fmt0 4 y ++ fmt0 2 m) := by
      simp [Time.dhis2_period, Time.truthy, bne_iff_ne, hy0, hm0]
    rw [heq]
    show Except.ok (Time.detect_period_type (fmt0 4 y ++ fmt0 2 m)) = _
    have hall : (fmt0 4 y ++ fmt0 2 m).data.all Char.isDigit = true := by
      rw [String.data_append, List.all_append, fmt0_all_digit, fmt0_all_digit]
      rfl
    have hlen : (fmt0 4 y ++ fmt0 2 m).data.length = 6 := by
      rw [String.data_append, List.length_append, hYlen, hMlen]
    rw [Time.detect_digits6 _ hall hlen]
  · have heq : Time.dhis2_period (some y) (some m) (some d) none
        = .ok (fmt0 4 y ++ fmt0 2 m ++ fmt0 2 d) := by
      simp [Time.dhis2_period, Time.truthy, bne_iff_ne, hy0, hm0, hd0]
    rw [heq]
    show Except.ok (Time.detect_period_type (fmt0 4 y ++ fmt0 2 m ++ fmt0 2 d)) = _
    have hall : (fmt0 4 y ++ fmt0 2 m ++ fmt0 2 d).data.all Char.isDigit = true := by
      rw [String.data_append, String.data_append, List.all_append, List.all_append,
        fmt0_all_digit, fmt0_all_digit, fmt0_all_digit]
      rfl
    have hlen : (fmt0 4 y ++ fmt0 2 m ++ fmt0 2 d).data.length = 8 := by
      rw [String.data_append, String.data_append, List.length_append, List.length_append,
        hYlen, hMlen, hDlen]
    rw [Time.detect_digits8 _ hall hlen]
  · have heq : Time.dhis2_period (some y) none none (some w)
        = .ok (fmt0 4 y ++ "W" ++ fmt0 2 w) := by
      simp [Time.dhis2_period, Time.truthy, bne_iff_ne, hy0, hw0]
    rw [heq]
    show Except.ok (Time.detect_period_type (fmt0 4 y ++ "W" ++ fmt0 2 w)) = _
    have hshape : (fmt0 4 y ++ "W" ++ fmt0 2 w).data
        = (fmt0 4 y).data ++ 'W' :: (fmt0 2 w).data := by
      rw [String.data_append, String.data_append]
      rw [show ("W" : String).data = ['W'] from rfl, List.append_assoc]
      rfl
    have h2 := Time.detect_week_shape (fmt0 4 y).data (fmt0 2 w).data
      (fmt0_all_digit 4 y) hYlen (fmt0_all_digit 2 w) hWlen
    rw [← hshape] at h2
    rw [show String.mk (fmt0 4 y ++ "W" ++ fmt0 2 w).data
        = fmt0 4 y ++ "W" ++ fmt0 2 w from rfl] at h2
    rw [h2]

/-- C9 witness: the amended round-trip theorem instantiated at
year 2023, month 5, day 17, week 5. -/
theorem c9_period_roundtrip_witness :
    (1 ≤ 2023 ∧ 2023 ≤ 9999) ∧
    ((Time.dhis2_period (some 2023) none none none).map Time.detect_period_type
        = Except.ok (some Time.PeriodType.YEAR)
    ∧ (Time.dhis2_period (some 2023) (some 5) none none).map Time.detect_period_type
        = Except.ok (some Time.PeriodType.MONTH)
    ∧ (Time.dhis2_period (some 2023) (some 5) (some 17) none).map Time.detect_period_type
        = Except.ok (some Time.PeriodType.DAY)
    ∧ (Time.dhis2_period (some 2023) none none (some 5)).map Time.detect_period_type
        = Except.ok none) :=
  ⟨by decide,
   c9_period_roundtrip 2023 5 17 5 (by decide) (by decide) (by decide) (by decide)
     (by decide) (by decide) (by decide) (by decide)⟩

/-! ## Calendar model (`datetime.date` arithmetic used by the adapters) -/

/-- A proleptic Gregorian calendar date, as `datetime.date`. -/
structure Date where
  year : Nat
  month : Nat
  day : Nat
deriving DecidableEq, Repr

/-- Gregorian leap-year rule. -/
def isLeap (y : Nat) : Bool := (y % 4 == 0 && y % 100 != 0) || y % 400 == 0

/-- Number of days in month `m` of year `y`. -/
def daysInMonth (y m : Nat) : Nat :=
  if m == 2 then (if isLeap y then 29 else 28)
  else if m == 4 || m == 6 || m == 9 || m == 11 then 30
  else 31

/-- The day before `d` (used to embed `date - timedelta(days=n)`). -/
def prevDay (d : Date) : Date :=
  if 1 < d.day then ⟨d.year, d.month, d.day - 1⟩
  else if 1 < d.month then ⟨d.year, d.month - 1, daysInMonth d.year (d.month - 1)⟩
  else ⟨d.year - 1, 12, 31⟩

/-- `d - timedelta(days=n)`. -/
def subDays (d : Date) : Nat → Date
  | 0 => d
  | n + 1 => prevDay (subDays d n)

/-- The day after `d`. -/
def nextDay (d : Date) : Date :=
  if d.day < daysInMonth d.year d.month then ⟨d.year, d.month, d.day + 1⟩
  else if d.month < 12 then ⟨d.year, d.month + 1, 1⟩
  else ⟨d.year + 1, 1, 1⟩

/-- Python tuple comparison `(a1, a2) < (b1, b2)` on year-month pairs. -/
def pairLt (a b : Nat × Nat) : Bool := a.1 < b.1 || (a.1 == b.1 && a.2 < b.2)

/-- Python tuple comparison `(a1, a2) >= (b1, b2)` on year-month pairs. -/
def pairGe (a b : Nat × Nat) : Bool := b.1 < a.1 || (b.1 == a.1 && b.2 ≤ a.2)

theorem pairGe_eq_not_pairLt (a b : Nat × Nat) : pairGe a b = !pairLt a b := by
  unfold pairGe pairLt
  rcases a with ⟨a1, a2⟩
  rcases b with ⟨b1, b2⟩
  simp only [beq_iff_eq, decide_eq_true_eq, Bool.or_eq_true, Bool.and_eq_true]
  by_cases h1 : b1 < a1 <;> by_cases h2 : b1 = a1 <;>
    by_cases h3 : b2 ≤ a2 <;> by_cases h4 : a1 < b1 <;>
    simp_all <;> omega

/-- Embedding of `iter_months` (src/dhis2eo/utils/time.py): iterate
`(year, month)` over `range(start_year, end_year + 1) × range(1, 13)`,
skipping pairs outside the inclusive `(start_year, start_month)` to
`(end_year, end_month)` range. -/
def iterMonths (sy sm ey em : Nat) : List (Nat × Nat) :=
  (List.range (ey + 1 - sy)).flatMap (fun i =>
    (List.range 12).filterMap (fun j =>
      let ym := (sy + i, j + 1)
      if pairLt ym (sy, sm) then none
      else if pairLt (ey, em) ym then none
      else some ym))

theorem mem_iterMonths_month_le (sy sm ey em : Nat) (ym : Nat × Nat)
    (h : ym ∈ iterMonths sy sm ey em) : 1 ≤ ym.2 ∧ ym.2 ≤ 12 := by
  unfold iterMonths at h
  rw [List.mem_flatMap] at h
  obtain ⟨i, _, hi⟩ := h
  rw [List.mem_filterMap] at hi
  obtain ⟨j, hj, hj2⟩ := hi
  rw [List.mem_range] at hj
  by_cases h1 : pairLt (sy + i, j + 1) (sy, sm) <;>
    by_cases h2 : pairLt (ey, em) (sy + i, j + 1) <;>
    simp [h1, h2] at hj2
  rw [← hj2]
  omega

theorem filterMap_guard_eq_map_filter {α β : Type} (p : α → Bool) (g : α → β) (l : List α) :
    l.filterMap (fun x => if p x then some (g x) else none) = (l.filter p).map g := by
  induction l with
  | nil => rfl
  | cons x xs ih =>
    by_cases hp : p x <;> simp [List.filterMap_cons, List.filter_cons, hp, ih]

theorem mem_iterMonths_inner (sy sm ey em i : Nat) (ym : Nat × Nat)
    (h : ym ∈ (List.range 12).filterMap (fun j =>
      let ym := (sy + i, j + 1)
      if pairLt ym (sy, sm) then none
      else if pairLt (ey, em) ym then none
      else some ym)) : ym.1 = sy + i := by
  rw [List.mem_filterMap] at h
  obtain ⟨j, _, hj2⟩ := h
  by_cases h1 : pairLt (sy + i, j + 1) (sy, sm) <;>
    by_cases h2 : pairLt (ey, em) (sy + i, j + 1) <;>
    simp [h1, h2] at hj2
  rw [← hj2]

/-- The months produced by `iter_months` are strictly increasing in the
tuple order (chronological order). -/
theorem iterMonths_pairwise (sy sm ey em : Nat) :
    (iterMonths sy sm ey em).Pairwise (fun a b => pairLt a b = true) := by
  unfold iterMonths
  rw [List.flatMap_def, List.pairwise_flatten]
  constructor
  · intro l hl
    rw [List.mem_map] at hl
    obtain ⟨i, _, rfl⟩ := hl
    rw [List.pairwise_filterMap]
    have hrange := List.pairwise_lt_range 12
    refine hrange.imp_of_mem ?_
    intro j j' hj hj' hlt
    intro b hb b' hb'
    by_cases h1 : pairLt (sy + i, j + 1) (sy, sm) <;>
      by_cases h2 : pairLt (ey, em) (sy + i, j + 1) <;>
      simp [h1, h2] at hb
    by_cases h3 : pairLt (sy + i, j' + 1) (sy, sm) <;>
      by_cases h4 : pairLt (ey, em) (sy + i, j' + 1) <;>
      simp [h3, h4] at hb'
    rw [← hb, ← hb']
    unfold pairLt
    simp only [beq_iff_eq, decide_eq_true_eq, Bool.or_eq_true, Bool.and_eq_true]
    right
    exact ⟨trivial, by omega⟩
  · have hrange := List.pairwise_lt_range (ey + 1 - sy)
    rw [List.pairwise_map]
    refine hrange.imp_of_mem ?_
    intro i i' hi hi' hlt
    intro x hx y hy
    have hx1 := mem_iterMonths_inner sy sm ey em i x hx
    have hy1 := mem_iterMonths_inner sy sm ey em i' y hy
    unfold pairLt
    simp only [beq_iff_eq, decide_eq_true_eq, Bool.or_eq_true, Bool.and_eq_true]
    left
    omega

/-! ## File-system model and save paths used by the download adapters -/

/-- `os.path.exists` over the modelled file system (a list of paths). -/
def fsContains (fs : List String) (p : String) : Bool := fs.contains p

theorem fsContains_iff (fs : List String) (p : String) :
    fsContains fs p = true ↔ p ∈ fs := by
  unfold fsContains
  rw [show fs.contains p = fs.elem p from rfl, List.elem_eq_mem]
  simp

/-- Creating a file: idempotent insertion into the modelled file system. -/
def fsInsert (fs : List String) (p : String) : List String :=
  if fsContains fs p then fs else fs ++ [p]

theorem mem_fsInsert (fs : List String) (p x : String) :
    x ∈ fsInsert fs p ↔ (x ∈ fs ∨ x = p) := by
  unfold fsInsert
  by_cases h : fsContains fs p
  · rw [if_pos h]
    rw [fsContains_iff] at h
    constructor
    · exact fun hx => Or.inl hx
    · rintro (hx | rfl)
      · exact hx
      · exact h
  · rw [if_neg h]
    simp

/-- Monthly save path `dirname/{pfx}_{year}-{month:02d}.nc` used by the
TIGGE, SEAS5 and ERA5-Land hourly adapters. -/
def monthPath (dirname pfx : String) (y m : Nat) : String :=
  dirname ++ "/" ++ pfx ++ "_" ++ pyNatRepr y ++ "-" ++ fmt0 2 m ++ ".nc"

/-- Yearly save path `dirname/{pfx}_{year}.nc` used by the WorldPop
adapter. -/
def yearPath (dirname pfx : String) (y : Nat) : String :=
  dirname ++ "/" ++ pfx ++ "_" ++ pyNatRepr y ++ ".nc"

/-- Whole-range save path `dirname/{pfx}_{startYear}-{endYear}.nc` used
by the ERA5-Land monthly adapter. -/
def rangePath (dirname pfx : String) (y0 y1 : Nat) : String :=
  dirname ++ "/" ++ pfx ++ "_" ++ pyNatRepr y0 ++ "-" ++ pyNatRepr y1 ++ ".nc"

theorem digitsVal_replicate_zero (k : Nat) : digitsVal (List.replicate k '0') = 0 := by
  induction k with
  | zero => rfl
  | succ k ih =>
    unfold digitsVal at *
    rw [List.replicate_succ, List.foldl_cons]
    simpa using ih

theorem fmt0_digitsVal (w n : Nat) : digitsVal (fmt0 w n).data = n := by
  unfold fmt0 zfill pyNatRepr
  by_cases h : (String.mk (decChars n)).length < w
  · rw [if_pos h, String.data_append]
    rw [show (String.mk (List.replicate (w - (String.mk (decChars n)).length) '0')).data
        = List.replicate (w - (String.mk (decChars n)).length) '0' from rfl]
    rw [show (String.mk (decChars n)).data = decChars n from rfl]
    rw [digitsVal_append, digitsVal_replicate_zero, digitsVal_decChars]
    simp
  · rw [if_neg h]
    exact digitsVal_decChars n

theorem pyNatRepr_inj (y y' : Nat) (h : pyNatRepr y = pyNatRepr y') : y = y' := by
  have hd := congrArg String.data h
  rw [show (pyNatRepr y).data = decChars y from rfl,
    show (pyNatRepr y').data = decChars y' from rfl] at hd
  have := digitsVal_decChars y
  rw [hd, digitsVal_decChars] at this
  omega

theorem monthPath_inj (dirname pfx : String) (y m y' m' : Nat)
    (hm : m < 100) (hm' : m' < 100)
    (h : monthPath dirname pfx y m = monthPath dirname pfx y' m') :
    y = y' ∧ m = m' := by
  have hd := congrArg String.data h
  simp only [monthPath, String.data_append, List.append_assoc] at hd
  have h1 := List.append_cancel_left hd
  have h2 := List.append_cancel_left h1
  have h3 := List.append_cancel_left h2
  have h4 := List.append_cancel_left h3
  -- h4 : ry ++ (dash ++ (m2 ++ nc)) = ry' ++ (dash ++ (m2' ++ nc))
  have hm2len : ((fmt0 2 m).data).length = 2 :=
    fmt0_length_of_lt 2 m (by omega) (by norm_num; omega)
  have hm2len' : ((fmt0 2 m').data).length = 2 :=
    fmt0_length_of_lt 2 m' (by omega) (by norm_num; omega)
  have htail : (("-" : String).data ++ ((fmt0 2 m).data ++ (".nc" : String).data)).length
      = (("-" : String).data ++ ((fmt0 2 m').data ++ (".nc" : String).data)).length := by
    simp only [List.length_append, hm2len, hm2len']
  obtain ⟨hry, htl⟩ := List.append_inj' h4 htail
  have hy : y = y' := pyNatRepr_inj y y' (congrArg String.mk hry)
  have htl2 := List.append_cancel_left htl
  obtain ⟨hm2, _⟩ := List.append_inj' htl2 rfl
  have hmm : m = m' := by
    have := fmt0_digitsVal 2 m
    rw [hm2, fmt0_digitsVal] at this
    omega
  exact ⟨hy, hmm⟩

theorem yearPath_inj (dirname pfx : String) (y y' : Nat)
    (h : yearPath dirname pfx y = yearPath dirname pfx y') : y = y' := by
  have hd := congrArg String.data h
  simp only [yearPath, String.data_append, List.append_assoc] at hd
  have h1 := List.append_cancel_left hd
  have h2 := List.append_cancel_left h1
  have h3 := List.append_cancel_left h2
  have h4 := List.append_cancel_left h3
  obtain ⟨hry, _⟩ := List.append_inj' h4 rfl
  exact pyNatRepr_inj y y' (congrArg String.mk hry)

theorem fsContains_congr (fs fs' : List String) (p : String)
    (h : p ∈ fs ↔ p ∈ fs') : fsContains fs p = fsContains fs' p := by
  by_cases h1 : p ∈ fs
  · rw [(fsContains_iff fs p).mpr h1, (fsContains_iff fs' p).mpr (h.mp h1)]
  · have h2 : p ∉ fs' := fun hc => h1 (h.mpr hc)
    have e1 : fsContains fs p = false := by
      rcases hb : fsContains fs p
      · rfl
      · exact absurd ((fsContains_iff _ _).mp hb) h1
    have e2 : fsContains fs' p = false := by
      rcases hb : fsContains fs' p
      · rfl
      · exact absurd ((fsContains_iff _ _).mp hb) h2
    rw [e1, e2]

/-! ## Per-period download adapters

Each adapter iterates over its periods; for each period it computes the
save path and either reuses the existing file or fetches from the remote
provider and writes the file.  `CacheRun` records the returned file
list, the periods that were fetched remotely, and the final file
system. -/

/-- Result of one adapter run over the modelled file system. -/
structure CacheRun (α : Type) where
  files : List String
  fetched : List α
  fs : List String
deriving DecidableEq, Repr

/-- One loop iteration shared by the per-period adapters: append the
save path to the returned list; if the cache-use condition holds, reuse
the existing file, else fetch the period remotely and write the file. -/
def cacheStep {α : Type} (path : α → String) (useCache : α → List String → Bool)
    (acc : CacheRun α) (x : α) : CacheRun α :=
  let p := path x
  if useCache x acc.fs then
    { acc with files := acc.files ++ [p] }
  else
    { files := acc.files ++ [p], fetched := acc.fetched ++ [x],
      fs := fsInsert acc.fs p }

/-- The cache-use condition of the TIGGE/SEAS5 hourly adapters: with
`last_updated_date = today - timedelta(days=3)`, a month reuses the
cached file iff `overwrite` is false, the save path exists, and the
month is complete (strictly before the cutoff month). -/
def lagUseCache (today : Date) (dirname pfx : String) (overwrite : Bool)
    (ym : Nat × Nat) (fs : List String) : Bool :=
  let last_updated_date := subDays today 3
  let month_is_complete :=
    !(pairGe ym (last_updated_date.year, last_updated_date.month))
  !overwrite && fsContains fs (monthPath dirname pfx ym.1 ym.2) && month_is_complete

/-- Embedding of `download` in src/dhis2eo/data/ecmwf/tigge/hourly.py:
iterate the months of the inclusive range; reuse or fetch each month
according to `lagUseCache`. -/
def tigge_download (fs0 : List String) (today : Date) (sy sm ey em : Nat)
    (dirname pfx : String) (overwrite : Bool) : CacheRun (Nat × Nat) :=
  (iterMonths sy sm ey em).foldl
    (cacheStep (fun ym => monthPath dirname pfx ym.1 ym.2)
      (lagUseCache today dirname pfx overwrite))
    ⟨[], [], fs0⟩

/-- Embedding of `download` in src/dhis2eo/data/ecmwf/seas5/hourly.py;
the caching control flow is identical to the TIGGE adapter (same 3-day
lag cutoff). -/
def seas5_download (fs0 : List String) (today : Date) (sy sm ey em : Nat)
    (dirname pfx : String) (overwrite : Bool) : CacheRun (Nat × Nat) :=
  (iterMonths sy sm ey em).foldl
    (cacheStep (fun ym => monthPath dirname pfx ym.1 ym.2)
      (lagUseCache today dirname pfx overwrite))
    ⟨[], [], fs0⟩

/-- Embedding of `download` in src/dhis2eo/data/cds/era5_land/monthly.py:
one file for the whole year range; fetched iff `overwrite` or the file
does not exist. -/
def era5_land_monthly_download (fs0 : List String) (startYear endYear : Nat)
    (dirname pfx : String) (overwrite : Bool) : CacheRun (Nat × Nat) :=
  let save_path := rangePath dirname pfx startYear endYear
  if !overwrite && fsContains fs0 save_path then ⟨[save_path], [], fs0⟩
  else ⟨[save_path], [(startYear, endYear)], fsInsert fs0 save_path⟩

/-- `range(int(start), int(end) + 1)` over years. -/
def yearsRange (startYear endYear : Nat) : List Nat :=
  (List.range (endYear + 1 - startYear)).map (fun i => startYear + i)

/-- Embedding of `download` in
src/dhis2eo/data/worldpop/pop_total/yearly.py: iterate the years of the
inclusive range; a year reuses the cached file iff `skip_existing` and
the save path exists (the `country_code`/`version` arguments only shape
the remote request, not the caching decision). -/
def worldpopUseCache (dirname pfx : String) (skip_existing : Bool)
    (y : Nat) (fs : List String) : Bool :=
  skip_existing && fsContains fs (yearPath dirname pfx y)

def worldpop_download (fs0 : List String) (startYear endYear : Nat)
    (dirname pfx : String) (skip_existing : Bool) : CacheRun Nat :=
  (yearsRange startYear endYear).foldl
    (cacheStep (fun y => yearPath dirname pfx y)
      (worldpopUseCache dirname pfx skip_existing))
    ⟨[], [], fs0⟩

/-- Characterization of the shared adapter fold: provided the save paths
of the processed periods are pairwise distinct and the cache-use
condition only looks at the presence of the period's own save path, the
returned files are the period paths in order, the fetched periods are
exactly those whose condition fails against the initial file system, and
the final file system is the initial one plus the freshly written
files. -/
theorem cacheFold_spec {α : Type} (path : α → String)
    (useCache : α → List String → Bool)
    (hcache : ∀ x fs fs', (path x ∈ fs ↔ path x ∈ fs') → useCache x fs = useCache x fs')
    (fs0 : List String) (ms : List α) (hnd : (ms.map path).Nodup) :
    (ms.foldl (cacheStep path useCache) ⟨[], [], fs0⟩).files = ms.map path
    ∧ (ms.foldl (cacheStep path useCache) ⟨[], [], fs0⟩).fetched
        = ms.filter (fun x => !useCache x fs0)
    ∧ (∀ p, p ∈ (ms.foldl (cacheStep path useCache) ⟨[], [], fs0⟩).fs
        ↔ (p ∈ fs0 ∨ p ∈ (ms.filter (fun x => !useCache x fs0)).map path)) := by
  induction ms using List.reverseRecOn with
  | nil => simp
  | append_singleton ms x ih =>
    rw [List.map_append] at hnd
    have hnd1 : (ms.map path).Nodup :=
      List.Nodup.sublist (List.sublist_append_left _ _) hnd
    have hnotin : path x ∉ ms.map path := by
      intro hc
      have := List.disjoint_of_nodup_append hnd
      exact this hc (by simp)
    obtain ⟨ihf, ihd, ihs⟩ := ih hnd1
    rw [List.foldl_append]
    simp only [List.foldl_cons, List.foldl_nil]
    set R := ms.foldl (cacheStep path useCache) ⟨[], [], fs0⟩ with hR
    have hfetchsub : ∀ q, q ∈ (ms.filter (fun x => !useCache x fs0)).map path
        → q ∈ ms.map path := by
      intro q hq
      exact List.Sublist.mem hq (List.Sublist.map path (List.filter_sublist ms))
    have hcmem : path x ∈ R.fs ↔ path x ∈ fs0 := by
      rw [ihs (path x)]
      constructor
      · rintro (h | h)
        · exact h
        · exact absurd (hfetchsub _ h) hnotin
      · exact fun h => Or.inl h
    have huse : useCache x R.fs = useCache x fs0 := hcache x R.fs fs0 hcmem
    unfold cacheStep
    by_cases hc : useCache x fs0
    · rw [huse, if_pos hc]
      refine ⟨?_, ?_, ?_⟩
      · simp [ihf]
      · simp only [List.filter_append, List.filter_cons, hc]
        simp [ihd]
      · intro p
        simp only [List.filter_append, List.filter_cons, hc]
        simpa using ihs p
    · rw [huse, if_neg hc]
      have hcfalse : useCache x fs0 = false := by
        cases hb : useCache x fs0
        · rfl
        · exact absurd hb hc
      have hcb : (!useCache x fs0) = true := by rw [hcfalse]; rfl
      refine ⟨?_, ?_, ?_⟩
      · simp [ihf]
      · simp only [List.filter_append, List.filter_cons, hcb]
        simp [ihd]
      · intro p
        show p ∈ fsInsert R.fs (path x) ↔ _
        rw [mem_fsInsert, ihs p]
        have hfx : List.filter (fun y => !useCache y fs0) [x] = [x] := by
          simp [hcb]
        rw [List.filter_append, hfx, List.map_append]
        simp only [List.map_cons, List.map_nil, List.mem_append, List.mem_cons,
          List.not_mem_nil, or_false]
        tauto

/-- The returned file list of the shared adapter fold is always the
period paths in order (no hypotheses needed). -/
theorem cacheFold_files {α : Type} (path : α → String)
    (useCache : α → List String → Bool) (acc : CacheRun α) (ms : List α) :
    (ms.foldl (cacheStep path useCache) acc).files = acc.files ++ ms.map path := by
  induction ms generalizing acc with
  | nil => simp
  | cons x xs ih =>
    rw [List.foldl_cons, ih]
    unfold cacheStep
    by_cases hc : useCache x acc.fs <;> simp [hc]

theorem pairLt_ne (a b : Nat × Nat) (h : pairLt a b = true) : a ≠ b := by
  rcases a with ⟨a1, a2⟩
  rcases b with ⟨b1, b2⟩
  unfold pairLt at h
  simp only [beq_iff_eq, decide_eq_true_eq, Bool.or_eq_true, Bool.and_eq_true] at h
  intro hc
  injection hc with h1 h2
  omega

theorem iterMonths_nodup_paths (sy sm ey em : Nat) (dirname pfx : String) :
    ((iterMonths sy sm ey em).map
      (fun ym => monthPath dirname pfx ym.1 ym.2)).Nodup := by
  have hpw := iterMonths_pairwise sy sm ey em
  have hnd : (iterMonths sy sm ey em).Nodup := hpw.imp (fun h => pairLt_ne _ _ h)
  refine List.Nodup.map_on ?_ hnd
  intro x hx y hy hxy
  have hxm := mem_iterMonths_month_le sy sm ey em x hx
  have hym := mem_iterMonths_month_le sy sm ey em y hy
  obtain ⟨h1, h2⟩ := monthPath_inj dirname pfx x.1 x.2 y.1 y.2
    (by omega) (by omega) hxy
  rcases x with ⟨x1, x2⟩
  rcases y with ⟨y1, y2⟩
  simp_all

theorem yearsRange_nodup_paths (y0 y1 : Nat) (dirname pfx : String) :
    ((yearsRange y0 y1).map (fun y => yearPath dirname pfx y)).Nodup := by
  have h1 : (yearsRange y0 y1).Nodup := by
    unfold yearsRange
    refine List.Nodup.map_on ?_ (List.nodup_range _)
    intro x _ y _ h
    omega
  refine List.Nodup.map_on ?_ h1
  intro x _ y _ h
  exact yearPath_inj dirname pfx x y h

/-! ## Claim C1: cache reuse conditions of the per-period adapters -/

/-- C1 (counterexample): with `overwrite=False` (the default), the TIGGE
hourly adapter re-fetches and overwrites an existing monthly file when
the month is at or after the month of `today - timedelta(days=3)`
(`month_is_complete` false), so file existence is not the only condition
governing cache reuse.  Here the file for 2026-10 exists, yet with
`today = 2026-10-12` the month is re-fetched. -/
theorem c1_tigge_counterexample :
    monthPath "d" "x" 2026 10 ∈ [monthPath "d" "x" 2026 10]
    ∧ (2026, 10) ∈ (tigge_download [monthPath "d" "x" 2026 10] ⟨2026, 10, 12⟩
        2026 10 2026 10 "d" "x" false).fetched := by decide

/-- C1 (amended): with their overwrite/skip_existing parameter at the
default, the ERA5-Land monthly and WorldPop yearly adapters fetch a
period remotely iff that period's target file does not exist; the TIGGE
and SEAS5 hourly adapters fetch a month iff its target file does not
exist OR the month is at/after the publication-lag cutoff month
(`today` minus 3 days) — months deemed incomplete are re-fetched and
overwritten even when the cached file exists. -/
theorem lagUseCache_congr (today : Date) (dirname pfx : String) (ow : Bool) :
    ∀ (x : Nat × Nat) (fs fs' : List String),
      (monthPath dirname pfx x.1 x.2 ∈ fs ↔ monthPath dirname pfx x.1 x.2 ∈ fs') →
      lagUseCache today dirname pfx ow x fs = lagUseCache today dirname pfx ow x fs' := by
  intro x fs fs' hiff
  unfold lagUseCache
  rw [fsContains_congr fs fs' _ hiff]

theorem worldpopUseCache_congr (dirname pfx : String) (sk : Bool) :
    ∀ (y : Nat) (fs fs' : List String),
      (yearPath dirname pfx y ∈ fs ↔ yearPath dirname pfx y ∈ fs') →
      worldpopUseCache dirname pfx sk y fs = worldpopUseCache dirname pfx sk y fs' := by
  intro y fs fs' hiff
  unfold worldpopUseCache
  rw [fsContains_congr fs fs' _ hiff]

theorem not_fsContains_iff (fs : List String) (p : String) :
    ((!fsContains fs p) = true) ↔ p ∉ fs := by
  rw [Bool.not_eq_true', ← Bool.not_eq_true]
  constructor
  · intro hb hc
    exact hb ((fsContains_iff fs p).mpr hc)
  · intro hnot hb
    exact hnot ((fsContains_iff fs p).mp hb)

theorem not_lagUseCache_default (today : Date) (dirname pfx : String)
    (q : Nat × Nat) (fs0 : List String) :
    ((!lagUseCache today dirname pfx false q fs0) = true)
    ↔ (monthPath dirname pfx q.1 q.2 ∉ fs0
        ∨ pairGe q ((subDays today 3).year, (subDays today 3).month) = true) := by
  unfold lagUseCache
  simp only [Bool.not_false, Bool.true_and, Bool.not_and, Bool.not_not,
    Bool.or_eq_true]
  rw [not_fsContains_iff]

theorem not_worldpopUseCache_default (dirname pfx : String) (y : Nat)
    (fs0 : List String) :
    ((!worldpopUseCache dirname pfx true y fs0) = true)
    ↔ yearPath dirname pfx y ∉ fs0 := by
  unfold worldpopUseCache
  simp only [Bool.true_and]
  rw [not_fsContains_iff]

theorem c1_cache_reuse (fs0 : List String) (today : Date)
    (sy sm ey em y0 y1 y2 y3 yy : Nat) (dirname pfx : String) (ym : Nat × Nat)
    (hym : ym ∈ iterMonths sy sm ey em) (hyy : yy ∈ yearsRange y2 y3) :
    (ym ∈ (tigge_download fs0 today sy sm ey em dirname pfx false).fetched
      ↔ (monthPath dirname pfx ym.1 ym.2 ∉ fs0
          ∨ pairGe ym ((subDays today 3).year, (subDays today 3).month) = true))
    ∧ (ym ∈ (seas5_download fs0 today sy sm ey em dirname pfx false).fetched
      ↔ (monthPath dirname pfx ym.1 ym.2 ∉ fs0
          ∨ pairGe ym ((subDays today 3).year, (subDays today 3).month) = true))
    ∧ ((era5_land_monthly_download fs0 y0 y1 dirname pfx false).fetched ≠ []
      ↔ rangePath dirname pfx y0 y1 ∉ fs0)
    ∧ (yy ∈ (worldpop_download fs0 y2 y3 dirname pfx true).fetched
      ↔ yearPath dirname pfx yy ∉ fs0) := by
  have hndm := iterMonths_nodup_paths sy sm ey em dirname pfx
  have hcgm := lagUseCache_congr today dirname pfx false
  have hmonth := cacheFold_spec (α := Nat × Nat)
    (fun ym => monthPath dirname pfx ym.1 ym.2)
    (lagUseCache today dirname pfx false) hcgm fs0 (iterMonths sy sm ey em) hndm
  have hndy := yearsRange_nodup_paths y2 y3 dirname pfx
  have hcgy := worldpopUseCache_congr dirname pfx true
  have hyear := cacheFold_spec (α := Nat)
    (fun y => yearPath dirname pfx y)
    (worldpopUseCache dirname pfx true) hcgy fs0 (yearsRange y2 y3) hndy
  refine ⟨?_, ?_, ?_, ?_⟩
  · unfold tigge_download
    rw [hmonth.2.1, List.mem_filter, ← not_lagUseCache_default today dirname pfx ym fs0]
    constructor
    · exact fun h => h.2
    · exact fun h => ⟨hym, h⟩
  · unfold seas5_download
    rw [hmonth.2.1, List.mem_filter, ← not_lagUseCache_default today dirname pfx ym fs0]
    constructor
    · exact fun h => h.2
    · exact fun h => ⟨hym, h⟩
  · simp only [era5_land_monthly_download]
    by_cases hb : fsContains fs0 (rangePath dirname pfx y0 y1)
    · rw [show (!false && fsContains fs0 (rangePath dirname pfx y0 y1)) = true from by
        rw [hb]; rfl]
      simp only [if_true]
      constructor
      · intro hne; exact absurd rfl hne
      · intro hnot; exact absurd ((fsContains_iff _ _).mp hb) hnot
    · have hbf : fsContains fs0 (rangePath dirname pfx y0 y1) = false := by
        cases hbb : fsContains fs0 (rangePath dirname pfx y0 y1)
        · rfl
        · exact absurd hbb hb
      rw [show (!false && fsContains fs0 (rangePath dirname pfx y0 y1)) = false from by
        rw [hbf]; rfl]
      simp only [Bool.false_eq_true, if_false]
      constructor
      · intro _
        intro hc
        rw [(fsContains_iff _ _).mpr hc] at hbf
        cases hbf
      · intro _
        simp
  · unfold worldpop_download
    rw [hyear.2.1, List.mem_filter, ← not_worldpopUseCache_default dirname pfx yy fs0]
    constructor
    · exact fun h => h.2
    · exact fun h => ⟨hyy, h⟩

/-- C1 witness: the amended cache-reuse theorem instantiated on an empty
file system, the single month 2025-01, and the single WorldPop year
2020, with `today = 2026-10-12`. -/
theorem c1_cache_reuse_witness :
    ((2025, 1) ∈ iterMonths 2025 1 2025 1 ∧ 2020 ∈ yearsRange 2020 2020) ∧
    (((2025, 1) ∈ (tigge_download [] ⟨2026, 10, 12⟩ 2025 1 2025 1 "d" "x" false).fetched
      ↔ (monthPath "d" "x" 2025 1 ∉ []
          ∨ pairGe (2025, 1) ((subDays ⟨2026, 10, 12⟩ 3).year,
              (subDays ⟨2026, 10, 12⟩ 3).month) = true))
    ∧ ((2025, 1) ∈ (seas5_download [] ⟨2026, 10, 12⟩ 2025 1 2025 1 "d" "x" false).fetched
      ↔ (monthPath "d" "x" 2025 1 ∉ []
          ∨ pairGe (2025, 1) ((subDays ⟨2026, 10, 12⟩ 3).year,
              (subDays ⟨2026, 10, 12⟩ 3).month) = true))
    ∧ ((era5_land_monthly_download [] 2020 2021 "d" "x" false).fetched ≠ []
      ↔ rangePath "d" "x" 2020 2021 ∉ [])
    ∧ (2020 ∈ (worldpop_download [] 2020 2020 "d" "x" true).fetched
      ↔ yearPath "d" "x" 2020 ∉ [])) :=
  ⟨by decide,
   c1_cache_reuse [] ⟨2026, 10, 12⟩ 2025 1 2025 1 2020 2021 2020 2020 2020 "d" "x"
     (2025, 1) (by decide) (by decide)⟩

/-! ## ERA5-Land hourly: submit, poll loop and download
(src/dhis2eo/data/cds/era5_land/hourly.py) -/

/-- Embedding of `submit` in src/dhis2eo/data/cds/era5_land/hourly.py:
iterate the months of the inclusive range; with the cutoff
`last_updated_date = today - timedelta(days=7)`, months at/after the
cutoff month are skipped entirely (no file entry, no request); complete
months append their save path paired with `None` when the file exists
(and `overwrite` is false), else with the request id returned by the
submission (oracle `submitId`). -/
def era5_land_hourly_submit (fs0 : List String) (today : Date) (sy sm ey em : Nat)
    (dirname pfx : String) (overwrite : Bool) (submitId : Nat → Nat → Nat) :
    List (String × Option Nat) :=
  let last_updated_date := subDays today 7
  (iterMonths sy sm ey em).foldl (fun acc ym =>
    if pairGe ym (last_updated_date.year, last_updated_date.month) then acc
    else
      let save_path := monthPath dirname pfx ym.1 ym.2
      if !overwrite && fsContains fs0 save_path then acc ++ [(save_path, none)]
      else acc ++ [(save_path, some (submitId ym.1 ym.2))]) []

theorem era5_submit_fold (fs0 : List String) (today : Date)
    (dirname pfx : String) (ow : Bool) (submitId : Nat → Nat → Nat)
    (ms : List (Nat × Nat)) (acc : List (String × Option Nat)) :
    ms.foldl (fun acc ym =>
      if pairGe ym ((subDays today 7).year, (subDays today 7).month) then acc
      else
        let save_path := monthPath dirname pfx ym.1 ym.2
        if !ow && fsContains fs0 save_path then acc ++ [(save_path, none)]
        else acc ++ [(save_path, some (submitId ym.1 ym.2))]) acc
    = acc ++ (ms.filter (fun ym =>
          !(pairGe ym ((subDays today 7).year, (subDays today 7).month)))).map
        (fun ym =>
          if !ow && fsContains fs0 (monthPath dirname pfx ym.1 ym.2) then
            (monthPath dirname pfx ym.1 ym.2, (none : Option Nat))
          else (monthPath dirname pfx ym.1 ym.2, some (submitId ym.1 ym.2))) := by
  induction ms generalizing acc with
  | nil => simp
  | cons x xs ih =>
    rw [List.foldl_cons, List.filter_cons]
    by_cases hs : pairGe x ((subDays today 7).year, (subDays today 7).month)
    · rw [if_pos hs, ih]
      have : (!pairGe x ((subDays today 7).year, (subDays today 7).month)) = false := by
        rw [hs]; rfl
      rw [this]
      simp
    · have hsf : pairGe x ((subDays today 7).year, (subDays today 7).month) = false := by
        cases hb : pairGe x ((subDays today 7).year, (subDays today 7).month)
        · rfl
        · exact absurd hb hs
      rw [if_neg hs]
      have hnb : (!pairGe x ((subDays today 7).year, (subDays today 7).month)) = true := by
        rw [hsf]; rfl
      rw [hnb]
      simp only [if_true, List.map_cons]
      by_cases hc : !ow && fsContains fs0 (monthPath dirname pfx x.1 x.2)
      · rw [if_pos hc, if_pos hc, ih]
        simp
      · rw [if_neg hc, if_neg hc, ih]
        simp

/-- The submit fold is the per-month map over the complete months of the
range. -/
theorem era5_submit_eq (fs0 : List String) (today : Date) (sy sm ey em : Nat)
    (dirname pfx : String) (overwrite : Bool) (submitId : Nat → Nat → Nat) :
    era5_land_hourly_submit fs0 today sy sm ey em dirname pfx overwrite submitId
      = ((iterMonths sy sm ey em).filter (fun ym =>
            !(pairGe ym ((subDays today 7).year, (subDays today 7).month)))).map
          (fun ym =>
            if !overwrite && fsContains fs0 (monthPath dirname pfx ym.1 ym.2) then
              (monthPath dirname pfx ym.1 ym.2, (none : Option Nat))
            else (monthPath dirname pfx ym.1 ym.2, some (submitId ym.1 ym.2))) := by
  simp only [era5_land_hourly_submit]
  rw [era5_submit_fold fs0 today dirname pfx overwrite submitId (iterMonths sy sm ey em) []]
  rw [List.nil_append]

/-! ### Polling loop -/

/-- State of the ERA5-Land hourly polling loop: the `(filepath,
request_id)` pairs, the dispatched downloads as `(clock, request_id,
filepath)` triples, and a clock that advances on every sleep. -/
structure PollState where
  results : List (String × Option Nat)
  dispatched : List (Nat × Nat × String)
  clock : Nat
deriving DecidableEq, Repr

/-- The `(request_id, filepath)` pairs whose request id is still set. -/
def pendingPairs (l : List (String × Option Nat)) : List (Nat × String) :=
  l.filterMap (fun pr => match pr with
    | (p, some r) => some (r, p)
    | (_, none) => none)

/-- Embedding of the `while True` polling loop of `download` in
src/dhis2eo/data/cds/era5_land/hourly.py, with explicit fuel: list the
remaining entries with a request id; exit normally when none remain;
otherwise dispatch the first entry whose remote job is ready
(`results_ready`, an oracle of the clock and the request id), clearing
its request id, or sleep (advance the clock) when none is ready. -/
def pollLoop (resultsReady : Nat → Nat → Bool) : Nat → PollState → Option PollState
  | 0, _ => none
  | fuel + 1, st =>
    let remaining := st.results.enum.filter (fun pr => pr.2.2.isSome)
    if remaining.isEmpty then some st
    else
      let ready := remaining.filterMap (fun pr =>
        match pr with
        | (i, (p, some r)) =>
            if resultsReady st.clock r then some (i, p, r) else none
        | (_, (_, none)) => none)
      match ready with
      | [] => pollLoop resultsReady fuel { st with clock := st.clock + 1 }
      | (i, p, r) :: _ =>
          pollLoop resultsReady fuel
            { st with results := st.results.set i (p, none),
                      dispatched := st.dispatched ++ [(st.clock, r, p)] }

theorem pendingPairs_set (l : List (String × Option Nat)) (i : Nat) (p : String) (r : Nat)
    (h : l[i]? = some (p, some r)) :
    (pendingPairs (l.set i (p, none)) ++ [(r, p)]).Perm (pendingPairs l) := by
  induction l generalizing i with
  | nil => simp at h
  | cons hd tl ih =>
    cases i with
    | zero =>
      simp only [List.getElem?_cons_zero, Option.some_inj] at h
      subst h
      simp only [List.set_cons_zero, pendingPairs, List.filterMap_cons]
      exact (List.perm_append_singleton _ _).trans (List.Perm.refl _) |>.symm.symm
    | succ j =>
      simp only [List.getElem?_cons_succ] at h
      rw [List.set_cons_succ]
      rcases hd with ⟨p0, o0⟩
      cases o0 with
      | none =>
        simp only [pendingPairs, List.filterMap_cons]
        exact ih j h
      | some r0 =>
        simp only [pendingPairs, List.filterMap_cons, List.cons_append]
        exact (ih j h).cons (r0, p0)

theorem map_fst_set (l : List (String × Option Nat)) (i : Nat) (p : String)
    (x y : Option Nat) (h : l[i]? = some (p, x)) :
    ((l.set i (p, y)).map Prod.fst) = l.map Prod.fst := by
  induction l generalizing i with
  | nil => simp at h
  | cons hd tl ih =>
    cases i with
    | zero =>
      simp only [List.getElem?_cons_zero, Option.some_inj] at h
      rw [List.set_cons_zero]
      simp only [List.map_cons]
      rw [h]
    | succ j =>
      simp only [List.getElem?_cons_succ] at h
      rw [List.set_cons_succ]
      simp only [List.map_cons]
      rw [ih j h]

theorem pendingPairs_eq_nil_of_no_remaining (l : List (String × Option Nat))
    (h : (l.enum.filter (fun pr => pr.2.2.isSome)).isEmpty = true) :
    pendingPairs l = [] := by
  rw [List.isEmpty_iff, List.filter_eq_nil_iff] at h
  unfold pendingPairs
  rw [List.filterMap_eq_nil_iff]
  intro pr hpr
  obtain ⟨i, hi⟩ := List.mem_iff_getElem?.mp hpr
  have hmem : (i, pr) ∈ l.enum := by
    rw [List.mem_enum_iff_getElem?]
    exact hi
  have := h (i, pr) hmem
  rcases pr with ⟨p, o⟩
  cases o with
  | none => rfl
  | some r => simp at this

/-- Invariant of the polling loop: on normal exit, every newly
dispatched download was ready at its dispatch time, the dispatched
`(id, path)` pairs together with the still-pending pairs are a
permutation of the initial ones, no pending pair remains, and the file
paths of the tracked results are unchanged. -/
theorem pollLoop_spec (oracle : Nat → Nat → Bool) (fuel : Nat) (st fin : PollState)
    (h : pollLoop oracle fuel st = some fin) :
    (∀ e ∈ fin.dispatched, e ∈ st.dispatched ∨ oracle e.1 e.2.1 = true)
    ∧ (fin.dispatched.map (fun e => (e.2.1, e.2.2)) ++ pendingPairs fin.results).Perm
        (st.dispatched.map (fun e => (e.2.1, e.2.2)) ++ pendingPairs st.results)
    ∧ pendingPairs fin.results = []
    ∧ fin.results.map Prod.fst = st.results.map Prod.fst := by
  induction fuel generalizing st with
  | zero => simp [pollLoop] at h
  | succ fuel ih =>
    simp only [pollLoop] at h
    by_cases hrem : (st.results.enum.filter (fun pr => pr.2.2.isSome)).isEmpty
    · rw [if_pos hrem] at h
      have hfin : st = fin := Option.some_inj.mp h
      subst hfin
      refine ⟨fun e he => Or.inl he, List.Perm.refl _,
        pendingPairs_eq_nil_of_no_remaining _ hrem, rfl⟩
    · rw [if_neg hrem] at h
      cases hready : (st.results.enum.filter (fun pr => pr.2.2.isSome)).filterMap
          (fun pr =>
            match pr with
            | (i, (p, some r)) =>
                if oracle st.clock r then some (i, p, r) else none
            | (_, (_, none)) => none) with
      | nil =>
        rw [hready] at h
        have hstep : pollLoop oracle fuel
            { st with clock := st.clock + 1 } = some fin := h
        obtain ⟨h1, h2, h3, h4⟩ := ih _ hstep
        exact ⟨h1, h2, h3, h4⟩
      | cons hd tail =>
        rw [hready] at h
        rcases hd with ⟨i, p, r⟩
        have hhd : (i, p, r) ∈ (st.results.enum.filter (fun pr => pr.2.2.isSome)).filterMap
            (fun pr =>
              match pr with
              | (i, (p, some r)) =>
                  if oracle st.clock r then some (i, p, r) else none
              | (_, (_, none)) => none) := by
          rw [hready]
          exact List.mem_cons_self _ _
        rw [List.mem_filterMap] at hhd
        obtain ⟨a, ha, hfa⟩ := hhd
        rcases a with ⟨i', p', o⟩
        cases o with
        | none => simp at hfa
        | some r' =>
          have hfa2 : (if oracle st.clock r' = true then some (i', p', r') else none)
              = some (i, p, r) := hfa
          by_cases ho : oracle st.clock r'
          · rw [if_pos ho] at hfa2
            rw [Option.some_inj, Prod.mk.injEq, Prod.mk.injEq] at hfa2
            obtain ⟨rfl, rfl, rfl⟩ := hfa2
            have hget : st.results[i']? = some (p', some r') := by
              have := (List.mem_filter.mp ha).1
              rw [List.mem_enum_iff_getElem?] at this
              exact this
            have hstep : pollLoop oracle fuel
                { st with results := st.results.set i' (p', none),
                          dispatched := st.dispatched ++ [(st.clock, r', p')] }
                = some fin := h
            obtain ⟨h1, h2, h3, h4⟩ := ih _ hstep
            refine ⟨?_, ?_, h3, ?_⟩
            · intro e he
              rcases h1 e he with hin | hor
              · rw [show ({ st with
                    results := st.results.set i' (p', none),
                    dispatched := st.dispatched ++ [(st.clock, r', p')] } :
                      PollState).dispatched
                  = st.dispatched ++ [(st.clock, r', p')] from rfl] at hin
                rcases List.mem_append.mp hin with hin2 | hin2
                · exact Or.inl hin2
                · rcases List.mem_cons.mp hin2 with heq | hf
                  · subst heq
                    exact Or.inr ho
                  · cases hf
              · exact Or.inr hor
            · have hperm := pendingPairs_set st.results i' p' r' hget
              refine h2.trans ?_
              rw [show ({ st with
                    results := st.results.set i' (p', none),
                    dispatched := st.dispatched ++ [(st.clock, r', p')] } :
                      PollState).dispatched
                  = st.dispatched ++ [(st.clock, r', p')] from rfl]
              rw [show ({ st with
                    results := st.results.set i' (p', none),
                    dispatched := st.dispatched ++ [(st.clock, r', p')] } :
                      PollState).results
                  = st.results.set i' (p', none) from rfl]
              rw [List.map_append, List.append_assoc]
              refine List.Perm.append_left _ ?_
              rw [show (List.map (fun e => (e.2.1, e.2.2)) [(st.clock, r', p')])
                  = [(r', p')] from rfl]
              exact (List.perm_append_comm).trans hperm
            · rw [h4]
              exact map_fst_set st.results i' p' (some r') none hget
          · rw [if_neg ho] at hfa2
            cases hfa2

/-- Embedding of `download` in src/dhis2eo/data/cds/era5_land/hourly.py:
submit (or reuse from cache) each complete month, run the polling loop
when any request was submitted, and return the local file paths.
Returns `none` when the fuel of the polling loop runs out (the source
loop would still be polling). -/
def era5_land_hourly_download (fs0 : List String) (today : Date) (sy sm ey em : Nat)
    (dirname pfx : String) (overwrite : Bool) (submitId : Nat → Nat → Nat)
    (resultsReady : Nat → Nat → Bool) (fuel : Nat) :
    Option (List String × PollState) :=
  let results := era5_land_hourly_submit fs0 today sy sm ey em dirname pfx
    overwrite submitId
  let total_downloads := (results.filter (fun pr => pr.2.isSome)).length
  if total_downloads ≠ 0 then
    match pollLoop resultsReady fuel ⟨results, [], 0⟩ with
    | none => none
    | some fin => some (fin.results.map Prod.fst, fin)
  else
    some (results.map Prod.fst, ⟨results, [], 0⟩)

/-! ## Claim C3: the ERA5-Land hourly polling loop -/

/-- C3: starting the polling loop on submitted results with no prior
dispatches, if it terminates normally then: every dispatched download
was dispatched at a time when the remote reported it ready; the
dispatched `(request id, file path)` pairs are exactly (a permutation
of) the submitted pending pairs, so each submitted job is dispatched
exactly once and its request id is cleared on dispatch; no pending
request id remains at exit; every submitted job's result was dispatched
for download to its designated file path; and when the submitted ids
are distinct no pair is dispatched twice. -/
theorem c3_poll_loop (oracle : Nat → Nat → Bool) (fuel : Nat)
    (init : List (String × Option Nat)) (fin : PollState)
    (h : pollLoop oracle fuel ⟨init, [], 0⟩ = some fin) :
    (∀ e ∈ fin.dispatched, oracle e.1 e.2.1 = true)
    ∧ (fin.dispatched.map (fun e => (e.2.1, e.2.2))).Perm (pendingPairs init)
    ∧ pendingPairs fin.results = []
    ∧ (∀ pr ∈ init, ∀ r : Nat, pr.2 = some r →
        ∃ t : Nat, (t, r, pr.1) ∈ fin.dispatched)
    ∧ ((pendingPairs init).Nodup →
        (fin.dispatched.map (fun e => (e.2.1, e.2.2))).Nodup) := by
  obtain ⟨h1, h2, h3, h4⟩ := pollLoop_spec oracle fuel ⟨init, [], 0⟩ fin h
  have h2' : (fin.dispatched.map (fun e => (e.2.1, e.2.2))).Perm (pendingPairs init) := by
    have := h2
    rw [h3] at this
    simpa using this
  refine ⟨?_, h2', h3, ?_, ?_⟩
  · intro e he
    rcases h1 e he with hin | hor
    · cases hin
    · exact hor
  · intro pr hpr r hr
    have hmem : (r, pr.1) ∈ pendingPairs init := by
      unfold pendingPairs
      rw [List.mem_filterMap]
      refine ⟨pr, hpr, ?_⟩
      rcases pr with ⟨p, o⟩
      simp only at hr
      rw [hr]
    have : (r, pr.1) ∈ fin.dispatched.map (fun e => (e.2.1, e.2.2)) :=
      h2'.mem_iff.mpr hmem
    rw [List.mem_map] at this
    obtain ⟨e, he, heq⟩ := this
    refine ⟨e.1, ?_⟩
    rcases e with ⟨t, r0, p0⟩
    simp only [Prod.mk.injEq] at heq
    rw [show ((t, r0, p0) : Nat × Nat × String).1 = t from rfl]
    rw [← heq.1, ← heq.2]
    exact he
  · intro hnd
    exact h2'.nodup_iff.mpr hnd

/-- C3 witness: a single submitted job with request id 7 and an
always-ready oracle; two units of fuel let the loop dispatch it and
exit. -/
theorem c3_poll_loop_witness :
    (∀ e ∈ (PollState.mk [("f1", none)] [(0, 7, "f1")] 0).dispatched,
        (fun _ _ => true : Nat → Nat → Bool) e.1 e.2.1 = true)
    ∧ ((PollState.mk [("f1", none)] [(0, 7, "f1")] 0).dispatched.map
        (fun e => (e.2.1, e.2.2))).Perm (pendingPairs [("f1", some 7)])
    ∧ pendingPairs (PollState.mk [("f1", none)] [(0, 7, "f1")] 0).results = []
    ∧ (∀ pr ∈ [("f1", some 7)], ∀ r : Nat, pr.2 = some r →
        ∃ t : Nat, (t, r, pr.1) ∈ (PollState.mk [("f1", none)] [(0, 7, "f1")] 0).dispatched)
    ∧ ((pendingPairs [("f1", some 7)]).Nodup →
        ((PollState.mk [("f1", none)] [(0, 7, "f1")] 0).dispatched.map
          (fun e => (e.2.1, e.2.2))).Nodup) :=
  c3_poll_loop (fun _ _ => true) 2 [("f1", some 7)]
    (PollState.mk [("f1", none)] [(0, 7, "f1")] 0) (by decide)

/-! ## Claim C7: the ERA5-Land hourly submit function -/

/-- C7: when every month of the requested range lies strictly before the
publication-lag cutoff month (`today - timedelta(days=7)`), `submit`
with `overwrite=False` returns one `(file path, request id)` pair per
month, positionally aligned with the chronologically ordered month
list: the id is `None` exactly when the month's file already exists,
and otherwise the id of the submitted request. -/
theorem c7_era5_submit (fs0 : List String) (today : Date) (sy sm ey em : Nat)
    (dirname pfx : String) (submitId : Nat → Nat → Nat)
    (hall : ∀ ym ∈ iterMonths sy sm ey em,
      pairGe ym ((subDays today 7).year, (subDays today 7).month) = false) :
    era5_land_hourly_submit fs0 today sy sm ey em dirname pfx false submitId
      = (iterMonths sy sm ey em).map (fun ym =>
          if fsContains fs0 (monthPath dirname pfx ym.1 ym.2) then
            (monthPath dirname pfx ym.1 ym.2, (none : Option Nat))
          else (monthPath dirname pfx ym.1 ym.2, some (submitId ym.1 ym.2)))
    ∧ (iterMonths sy sm ey em).Pairwise (fun a b => pairLt a b = true) := by
  refine ⟨?_, iterMonths_pairwise sy sm ey em⟩
  rw [era5_submit_eq]
  have hfilter : (iterMonths sy sm ey em).filter (fun ym =>
      !(pairGe ym ((subDays today 7).year, (subDays today 7).month)))
      = iterMonths sy sm ey em := by
    rw [List.filter_eq_self]
    intro ym hym
    rw [hall ym hym]
    rfl
  rw [hfilter]
  apply List.map_congr_left
  intro ym _
  rw [show (!false) = true from rfl, Bool.true_and]

/-- C7 witness: range 2026-08 with `today = 2026-10-12` (cutoff month
2026-10), an empty file system and request ids from the oracle. -/
theorem c7_era5_submit_witness :
    (∀ ym ∈ iterMonths 2026 8 2026 8,
      pairGe ym ((subDays ⟨2026, 10, 12⟩ 7).year, (subDays ⟨2026, 10, 12⟩ 7).month)
        = false) ∧
    (era5_land_hourly_submit [] ⟨2026, 10, 12⟩ 2026 8 2026 8 "d" "x" false
        (fun y m => y * 100 + m)
      = (iterMonths 2026 8 2026 8).map (fun ym =>
          if fsContains [] (monthPath "d" "x" ym.1 ym.2) then
            (monthPath "d" "x" ym.1 ym.2, (none : Option Nat))
          else (monthPath "d" "x" ym.1 ym.2, some (ym.1 * 100 + ym.2)))
    ∧ (iterMonths 2026 8 2026 8).Pairwise (fun a b => pairLt a b = true)) :=
  ⟨by decide,
   c7_era5_submit [] ⟨2026, 10, 12⟩ 2026 8 2026 8 "d" "x" (fun y m => y * 100 + m)
     (by decide)⟩

theorem yearsRange_pairwise (y0 y1 : Nat) :
    (yearsRange y0 y1).Pairwise (fun a b => a < b) := by
  unfold yearsRange
  rw [List.pairwise_map]
  exact (List.pairwise_lt_range _).imp (by intro a b hab; omega)

/-- File paths returned by the ERA5-Land hourly download: one per month
strictly before the cutoff month, in iteration order. -/
theorem era5_hourly_files (fs0 : List String) (today : Date) (sy sm ey em : Nat)
    (dirname pfx : String) (submitId : Nat → Nat → Nat)
    (oracle : Nat → Nat → Bool) (fuel : Nat) (files : List String) (fin : PollState)
    (h : era5_land_hourly_download fs0 today sy sm ey em dirname pfx false
      submitId oracle fuel = some (files, fin)) :
    files = ((iterMonths sy sm ey em).filter (fun ym =>
        !(pairGe ym ((subDays today 7).year, (subDays today 7).month)))).map
      (fun ym => monthPath dirname pfx ym.1 ym.2) := by
  have hmapfst : (era5_land_hourly_submit fs0 today sy sm ey em dirname pfx
        false submitId).map Prod.fst
      = ((iterMonths sy sm ey em).filter (fun ym =>
          !(pairGe ym ((subDays today 7).year, (subDays today 7).month)))).map
        (fun ym => monthPath dirname pfx ym.1 ym.2) := by
    rw [era5_submit_eq, List.map_map]
    apply List.map_congr_left
    intro ym _
    by_cases hc : fsContains fs0 (monthPath dirname pfx ym.1 ym.2) <;>
      simp [hc]
  simp only [era5_land_hourly_download] at h
  by_cases htot : ((era5_land_hourly_submit fs0 today sy sm ey em dirname pfx
      false submitId).filter (fun pr => pr.2.isSome)).length ≠ 0
  · rw [if_pos htot] at h
    cases hpoll : pollLoop oracle fuel
        ⟨era5_land_hourly_submit fs0 today sy sm ey em dirname pfx false submitId,
         [], 0⟩ with
    | none => rw [hpoll] at h; cases h
    | some fin' =>
      rw [hpoll] at h
      rw [Option.some_inj, Prod.mk.injEq] at h
      obtain ⟨hfiles, _⟩ := h
      obtain ⟨_, _, _, h4⟩ := pollLoop_spec oracle fuel _ fin' hpoll
      rw [← hfiles, h4]
      exact hmapfst
  · rw [if_neg htot] at h
    rw [Option.some_inj, Prod.mk.injEq] at h
    obtain ⟨hfiles, _⟩ := h
    rw [← hfiles]
    exact hmapfst

/-! ## Claim C2: returned file lists of the adapters -/

/-- C2 (counterexample): the claim requires every adapter to return one
cache path per period of the requested range, but the ERA5-Land hourly
adapter skips months at/after the cutoff month entirely.  For the range
2026-10..2026-10 with `today = 2026-10-12` the range has one month, yet
the returned file list is empty. -/
theorem c2_era5_hourly_counterexample :
    era5_land_hourly_download [] ⟨2026, 10, 12⟩ 2026 10 2026 10 "d" "x" false
        (fun _ _ => 0) (fun _ _ => true) 1
      = some ([], ⟨[], [], 0⟩)
    ∧ iterMonths 2026 10 2026 10 = [(2026, 10)] := by decide

/-- C2 (amended): each file-returning adapter returns exactly the list
of its target period-file paths in chronological order, one per period
file, regardless of cache state: TIGGE and SEAS5 one path per month of
the range; WorldPop one path per year; ERA5-Land monthly a single path
for the whole range; ERA5-Land hourly one path per month strictly
before the publication-lag cutoff month (months at/after the cutoff are
omitted from the returned list). -/
theorem c2_adapter_files (fs0 : List String) (today : Date)
    (sy sm ey em y0 y1 y2 y3 : Nat) (dirname pfx : String) (ow sk : Bool)
    (submitId : Nat → Nat → Nat) (oracle : Nat → Nat → Bool) (fuel : Nat)
    (files : List String) (fin : PollState)
    (h : era5_land_hourly_download fs0 today sy sm ey em dirname pfx false
      submitId oracle fuel = some (files, fin)) :
    (tigge_download fs0 today sy sm ey em dirname pfx ow).files
        = (iterMonths sy sm ey em).map (fun ym => monthPath dirname pfx ym.1 ym.2)
    ∧ (seas5_download fs0 today sy sm ey em dirname pfx ow).files
        = (iterMonths sy sm ey em).map (fun ym => monthPath dirname pfx ym.1 ym.2)
    ∧ (era5_land_monthly_download fs0 y0 y1 dirname pfx ow).files
        = [rangePath dirname pfx y0 y1]
    ∧ (worldpop_download fs0 y2 y3 dirname pfx sk).files
        = (yearsRange y2 y3).map (fun y => yearPath dirname pfx y)
    ∧ files = ((iterMonths sy sm ey em).filter (fun ym =>
          !(pairGe ym ((subDays today 7).year, (subDays today 7).month)))).map
        (fun ym => monthPath dirname pfx ym.1 ym.2)
    ∧ (iterMonths sy sm ey em).Pairwise (fun a b => pairLt a b = true)
    ∧ (yearsRange y2 y3).Pairwise (fun a b => a < b) := by
  refine ⟨?_, ?_, ?_, ?_, era5_hourly_files fs0 today sy sm ey em dirname pfx
      submitId oracle fuel files fin h,
    iterMonths_pairwise sy sm ey em, yearsRange_pairwise y2 y3⟩
  · unfold tigge_download
    rw [cacheFold_files]
    rfl
  · unfold seas5_download
    rw [cacheFold_files]
    rfl
  · simp only [era5_land_monthly_download]
    by_cases hb : !ow && fsContains fs0 (rangePath dirname pfx y0 y1) <;>
      simp [hb]
  · unfold worldpop_download
    rw [cacheFold_files]
    rfl

/-- C2 witness: the amended theorem instantiated on an empty file
system, month range 2026-08 (complete relative to `today =
2026-10-12`), years 2020-2021, an always-ready oracle and enough fuel
for the loop to dispatch the single job and exit. -/
theorem c2_adapter_files_witness :
    (era5_land_hourly_download [] ⟨2026, 10, 12⟩ 2026 8 2026 8 "d" "x" false
        (fun _ _ => 5) (fun _ _ => true) 2
      = some ([monthPath "d" "x" 2026 8],
          ⟨[(monthPath "d" "x" 2026 8, none)], [(0, 5, monthPath "d" "x" 2026 8)], 0⟩))
    ∧ ((tigge_download [] ⟨2026, 10, 12⟩ 2026 8 2026 8 "d" "x" false).files
        = (iterMonths 2026 8 2026 8).map (fun ym => monthPath "d" "x" ym.1 ym.2)
    ∧ (seas5_download [] ⟨2026, 10, 12⟩ 2026 8 2026 8 "d" "x" false).files
        = (iterMonths 2026 8 2026 8).map (fun ym => monthPath "d" "x" ym.1 ym.2)
    ∧ (era5_land_monthly_download [] 2020 2021 "d" "x" false).files
        = [rangePath "d" "x" 2020 2021]
    ∧ (worldpop_download [] 2020 2021 "d" "x" true).files
        = (yearsRange 2020 2021).map (fun y => yearPath "d" "x" y)
    ∧ [monthPath "d" "x" 2026 8] = ((iterMonths 2026 8 2026 8).filter (fun ym =>
          !(pairGe ym ((subDays ⟨2026, 10, 12⟩ 7).year,
              (subDays ⟨2026, 10, 12⟩ 7).month)))).map
        (fun ym => monthPath "d" "x" ym.1 ym.2)
    ∧ (iterMonths 2026 8 2026 8).Pairwise (fun a b => pairLt a b = true)
    ∧ (yearsRange 2020 2021).Pairwise (fun a b => a < b)) :=
  ⟨by decide,
   c2_adapter_files [] ⟨2026, 10, 12⟩ 2026 8 2026 8 2020 2021 2020 2021 "d" "x"
     false true (fun _ _ => 5) (fun _ _ => true) 2 [monthPath "d" "x" 2026 8]
     ⟨[(monthPath "d" "x" 2026 8, none)], [(0, 5, monthPath "d" "x" 2026 8)], 0⟩
     (by decide)⟩

/-! ## Python exception kinds raised by the embedded code -/

/-- The exception kinds the embedded functions can raise. -/
inductive PyErr where
  | valueError
  | keyError
  | typeError
  | notImplementedError
  | ioError
deriving DecidableEq, Repr

/-! ## `netcdf_cache` (src/dhis2eo/data/utils.py) -/

/-- Context of the `netcdf_cache` decorator: the cache directory and an
abstract stand-in for `hashlib.md5(key_data.encode()).hexdigest()[:10]`. -/
structure CacheCtx where
  cacheDir : String
  md5trunc : String → String

/-- `func_id.replace(".", "_")`. -/
def safeFuncId (funcId : String) : String :=
  String.mk (funcId.data.map (fun c => if c = '.' then '_' else c))

/-- The cache file path `cache_dir/{safe_func_id}_{key_hash}.nc` built by
the wrapper from the module-qualified function name and the hash of the
stringified arguments. -/
def cacheFilename (ctx : CacheCtx) (funcId argStr : String) : String :=
  ctx.cacheDir ++ "/" ++ safeFuncId funcId ++ "_" ++ ctx.md5trunc argStr ++ ".nc"

/-- Lookup of a stored netCDF file by path. -/
def cacheLookup {α : Type} (fs : List (String × α)) (p : String) : Option α :=
  (fs.find? (fun e => e.1 == p)).map Prod.snd

/-- Result of one call through the `netcdf_cache` wrapper: the returned
value (or propagated exception), the resulting file store, whether the
wrapped function ran, and the remote reads it performed. -/
structure WrappedCall (α : Type) where
  ret : Except PyErr α
  fs : List (String × α)
  invoked : Bool
  reads : List String
deriving DecidableEq, Repr

/-- Embedding of the wrapper built by `netcdf_cache` in
src/dhis2eo/data/utils.py: compute the cache path from the function id
and argument hash; if the file exists return its contents without
running the wrapped function; otherwise run the function (`func` is its
behaviour on these arguments, paired with the remote reads it performs),
save the result to the cache path and return it re-read from that path
(saving then re-opening is the identity in this model); exceptions
propagate without writing. -/
def netcdf_cache_call {α : Type} (ctx : CacheCtx) (funcId : String)
    (func : Except PyErr α × List String) (argStr : String)
    (fs : List (String × α)) : WrappedCall α :=
  let path := cacheFilename ctx funcId argStr
  match cacheLookup fs path with
  | some ds => ⟨.ok ds, fs, false, []⟩
  | none =>
      match func with
      | (.error e, reads) => ⟨.error e, fs, true, reads⟩
      | (.ok ds, reads) => ⟨.ok ds, (path, ds) :: fs, true, reads⟩

/-! ## Claim C5: idempotence of `netcdf_cache` -/

/-- C5: for any wrapped function and argument list whose cache file does
not yet exist, the first call runs the function and persists its result
under the cache path derived from the module-qualified function name and
the truncated MD5 of the stringified arguments; a second call with
identical arguments does not run the wrapped function again and returns
the same dataset, read back from that same cache file. -/
theorem c5_netcdf_cache (α : Type) (ctx : CacheCtx) (funcId argStr : String)
    (func : Except PyErr α × List String) (fs : List (String × α)) (ds : α)
    (hmiss : cacheLookup fs (cacheFilename ctx funcId argStr) = none)
    (hok : func.1 = .ok ds) :
    (netcdf_cache_call ctx funcId func argStr fs).invoked = true
    ∧ (netcdf_cache_call ctx funcId func argStr fs).ret = .ok ds
    ∧ cacheLookup (netcdf_cache_call ctx funcId func argStr fs).fs
        (cacheFilename ctx funcId argStr) = some ds
    ∧ (netcdf_cache_call ctx funcId func argStr
        (netcdf_cache_call ctx funcId func argStr fs).fs).invoked = false
    ∧ (netcdf_cache_call ctx funcId func argStr
        (netcdf_cache_call ctx funcId func argStr fs).fs).ret
      = (netcdf_cache_call ctx funcId func argStr fs).ret := by
  rcases func with ⟨r, reads⟩
  simp only at hok
  subst hok
  have h1 : netcdf_cache_call ctx funcId (Except.ok ds, reads) argStr fs
      = ⟨.ok ds, (cacheFilename ctx funcId argStr, ds) :: fs, true, reads⟩ := by
    simp only [netcdf_cache_call]
    rw [hmiss]
  rw [h1]
  have h2 : cacheLookup ((cacheFilename ctx funcId argStr, ds) :: fs)
      (cacheFilename ctx funcId argStr) = some ds := by
    unfold cacheLookup
    rw [List.find?_cons_of_pos _ (by simp)]
    rfl
  have h3 : netcdf_cache_call ctx funcId (Except.ok ds, reads) argStr
      ((cacheFilename ctx funcId argStr, ds) :: fs)
      = ⟨.ok ds, (cacheFilename ctx funcId argStr, ds) :: fs, false, []⟩ := by
    simp only [netcdf_cache_call]
    rw [h2]
  rw [h3]
  exact ⟨rfl, rfl, h2, rfl, rfl⟩

/-- C5 witness: a concrete wrapped function returning `42` on a fresh
cache. -/
theorem c5_netcdf_cache_witness :
    (cacheLookup ([] : List (String × Nat))
        (cacheFilename ⟨"cache", fun _ => "abc123"⟩ "mod.fn" "(1,)") = none) ∧
    ((netcdf_cache_call ⟨"cache", fun _ => "abc123"⟩ "mod.fn"
        (Except.ok 42, ["url"]) "(1,)" []).invoked = true
    ∧ (netcdf_cache_call ⟨"cache", fun _ => "abc123"⟩ "mod.fn"
        (Except.ok 42, ["url"]) "(1,)" []).ret = .ok 42
    ∧ cacheLookup (netcdf_cache_call ⟨"cache", fun _ => "abc123"⟩ "mod.fn"
        (Except.ok 42, ["url"]) "(1,)" []).fs
        (cacheFilename ⟨"cache", fun _ => "abc123"⟩ "mod.fn" "(1,)") = some 42
    ∧ (netcdf_cache_call ⟨"cache", fun _ => "abc123"⟩ "mod.fn"
        (Except.ok 42, ["url"]) "(1,)"
        (netcdf_cache_call ⟨"cache", fun _ => "abc123"⟩ "mod.fn"
          (Except.ok 42, ["url"]) "(1,)" []).fs).invoked = false
    ∧ (netcdf_cache_call ⟨"cache", fun _ => "abc123"⟩ "mod.fn"
        (Except.ok 42, ["url"]) "(1,)"
        (netcdf_cache_call ⟨"cache", fun _ => "abc123"⟩ "mod.fn"
          (Except.ok 42, ["url"]) "(1,)" []).fs).ret
      = (netcdf_cache_call ⟨"cache", fun _ => "abc123"⟩ "mod.fn"
          (Except.ok 42, ["url"]) "(1,)" []).ret) :=
  ⟨by decide,
   c5_netcdf_cache Nat ⟨"cache", fun _ => "abc123"⟩ "mod.fn" "(1,)"
     (Except.ok 42, ["url"]) [] 42 (by decide) (by decide)⟩

/-! ## Rata-die day numbering (used for day iteration and ISO weeks) -/

/-- Days in all years strictly before `y` (proleptic Gregorian,
year 1 starts at day 1). -/
def daysBeforeYear (y : Nat) : Nat :=
  365 * (y - 1) + (y - 1) / 4 - (y - 1) / 100 + (y - 1) / 400

/-- Days in the months of year `y` strictly before month `m`. -/
def daysBeforeMonth (y m : Nat) : Nat :=
  ((List.range (m - 1)).map (fun i => daysInMonth y (i + 1))).sum

/-- Day number of a date, with 0001-01-01 = 1 (a Monday). -/
def rataDie (d : Date) : Nat :=
  daysBeforeYear d.year + daysBeforeMonth d.year d.month + d.day

/-- Python tuple/`date` comparison `a < b`. -/
def dateLt (a b : Date) : Bool :=
  a.year < b.year
    || (a.year == b.year
        && (a.month < b.month || (a.month == b.month && a.day < b.day)))

/-- Python `date` comparison `a <= b`. -/
def dateLe (a b : Date) : Bool := dateLt a b || a == b

/-- Embedding of `_iter_days` / `iter_days`: all dates from `start` to
`end` inclusive (fuel bounded by the rata-die distance). -/
def iterDaysAux (e : Date) : Nat → Date → List Date
  | 0, _ => []
  | fuel + 1, cur => if dateLe cur e then cur :: iterDaysAux e fuel (nextDay cur) else []

/-- All dates from `s` to `e`, inclusive. -/
def iterDays (s e : Date) : List Date := iterDaysAux e (rataDie e + 1 - rataDie s) s

/-! ## CHIRPS3 daily (src/dhis2eo/data/chc/chirps3/daily.py) -/

/-- Embedding of `url_for_day`: the CHC URL of one daily GeoTIFF, with
the `ValueError` checks on `stage` and `flavor`. -/
def url_for_day (d : Date) (stage flavor : String) : Except PyErr String :=
  if !(stage == "final" || stage == "prelim") then .error .valueError
  else if stage == "final" then
    if !(flavor == "rnl" || flavor == "sat") then .error .valueError
    else .ok ("https://data.chc.ucsb.edu/products/CHIRPS/v3.0/daily/final/"
      ++ flavor ++ "/" ++ pyNatRepr d.year ++ "/chirps-v3.0." ++ flavor ++ "."
      ++ pyNatRepr d.year ++ "." ++ fmt0 2 d.month ++ "." ++ fmt0 2 d.day ++ ".tif")
  else if !(flavor == "sat") then .error .valueError
  else .ok ("https://data.chc.ucsb.edu/products/CHIRPS/v3.0/daily/prelim/sat/"
    ++ pyNatRepr d.year ++ "/chirps-v3.0.prelim."
    ++ pyNatRepr d.year ++ "." ++ fmt0 2 d.month ++ "." ++ fmt0 2 d.day ++ ".tif")

/-- The day-by-day read loop of `get`: reads each day's URL through the
`remote` oracle (which may raise, e.g. a 404), collecting the day slices
and the performed reads; the first exception aborts the loop. -/
def chirpsLoop (remote : String → Except PyErr Unit) (stage flavor : String) :
    List Date → Except PyErr (List (Date × String)) × List String
  | [] => (.ok [], [])
  | d :: ds =>
    match url_for_day d stage flavor with
    | .error e => (.error e, [])
    | .ok url =>
      match remote url with
      | .error e => (.error e, [url])
      | .ok _ =>
        match chirpsLoop remote stage flavor ds with
        | (.ok rest, reads) => (.ok ((d, url) :: rest), url :: reads)
        | (.error e, reads) => (.error e, url :: reads)

/-- Embedding of the body of `get` (before the `netcdf_cache` wrapper):
normalize the dates (here already `Date`s), raise `ValueError` when
`end` is before `start` — before any remote read — and otherwise stack
the daily reads. -/
def chirps_get_inner (remote : String → Except PyErr Unit)
    (startD endD : Date) (stage flavor : String) :
    Except PyErr (List (Date × String)) × List String :=
  if dateLt endD startD then (.error .valueError, [])
  else chirpsLoop remote stage flavor (iterDays startD endD)

/-- Embedding of `get` in src/dhis2eo/data/chc/chirps3/daily.py: the
inner body behind the `netcdf_cache()` decorator; `argStr` stands for
the stringified call arguments hashed into the cache file name. -/
def chirps3_get (ctx : CacheCtx) (remote : String → Except PyErr Unit)
    (startD endD : Date) (stage flavor : String) (argStr : String)
    (fs : List (String × List (Date × String))) :
    WrappedCall (List (Date × String)) :=
  netcdf_cache_call ctx "dhis2eo.data.chc.chirps3.daily.get"
    (chirps_get_inner remote startD endD stage flavor) argStr fs

/-! ## Claim C10: `chirps3.daily.get` with `end` before `start` -/

/-- C10: for dates with `end` earlier than `start` and no pre-existing
cache file for these arguments, `get` raises `ValueError`, performs no
remote read, and leaves the on-disk cache unchanged (though the wrapped
function did run). -/
theorem c10_chirps_end_before_start (ctx : CacheCtx)
    (remote : String → Except PyErr Unit) (startD endD : Date)
    (stage flavor argStr : String) (fs : List (String × List (Date × String)))
    (hlt : dateLt endD startD = true)
    (hmiss : cacheLookup fs
      (cacheFilename ctx "dhis2eo.data.chc.chirps3.daily.get" argStr) = none) :
    (chirps3_get ctx remote startD endD stage flavor argStr fs).ret
        = .error .valueError
    ∧ (chirps3_get ctx remote startD endD stage flavor argStr fs).reads = []
    ∧ (chirps3_get ctx remote startD endD stage flavor argStr fs).fs = fs := by
  have hinner : chirps_get_inner remote startD endD stage flavor
      = (.error .valueError, []) := by
    unfold chirps_get_inner
    rw [if_pos hlt]
  unfold chirps3_get
  simp only [netcdf_cache_call]
  rw [hmiss, hinner]
  exact ⟨rfl, rfl, rfl⟩

/-- C10 witness: `end = 2020-01-01` strictly before `start = 2020-01-02`
on an empty cache. -/
theorem c10_chirps_witness :
    (dateLt ⟨2020, 1, 1⟩ ⟨2020, 1, 2⟩ = true
      ∧ cacheLookup ([] : List (String × List (Date × String)))
          (cacheFilename ⟨"cache", fun _ => "h"⟩
            "dhis2eo.data.chc.chirps3.daily.get" "a") = none) ∧
    ((chirps3_get ⟨"cache", fun _ => "h"⟩ (fun _ => .ok ()) ⟨2020, 1, 2⟩ ⟨2020, 1, 1⟩
        "final" "rnl" "a" []).ret = .error .valueError
    ∧ (chirps3_get ⟨"cache", fun _ => "h"⟩ (fun _ => .ok ()) ⟨2020, 1, 2⟩ ⟨2020, 1, 1⟩
        "final" "rnl" "a" []).reads = []
    ∧ (chirps3_get ⟨"cache", fun _ => "h"⟩ (fun _ => .ok ()) ⟨2020, 1, 2⟩ ⟨2020, 1, 1⟩
        "final" "rnl" "a" []).fs = []) :=
  ⟨⟨by decide, by decide⟩,
   c10_chirps_end_before_start ⟨"cache", fun _ => "h"⟩ (fun _ => .ok ())
     ⟨2020, 1, 2⟩ ⟨2020, 1, 1⟩ "final" "rnl" "a" [] (by decide) (by decide)⟩

/-! ## A pandas value/DataFrame model

Cell values are strings, rationals (Python floats modelled exactly), or
NaN.  A DataFrame is a column-name list plus rows of cells. -/

/-- A pandas cell value. -/
inductive PyVal where
  | vstr : String → PyVal
  | vnum : ℚ → PyVal
  | nan : PyVal
deriving DecidableEq, Repr

/-- `pd.isna` on a cell. -/
def pdIsna : PyVal → Bool
  | .nan => true
  | _ => false

/-- Whether a cell holds a string. -/
def pvIsStr : PyVal → Bool
  | .vstr _ => true
  | _ => false

/-- Python `str(i)` for integers. -/
def intRepr (i : Int) : String :=
  if i < 0 then "-" ++ pyNatRepr i.natAbs else pyNatRepr i.natAbs

/-- Python `str(v)` of a cell.  A non-integer rational renders with a
non-digit separator (Python uses a decimal point; either way no period
pattern matches it downstream). -/
def pyStrOf : PyVal → String
  | .vstr s => s
  | .vnum q => if q.den = 1 then intRepr q.num
               else intRepr q.num ++ "/" ++ pyNatRepr q.den
  | .nan => "nan"

/-- A pandas DataFrame: column names and rows of cells. -/
structure DataFrame where
  cols : List String
  rows : List (List PyVal)
deriving DecidableEq, Repr

/-- Index of a column name (first occurrence), `df.columns.get_loc`. -/
def colIdx (df : DataFrame) (c : String) : Option Nat :=
  df.cols.findIdx? (fun x => x == c)

/-- Cell of a row at a column index. -/
def getCell (r : List PyVal) (i : Nat) : PyVal := r.getD i .nan

/-- `df[[c1, c2, ...]]` — column subset (KeyError when one is absent). -/
def subsetCols (df : DataFrame) (cs : List String) : Except PyErr DataFrame :=
  if cs.all (fun c => (colIdx df c).isSome) then
    .ok { cols := cs,
          rows := df.rows.map (fun r => cs.map (fun c => getCell r ((colIdx df c).getD 0))) }
  else .error .keyError

/-- `df.rename(columns=remap)` — rename every matching column name. -/
def renameCols (df : DataFrame) (remap : List (String × String)) : DataFrame :=
  { df with cols := df.cols.map (fun c =>
      match remap.find? (fun pr => pr.1 == c) with
      | some pr => pr.2
      | none => c) }

/-- `df[c] = df[c].apply(f)` — map a fallible function over a column. -/
def mapCol (df : DataFrame) (c : String) (f : PyVal → Except PyErr PyVal) :
    Except PyErr DataFrame :=
  match colIdx df c with
  | none => .error .keyError
  | some i =>
    match df.rows.mapM (fun r => (f (getCell r i)).map (fun v => r.set i v)) with
    | .error e => .error e
    | .ok rows => .ok { df with rows := rows }

/-- `df[c] = v` — set (or create) a constant column. -/
def setConstCol (df : DataFrame) (c : String) (v : PyVal) : DataFrame :=
  match colIdx df c with
  | some i => { df with rows := df.rows.map (fun r => r.set i v) }
  | none => { cols := df.cols ++ [c], rows := df.rows.map (fun r => r ++ [v]) }

/-- `df[~pd.isna(df[c])]` — keep the rows whose cell at `c` is not NaN. -/
def filterNotNa (df : DataFrame) (c : String) : Except PyErr DataFrame :=
  match colIdx df c with
  | none => .error .keyError
  | some i => .ok { df with rows := df.rows.filter (fun r => !pdIsna (getCell r i)) }

/-- `df.to_dict(orient="records")`. -/
def toRecords (df : DataFrame) : List (List (String × PyVal)) :=
  df.rows.map (fun r => df.cols.zip r)

/-! ## `src/dhis2eo/integrations/pandas.py` -/

/-- Integer rounding of a rational, ties to even (the rounding of
Python's fixed-point float formatting, on the rational model). -/
def roundHalfEven (q : ℚ) : Int :=
  let fl : Int := Int.fdiv q.num q.den
  let rem : Int := q.num - fl * q.den
  if 2 * rem < (q.den : Int) then fl
  else if (q.den : Int) < 2 * rem then fl + 1
  else if fl % 2 = 0 then fl else fl + 1

/-- The value scaled by ten to the tenth and rounded half-to-even, the
integer whose digits the fixed-point rendering prints. -/
def scaled10 (q : ℚ) : Int :=
  roundHalfEven (mkRat (q.num * ((10 ^ 10 : ℕ) : ℤ)) q.den)

/-- Model of the f-string `{value:.10f}`: sign, integer part, a decimal
point and exactly ten fractional digits. -/
def fixed10 (q : ℚ) : String :=
  let scaled := scaled10 q
  let sign := if scaled < 0 then "-" else ""
  let n := scaled.natAbs
  sign ++ pyNatRepr (n / 10 ^ 10) ++ "." ++ fmt0 10 (n % 10 ^ 10)

/-- Python `str.rstrip(c)` for a single strip character. -/
def rstripChar (c : Char) (s : String) : String :=
  String.mk ((s.data.reverse.dropWhile (fun x => x == c)).reverse)

/-- The decimal string `format_value_for_dhis2` produces for a numeric
value: fixed-point with ten decimals, then trailing zeros and a bare
trailing point stripped. -/
def dhis2ValueString (q : ℚ) : String :=
  rstripChar '.' (rstripChar '0' (fixed10 q))

/-- Embedding of `format_value_for_dhis2`
(src/dhis2eo/integrations/pandas.py): NaN passes through; numbers format
as decimal strings; a string input makes the f-string format specifier
raise. -/
def format_value_for_dhis2 : PyVal → Except PyErr PyVal
  | .nan => .ok .nan
  | .vnum q => .ok (.vstr (dhis2ValueString q))
  | .vstr _ => .error .valueError

/-- Total version of `format_value_for_dhis2` (identity on inputs that
would raise), used to state results. -/
def formatValueD (v : PyVal) : PyVal :=
  match format_value_for_dhis2 v with
  | .ok w => w
  | .error _ => v

/-- `str(period_value).split(" ")[0]`. -/
def splitFirstSpace (s : String) : String :=
  String.mk (s.data.takeWhile (fun c => !(c == ' ')))

/-- Digit value of a character. -/
def digitVal (c : Char) : Nat := c.toNat - '0'.toNat

/-- `pd.Period(v, freq="D").strftime("%Y%m%d")` on the date part, for
the two shapes `detect_period_type` classifies as DAY; invalid
month/day combinations raise (pandas `DateParseError`, a `ValueError`). -/
def pdPeriodDay (ps : String) : Except PyErr String :=
  match ps.data with
  | [y1, y2, y3, y4, m1, m2, d1, d2] =>
      let y := ((digitVal y1 * 10 + digitVal y2) * 10 + digitVal y3) * 10 + digitVal y4
      let m := digitVal m1 * 10 + digitVal m2
      let d := digitVal d1 * 10 + digitVal d2
      if 1 ≤ m ∧ m ≤ 12 ∧ 1 ≤ d ∧ d ≤ daysInMonth y m then
        .ok (String.mk [y1, y2, y3, y4, m1, m2, d1, d2])
      else .error .valueError
  | [y1, y2, y3, y4, '-', m1, m2, '-', d1, d2] =>
      let y := ((digitVal y1 * 10 + digitVal y2) * 10 + digitVal y3) * 10 + digitVal y4
      let m := digitVal m1 * 10 + digitVal m2
      let d := digitVal d1 * 10 + digitVal d2
      if 1 ≤ m ∧ m ≤ 12 ∧ 1 ≤ d ∧ d ≤ daysInMonth y m then
        .ok (String.mk [y1, y2, y3, y4, m1, m2, d1, d2])
      else .error .valueError
  | _ => .error .valueError

/-- `pd.Period(v, freq="M").strftime("%Y%m")` on the date part, for the
two shapes `detect_period_type` classifies as MONTH. -/
def pdPeriodMonth (ps : String) : Except PyErr String :=
  match ps.data with
  | [y1, y2, y3, y4, m1, m2] =>
      let m := digitVal m1 * 10 + digitVal m2
      if 1 ≤ m ∧ m ≤ 12 then .ok (String.mk [y1, y2, y3, y4, m1, m2])
      else .error .valueError
  | [y1, y2, y3, y4, '-', m1, m2] =>
      let m := digitVal m1 * 10 + digitVal m2
      if 1 ≤ m ∧ m ≤ 12 then .ok (String.mk [y1, y2, y3, y4, m1, m2])
      else .error .valueError
  | _ => .error .valueError

/-- Embedding of `parse_period` (src/dhis2eo/integrations/pandas.py):
detect the period type of the date part and reformat it to the DHIS2
code; WEEK and unrecognized periods raise `NotImplementedError`. -/
def parse_period (v : PyVal) : Except PyErr PyVal :=
  let period_string := splitFirstSpace (pyStrOf v)
  match Time.detect_period_type period_string with
  | some .DAY => (pdPeriodDay period_string).map PyVal.vstr
  | some .MONTH => (pdPeriodMonth period_string).map PyVal.vstr
  | some .YEAR => .ok (.vstr period_string)
  | _ => .error .notImplementedError

/-- Total version of `parse_period` (identity on inputs that raise),
used to state results. -/
def parsePeriodD (v : PyVal) : PyVal :=
  match parse_period v with
  | .ok w => w
  | .error _ => v

/-- The DHIS2 JSON payload: a dict with the single key `dataValues`
holding the records. -/
structure Dhis2Json where
  dataValues : List (List (String × PyVal))
deriving DecidableEq, Repr

/-- Embedding of `dataframe_to_dhis2_json`
(src/dhis2eo/integrations/pandas.py): subset and rename the three
columns, parse the period column, add the constant `dataElement`
column, drop NaN values, format the values, and emit records. -/
def dataframe_to_dhis2_json (df : DataFrame) (data_element_id : String)
    (org_unit_col period_col value_col : String) : Except PyErr Dhis2Json := do
  let df1 ← subsetCols df [org_unit_col, period_col, value_col]
  let df2 := renameCols df1
    [(org_unit_col, "orgUnit"), (period_col, "period"), (value_col, "value")]
  let df3 ← mapCol df2 "period" parse_period
  let df4 := setConstCol df3 "dataElement" (.vstr data_element_id)
  let df5 ← filterNotNa df4 "value"
  let df6 ← mapCol df5 "value" format_value_for_dhis2
  pure ⟨toRecords df6⟩

/-! ## Plain-decimal shape of the formatted DHIS2 values -/

/-- Checker for the claim's value format: an optional minus sign, a
nonempty run of digits, optionally followed by a decimal point and one
to ten fractional digits not ending in a zero — in particular no
scientific notation. -/
def isPlainDhis2Decimal (s : String) : Bool :=
  let cs := if s.data.head? == some '-' then s.data.tail else s.data
  let ip := cs.takeWhile (fun c => !(c == '.'))
  let rest := cs.dropWhile (fun c => !(c == '.'))
  (!ip.isEmpty) && ip.all Char.isDigit &&
    (rest.isEmpty ||
      ((rest.head? == some '.') && (!rest.tail.isEmpty)
        && decide (rest.tail.length ≤ 10) && rest.tail.all Char.isDigit
        && !(rest.tail.getLast? == some '0')))

theorem takeWhile_eq_self_of_all {p : Char → Bool} (l : List Char)
    (h : ∀ c ∈ l, p c = true) : l.takeWhile p = l := by
  induction l with
  | nil => rfl
  | cons x xs ih =>
    rw [List.takeWhile_cons, h x (by simp)]
    rw [ih (fun c hc => h c (by simp [hc]))]
    simp

theorem dropWhile_eq_nil_of_all {p : Char → Bool} (l : List Char)
    (h : ∀ c ∈ l, p c = true) : l.dropWhile p = [] :=
  List.dropWhile_eq_nil_iff.mpr h

theorem takeWhile_append_cons {p : Char → Bool} (l : List Char) (x : Char) (r : List Char)
    (hall : ∀ c ∈ l, p c = true) (hx : p x = false) :
    (l ++ x :: r).takeWhile p = l ∧ (l ++ x :: r).dropWhile p = x :: r := by
  induction l with
  | nil =>
    simp only [List.nil_append, List.takeWhile_cons, List.dropWhile_cons, hx]
    exact ⟨rfl, rfl⟩
  | cons y ys ih =>
    have hy : p y = true := hall y (by simp)
    simp only [List.cons_append, List.takeWhile_cons, List.dropWhile_cons, hy]
    obtain ⟨h1, h2⟩ := ih (fun c hc => hall c (by simp [hc]))
    rw [h1, h2]
    exact ⟨rfl, rfl⟩

theorem digit_beq_dot_false (c : Char) (hc : c.isDigit = true) : (c == '.') = false := by
  by_contra hcon
  rw [Bool.not_eq_false, beq_iff_eq] at hcon
  subst hcon
  exact absurd hc (by decide)

theorem dropWhile_cons_head_not {p : Char → Bool} (l : List Char) (c : Char) (r : List Char)
    (h : l.dropWhile p = c :: r) : p c = false := by
  induction l with
  | nil => simp at h
  | cons x xs ih =>
    rw [List.dropWhile_cons] at h
    by_cases hx : p x = true
    · rw [if_pos hx] at h
      exact ih h
    · rw [if_neg hx] at h
      injection h with h1 _
      subst h1
      cases hb : p x
      · rfl
      · exact absurd hb hx

theorem fixed10_data (q : ℚ) :
    (fixed10 q).data
      = (if scaled10 q < 0 then ['-'] else [])
        ++ decChars ((scaled10 q).natAbs / 10 ^ 10)
        ++ '.' :: (fmt0 10 ((scaled10 q).natAbs % 10 ^ 10)).data := by
  simp only [fixed10]
  by_cases h : scaled10 q < 0 <;>
    simp [h, String.data_append, pyNatRepr, List.append_assoc]

/-- Structure of the stripped decimal string: an optional sign, a
nonempty digit run, and optionally a point followed by at most ten
digits whose last one is nonzero. -/
theorem dhis2ValueString_shape (q : ℚ) :
    ∃ sign ip fp : List Char,
      (sign = [] ∨ sign = ['-'])
      ∧ ip ≠ [] ∧ ip.all Char.isDigit = true
      ∧ ((dhis2ValueString q).data = sign ++ ip
         ∨ ((dhis2ValueString q).data = sign ++ ip ++ '.' :: fp
            ∧ fp ≠ [] ∧ fp.length ≤ 10 ∧ fp.all Char.isDigit = true
            ∧ fp.getLast? ≠ some '0')) := by
  have hE : (0:ℕ) < 10 ^ 10 := by positivity
  refine ⟨if scaled10 q < 0 then ['-'] else [],
    decChars ((scaled10 q).natAbs / 10 ^ 10),
    ((fmt0 10 ((scaled10 q).natAbs % 10 ^ 10)).data.reverse.dropWhile
      (fun x => x == '0')).reverse, ?_, decChars_ne_nil _, decChars_all_digit _, ?_⟩
  · by_cases h : scaled10 q < 0 <;> simp [h]
  set sign := (if scaled10 q < 0 then ['-'] else ([] : List Char))
    with hsigndef
  set ip := decChars ((scaled10 q).natAbs / 10 ^ 10) with hipdef
  set fp0 := (fmt0 10 ((scaled10 q).natAbs % 10 ^ 10)).data with hfp0def
  have hfp0d : fp0.all Char.isDigit = true := fmt0_all_digit _ _
  have hfp0l : fp0.length = 10 :=
    fmt0_length_of_lt 10 _ (by omega) (Nat.mod_lt _ hE)
  have hipne : ip ≠ [] := decChars_ne_nil _
  have hipd : ip.all Char.isDigit = true := decChars_all_digit _
  have hdata : (fixed10 q).data = sign ++ ip ++ '.' :: fp0 := fixed10_data q
  have hrev : (fixed10 q).data.reverse
      = fp0.reverse ++ '.' :: (ip.reverse ++ sign.reverse) := by
    rw [hdata]
    simp [List.reverse_append, List.append_assoc]
  have hipRev : ∃ c0 rest0, ip.reverse = c0 :: rest0 ∧ c0.isDigit = true := by
    have : ip.reverse ≠ [] := by simpa using hipne
    obtain ⟨c0, rest0, hc⟩ := List.exists_cons_of_ne_nil this
    refine ⟨c0, rest0, hc, ?_⟩
    have : c0 ∈ ip := by
      rw [← List.mem_reverse, hc]
      simp
    rw [List.all_eq_true] at hipd
    exact hipd c0 this
  obtain ⟨c0, rest0, hipRevC, hc0d⟩ := hipRev
  have hstrip1data : ∀ t : String, (rstripChar '0' t).data
      = (t.data.reverse.dropWhile (fun x => x == '0')).reverse := fun t => rfl
  have hstrip2data : ∀ t : String, (rstripChar '.' t).data
      = (t.data.reverse.dropWhile (fun x => x == '.')).reverse := fun t => rfl
  by_cases hz : fp0.reverse.dropWhile (fun x => x == '0') = []
  · -- all fractional digits are zero: both the zeros and the point strip
    left
    have h1 : (rstripChar '0' (fixed10 q)).data = sign ++ ip ++ ['.'] := by
      rw [hstrip1data, hrev, List.dropWhile_append]
      rw [hz]
      simp only [List.isEmpty_nil, if_true]
      rw [List.dropWhile_cons]
      rw [show (('.' : Char) == '0') = false from rfl]
      simp [List.reverse_append, List.append_assoc]
    show (rstripChar '.' (rstripChar '0' (fixed10 q))).data = sign ++ ip
    rw [hstrip2data, h1]
    have : (sign ++ ip ++ ['.']).reverse = '.' :: (ip.reverse ++ sign.reverse) := by
      simp [List.reverse_append]
    rw [this, List.dropWhile_cons]
    rw [show (('.' : Char) == '.') = true from rfl]
    simp only [if_true]
    rw [hipRevC]
    rw [show (c0 :: rest0) ++ sign.reverse = c0 :: (rest0 ++ sign.reverse) from rfl]
    rw [List.dropWhile_cons]
    rw [digit_beq_dot_false c0 hc0d]
    simp only [Bool.false_eq_true, if_false]
    rw [show c0 :: (rest0 ++ sign.reverse) = (c0 :: rest0) ++ sign.reverse from rfl,
      ← hipRevC]
    simp [List.reverse_append]
  · -- some fractional digit is nonzero: only trailing zeros strip
    right
    obtain ⟨c1, rest1, hc1⟩ := List.exists_cons_of_ne_nil hz
    have hc1ne0 : (c1 == '0') = false :=
      dropWhile_cons_head_not fp0.reverse c1 rest1 hc1
    have hc1mem : c1 ∈ fp0 := by
      have : c1 ∈ fp0.reverse.dropWhile (fun x => x == '0') := by
        rw [hc1]; simp
      have := (List.dropWhile_sublist (fun x => x == '0')).mem this
      rwa [List.mem_reverse] at this
    have hc1d : c1.isDigit = true := by
      rw [List.all_eq_true] at hfp0d
      exact hfp0d c1 hc1mem
    have h1 : (rstripChar '0' (fixed10 q)).data
        = sign ++ ip ++ '.' :: (fp0.reverse.dropWhile (fun x => x == '0')).reverse := by
      rw [hstrip1data, hrev, List.dropWhile_append]
      rw [hc1]
      simp [List.reverse_append, List.append_assoc]
    refine ⟨?_, ?_, ?_, ?_, ?_⟩
    · show (rstripChar '.' (rstripChar '0' (fixed10 q))).data = _
      rw [hstrip2data, h1]
      have hrev2 : (sign ++ ip ++ '.'
          :: (fp0.reverse.dropWhile (fun x => x == '0')).reverse).reverse
          = (fp0.reverse.dropWhile (fun x => x == '0'))
            ++ '.' :: (ip.reverse ++ sign.reverse) := by
        simp [List.reverse_append, List.append_assoc]
      rw [hrev2, hc1]
      rw [show (c1 :: rest1) ++ '.' :: (ip.reverse ++ sign.reverse)
          = c1 :: (rest1 ++ '.' :: (ip.reverse ++ sign.reverse)) from rfl]
      rw [List.dropWhile_cons]
      rw [digit_beq_dot_false c1 hc1d]
      simp only [Bool.false_eq_true, if_false]
      rw [show c1 :: (rest1 ++ '.' :: (ip.reverse ++ sign.reverse))
          = (c1 :: rest1) ++ '.' :: (ip.reverse ++ sign.reverse) from rfl, ← hc1]
      simp [List.reverse_append, List.append_assoc]
    · simp [hc1]
    · have := (List.dropWhile_sublist (fun x => x == '0')
        (l := fp0.reverse)).length_le
      rw [List.length_reverse]
      rw [List.length_reverse] at this
      omega
    · rw [List.all_eq_true]
      intro c hc
      rw [List.mem_reverse] at hc
      have := (List.dropWhile_sublist (fun x => x == '0')).mem hc
      rw [List.mem_reverse] at this
      rw [List.all_eq_true] at hfp0d
      exact hfp0d c this
    · rw [List.getLast?_reverse, hc1]
      simp only [List.head?_cons, ne_eq, Option.some_inj]
      intro hcon
      rw [hcon] at hc1ne0
      simp at hc1ne0

theorem digit_beq_char_false (c a : Char) (hc : c.isDigit = true)
    (ha : a.isDigit = false) : (c == a) = false := by
  by_contra hcon
  rw [Bool.not_eq_false, beq_iff_eq] at hcon
  subst hcon
  rw [hc] at ha
  cases ha

/-- The formatted DHIS2 value string is a plain decimal: optional sign,
digits, at most ten fractional digits with no trailing zero, and no
scientific-notation character. -/
theorem dhis2ValueString_props (q : ℚ) :
    isPlainDhis2Decimal (dhis2ValueString q) = true
    ∧ 'e' ∉ (dhis2ValueString q).data ∧ 'E' ∉ (dhis2ValueString q).data := by
  obtain ⟨sign, ip, fp, hsign, hipne, hipd, hcase⟩ := dhis2ValueString_shape q
  obtain ⟨i0, irest, hip0⟩ := List.exists_cons_of_ne_nil hipne
  have hi0d : i0.isDigit = true := by
    rw [List.all_eq_true] at hipd
    refine hipd i0 ?_
    rw [hip0]
    simp
  have hipdot : ∀ c ∈ ip, (fun c => !(c == '.')) c = true := by
    intro c hc
    rw [List.all_eq_true] at hipd
    have := digit_beq_dot_false c (hipd c hc)
    simp only [this]
    rfl
  have hbody : ∀ body : List Char,
      (body = ip ∨ (body = ip ++ '.' :: fp ∧ fp ≠ [] ∧ fp.length ≤ 10
        ∧ fp.all Char.isDigit = true ∧ fp.getLast? ≠ some '0')) →
      ((!(body.takeWhile (fun c => !(c == '.'))).isEmpty)
        && (body.takeWhile (fun c => !(c == '.'))).all Char.isDigit
        && ((body.dropWhile (fun c => !(c == '.'))).isEmpty ||
          (((body.dropWhile (fun c => !(c == '.'))).head? == some '.')
            && (!(body.dropWhile (fun c => !(c == '.'))).tail.isEmpty)
            && decide ((body.dropWhile (fun c => !(c == '.'))).tail.length ≤ 10)
            && (body.dropWhile (fun c => !(c == '.'))).tail.all Char.isDigit
            && !((body.dropWhile (fun c => !(c == '.'))).tail.getLast? == some '0'))))
        = true := by
    intro body hb
    rcases hb with rfl | ⟨rfl, hfpne, hfpl, hfpd, hfplast⟩
    · rw [takeWhile_eq_self_of_all _ hipdot, dropWhile_eq_nil_of_all _ hipdot]
      rw [hip0]
      simp [hipd, hip0 ▸ hipd]
    · obtain ⟨ht, hd⟩ := takeWhile_append_cons ip '.' fp hipdot (by decide)
      rw [ht, hd]
      have h1 : ip.isEmpty = false := by
        rw [hip0]; rfl
      have h2 : ('.' :: fp).tail = fp := rfl
      have h3 : (('.' :: fp).head? == some '.') = true := by rfl
      have h4 : fp.isEmpty = false := by
        cases hfp : fp
        · exact absurd hfp hfpne
        · rfl
      have h5 : (fp.getLast? == some '0') = false := by
        cases hb : fp.getLast? == some '0'
        · rfl
        · rw [beq_iff_eq] at hb
          exact absurd hb hfplast
      rw [h2, h3, h5]
      simp [h1, h4, hipd, hfpd, hfpl]
  have hsignNoDash : ∀ body : List Char, body.head? = some i0 →
      (((sign ++ body).head? == some '-') = true →
        (sign ++ body).tail = body ∧ sign = ['-'])
      ∧ (((sign ++ body).head? == some '-') = false → sign ++ body = body) := by
    intro body hb
    rcases hsign with rfl | rfl
    · constructor
      · intro hcon
        rw [List.nil_append] at hcon
        rw [hb] at hcon
        rw [show ((some i0 == some '-') = (i0 == '-')) from rfl] at hcon
        rw [digit_beq_char_false i0 '-' hi0d (by decide)] at hcon
        cases hcon
      · intro _
        rw [List.nil_append]
    · constructor
      · intro _
        exact ⟨rfl, rfl⟩
      · intro hcon
        rw [show ((['-'] ++ body).head? == some '-') = true from rfl] at hcon
        cases hcon
  have hdataeq : ∃ body : List Char, (dhis2ValueString q).data = sign ++ body
      ∧ (body = ip ∨ (body = ip ++ '.' :: fp ∧ fp ≠ [] ∧ fp.length ≤ 10
        ∧ fp.all Char.isDigit = true ∧ fp.getLast? ≠ some '0'))
      ∧ body.head? = some i0 := by
    rcases hcase with h | ⟨h, hrest⟩
    · exact ⟨ip, h, Or.inl rfl, by rw [hip0]; rfl⟩
    · refine ⟨ip ++ '.' :: fp, by rw [h, List.append_assoc], Or.inr ⟨rfl, hrest⟩, ?_⟩
      rw [hip0]
      rfl
  obtain ⟨body, hde, hbodycase, hbodyhead⟩ := hdataeq
  refine ⟨?_, ?_, ?_⟩
  · simp only [isPlainDhis2Decimal]
    rw [hde]
    by_cases hdash : ((sign ++ body).head? == some '-') = true
    · rw [hdash]
      simp only [if_true]
      obtain ⟨htl, _⟩ := (hsignNoDash body hbodyhead).1 hdash
      rw [htl]
      exact hbody body hbodycase
    · have hf : ((sign ++ body).head? == some '-') = false := by
        cases hb : (sign ++ body).head? == some '-'
        · rfl
        · exact absurd hb hdash
      rw [hf]
      simp only [Bool.false_eq_true, if_false]
      rw [(hsignNoDash body hbodyhead).2 hf]
      exact hbody body hbodycase
  · rw [hde]
    intro hmem
    rcases List.mem_append.mp hmem with hm | hm
    · rcases hsign with rfl | rfl
      · cases hm
      · rcases List.mem_cons.mp hm with hm2 | hm2
        · cases hm2
        · cases hm2
    · rcases hbodycase with rfl | ⟨rfl, _, _, hfpd, _⟩
      · rw [List.all_eq_true] at hipd
        have := hipd 'e' hm
        cases this
      · rcases List.mem_append.mp hm with hm2 | hm2
        · rw [List.all_eq_true] at hipd
          have := hipd 'e' hm2
          cases this
        · rcases List.mem_cons.mp hm2 with hm3 | hm3
          · cases hm3
          · rw [List.all_eq_true] at hfpd
            have := hfpd 'e' hm3
            cases this
  · rw [hde]
    intro hmem
    rcases List.mem_append.mp hmem with hm | hm
    · rcases hsign with rfl | rfl
      · cases hm
      · rcases List.mem_cons.mp hm with hm2 | hm2
        · cases hm2
        · cases hm2
    · rcases hbodycase with rfl | ⟨rfl, _, _, hfpd, _⟩
      · rw [List.all_eq_true] at hipd
        have := hipd 'E' hm
        cases this
      · rcases List.mem_append.mp hm with hm2 | hm2
        · rw [List.all_eq_true] at hipd
          have := hipd 'E' hm2
          cases this
        · rcases List.mem_cons.mp hm2 with hm3 | hm3
          · cases hm3
          · rw [List.all_eq_true] at hfpd
            have := hfpd 'E' hm3
            cases this

theorem mapM_ok {α β : Type} (f : α → Except PyErr β) (g : α → β) (l : List α)
    (h : ∀ x ∈ l, f x = .ok (g x)) : l.mapM f = .ok (l.map g) := by
  induction l with
  | nil => rfl
  | cons x xs ih =>
    rw [List.mapM_cons, h x (by simp), List.map_cons,
      ih (fun y hy => h y (by simp [hy]))]
    rfl

theorem mapCol_ok (cols : List String) (rows : List (List PyVal)) (c : String)
    (i : Nat) (f : PyVal → Except PyErr PyVal) (g : List PyVal → List PyVal)
    (hidx : colIdx ⟨cols, rows⟩ c = some i)
    (h : ∀ x ∈ rows, (f (getCell x i)).map (fun v => x.set i v) = .ok (g x)) :
    mapCol ⟨cols, rows⟩ c f = .ok ⟨cols, rows.map g⟩ := by
  simp only [mapCol, hidx]
  rw [mapM_ok _ g rows h]

theorem filterNotNa_ok (cols : List String) (rows : List (List PyVal)) (c : String)
    (i : Nat) (hidx : colIdx ⟨cols, rows⟩ c = some i) :
    filterNotNa ⟨cols, rows⟩ c
      = .ok ⟨cols, rows.filter (fun r => !pdIsna (getCell r i))⟩ := by
  simp only [filterNotNa, hidx]

theorem setConstCol_new (cols : List String) (rows : List (List PyVal)) (c : String)
    (v : PyVal) (hidx : colIdx ⟨cols, rows⟩ c = none) :
    setConstCol ⟨cols, rows⟩ c v = ⟨cols ++ [c], rows.map (fun r => r ++ [v])⟩ := by
  simp only [setConstCol, hidx]

/-! ## Claim C6: shape and content of the DHIS2 JSON payload -/

/-- C6: for a DataFrame whose three mapped columns exist and are
distinct, whose period cells all parse, and whose value cells are
numbers or NaN, `dataframe_to_dhis2_json` returns a dict with the
single key `dataValues` holding one record per non-NaN row with exactly
the fields orgUnit, period, value, dataElement; the period is the
DHIS2 code the embedded `parse_period` emits for the detected period
type (`YYYYMMDD`, `YYYYMM`, `YYYY`), WEEK or unrecognized periods raise
`NotImplementedError`, and every numeric value renders as a plain
decimal string with at most ten decimal places, no trailing zeros and
no scientific notation. -/
theorem c6_dhis2_json (df : DataFrame) (deId ou pc vc : String) (ia ib ic : Nat)
    (hia : colIdx df ou = some ia) (hib : colIdx df pc = some ib)
    (hic : colIdx df vc = some ic)
    (hab : ou ≠ pc) (hac : ou ≠ vc) (hbc : pc ≠ vc)
    (hper : ∀ r ∈ df.rows, (parse_period (getCell r ib)).isOk = true)
    (hval : ∀ r ∈ df.rows, pvIsStr (getCell r ic) = false) :
    dataframe_to_dhis2_json df deId ou pc vc
      = .ok ⟨(df.rows.filter (fun r => !pdIsna (getCell r ic))).map (fun r =>
          [("orgUnit", getCell r ia),
           ("period", parsePeriodD (getCell r ib)),
           ("value", formatValueD (getCell r ic)),
           ("dataElement", PyVal.vstr deId)])⟩
    ∧ (∀ q : ℚ, isPlainDhis2Decimal (dhis2ValueString q) = true
        ∧ 'e' ∉ (dhis2ValueString q).data ∧ 'E' ∉ (dhis2ValueString q).data)
    ∧ (∀ v : PyVal,
        (Time.detect_period_type (splitFirstSpace (pyStrOf v)) = some .WEEK
          ∨ Time.detect_period_type (splitFirstSpace (pyStrOf v)) = none)
        → parse_period v = .error .notImplementedError) := by
  refine ⟨?_, dhis2ValueString_props, ?_⟩
  · -- the pipeline computation
    set subRow : List PyVal → List PyVal :=
      fun r => [getCell r ia, getCell r ib, getCell r ic] with hsubRow
    set perRow : List PyVal → List PyVal :=
      fun r => [getCell r ia, parsePeriodD (getCell r ib), getCell r ic]
      with hperRow
    set fullRow : List PyVal → List PyVal :=
      fun r => [getCell r ia, parsePeriodD (getCell r ib), getCell r ic,
        .vstr deId] with hfullRow
    have h1 : subsetCols df [ou, pc, vc]
        = .ok ⟨[ou, pc, vc], df.rows.map subRow⟩ := by
      unfold subsetCols
      rw [if_pos (by simp [hia, hib, hic])]
      simp [hia, hib, hic, hsubRow, getCell]
    have h2 : renameCols ⟨[ou, pc, vc], df.rows.map subRow⟩
        [(ou, "orgUnit"), (pc, "period"), (vc, "value")]
        = ⟨["orgUnit", "period", "value"], df.rows.map subRow⟩ := by
      unfold renameCols
      simp only [List.map_cons, List.map_nil, List.find?]
      rw [show (ou == ou) = true from by simp]
      rw [show (ou == pc) = false from beq_eq_false_iff_ne.mpr hab]
      rw [show (pc == pc) = true from by simp]
      rw [show (ou == vc) = false from beq_eq_false_iff_ne.mpr hac]
      rw [show (pc == vc) = false from beq_eq_false_iff_ne.mpr hbc]
      rw [show (vc == vc) = true from by simp]
    have h3 : mapCol ⟨["orgUnit", "period", "value"], df.rows.map subRow⟩
        "period" parse_period
        = .ok ⟨["orgUnit", "period", "value"], df.rows.map perRow⟩ := by
      have := mapCol_ok ["orgUnit", "period", "value"] (df.rows.map subRow)
        "period" 1 parse_period
        (fun x => x.set 1 (parsePeriodD (getCell x 1))) rfl ?_
      · rw [this, List.map_map]
        rw [show List.map ((fun x => x.set 1 (parsePeriodD (getCell x 1))) ∘ subRow)
            df.rows = df.rows.map perRow from List.map_congr_left (fun r _ => rfl)]
      · intro x hx
        rw [List.mem_map] at hx
        obtain ⟨r, hr, rfl⟩ := hx
        have hok := hper r hr
        cases hp : parse_period (getCell r ib) with
        | error e => rw [hp] at hok; cases hok
        | ok w =>
          have hpd : parsePeriodD (getCell (subRow r) 1) = w := by
            show parsePeriodD (getCell r ib) = w
            unfold parsePeriodD
            rw [hp]
          have hp2 : parse_period (getCell (subRow r) 1) = Except.ok w := hp
          rw [hp2]
          show Except.ok ((subRow r).set 1 w)
              = Except.ok ((subRow r).set 1 (parsePeriodD (getCell (subRow r) 1)))
          rw [hpd]
    have h4 : setConstCol ⟨["orgUnit", "period", "value"], df.rows.map perRow⟩
        "dataElement" (.vstr deId)
        = ⟨["orgUnit", "period", "value", "dataElement"], df.rows.map fullRow⟩ := by
      rw [setConstCol_new ["orgUnit", "period", "value"] (df.rows.map perRow)
        "dataElement" (.vstr deId) rfl, List.map_map]
      rw [show List.map ((fun r => r ++ [PyVal.vstr deId]) ∘ perRow) df.rows
          = df.rows.map fullRow from List.map_congr_left (fun r _ => rfl)]
      rfl
    have h5 : filterNotNa ⟨["orgUnit", "period", "value", "dataElement"],
        df.rows.map fullRow⟩ "value"
        = .ok ⟨["orgUnit", "period", "value", "dataElement"],
            (df.rows.filter (fun r => !pdIsna (getCell r ic))).map fullRow⟩ := by
      rw [filterNotNa_ok ["orgUnit", "period", "value", "dataElement"]
        (df.rows.map fullRow) "value" 2 rfl]
      rw [List.filter_map]
      rw [show List.filter ((fun r => !pdIsna (getCell r 2)) ∘ fullRow) df.rows
          = df.rows.filter (fun r => !pdIsna (getCell r ic)) from
        List.filter_congr (fun r _ => rfl)]
    have h6 : mapCol ⟨["orgUnit", "period", "value", "dataElement"],
        (df.rows.filter (fun r => !pdIsna (getCell r ic))).map fullRow⟩
        "value" format_value_for_dhis2
        = .ok ⟨["orgUnit", "period", "value", "dataElement"],
            ((df.rows.filter (fun r => !pdIsna (getCell r ic))).map fullRow).map
              (fun x => x.set 2 (formatValueD (getCell x 2)))⟩ := by
      refine mapCol_ok ["orgUnit", "period", "value", "dataElement"]
        ((df.rows.filter (fun r => !pdIsna (getCell r ic))).map fullRow)
        "value" 2 format_value_for_dhis2
        (fun x => x.set 2 (formatValueD (getCell x 2))) rfl ?_
      intro x hx
      rw [List.mem_map] at hx
      obtain ⟨r, hr, rfl⟩ := hx
      rw [List.mem_filter] at hr
      obtain ⟨hrmem, hrnan⟩ := hr
      have hstr := hval r hrmem
      rw [show getCell (fullRow r) 2 = getCell r ic from rfl]
      cases hc : getCell r ic with
      | vstr s =>
        rw [hc] at hstr
        cases hstr
      | nan =>
        rw [hc] at hrnan
        cases hrnan
      | vnum q =>
        show Except.map (fun v => (fullRow r).set 2 v)
            (format_value_for_dhis2 (PyVal.vnum q))
          = Except.ok ((fullRow r).set 2 (formatValueD (getCell (fullRow r) 2)))
        have hfd : formatValueD (getCell (fullRow r) 2)
            = PyVal.vstr (dhis2ValueString q) := by
          show formatValueD (getCell r ic) = _
          rw [hc]
          rfl
        rw [hfd]
        rfl
    show (do
      let df1 ← subsetCols df [ou, pc, vc]
      let df2 := renameCols df1
        [(ou, "orgUnit"), (pc, "period"), (vc, "value")]
      let df3 ← mapCol df2 "period" parse_period
      let df4 := setConstCol df3 "dataElement" (.vstr deId)
      let df5 ← filterNotNa df4 "value"
      let df6 ← mapCol df5 "value" format_value_for_dhis2
      pure (⟨toRecords df6⟩ : Dhis2Json)) = _
    rw [h1]
    show (do
      let df3 ← mapCol (renameCols ⟨[ou, pc, vc], df.rows.map subRow⟩
        [(ou, "orgUnit"), (pc, "period"), (vc, "value")]) "period" parse_period
      let df4 := setConstCol df3 "dataElement" (.vstr deId)
      let df5 ← filterNotNa df4 "value"
      let df6 ← mapCol df5 "value" format_value_for_dhis2
      pure (⟨toRecords df6⟩ : Dhis2Json)) = _
    rw [h2, h3]
    show (do
      let df5 ← filterNotNa (setConstCol
        ⟨["orgUnit", "period", "value"], df.rows.map perRow⟩
        "dataElement" (.vstr deId)) "value"
      let df6 ← mapCol df5 "value" format_value_for_dhis2
      pure (⟨toRecords df6⟩ : Dhis2Json)) = _
    rw [h4, h5]
    show (do
      let df6 ← mapCol ⟨["orgUnit", "period", "value", "dataElement"],
        (df.rows.filter (fun r => !pdIsna (getCell r ic))).map fullRow⟩
        "value" format_value_for_dhis2
      pure (⟨toRecords df6⟩ : Dhis2Json)) = _
    rw [h6]
    show Except.ok (⟨toRecords ⟨["orgUnit", "period", "value", "dataElement"],
        ((df.rows.filter (fun r => !pdIsna (getCell r ic))).map fullRow).map
          (fun x => x.set 2 (formatValueD (getCell x 2)))⟩⟩ : Dhis2Json) = _
    unfold toRecords
    rw [Except.ok.injEq, Dhis2Json.mk.injEq]
    rw [List.map_map, List.map_map]
    apply List.map_congr_left
    intro r _
    rfl
  · intro v hdet
    simp only [parse_period]
    rcases hdet with h | h <;> rw [h]

theorem c6_dhis2_json_witness :
    dataframe_to_dhis2_json
      ⟨["ou", "per", "val"],
       [[.vstr "OU1", .vstr "2024-01-15", .vnum (mkRat 3 2)],
        [.vstr "OU2", .vstr "2024-02", .nan]]⟩ "DE" "ou" "per" "val"
      = .ok ⟨[[("orgUnit", PyVal.vstr "OU1"),
               ("period", PyVal.vstr "20240115"),
               ("value", PyVal.vstr "1.5"),
               ("dataElement", PyVal.vstr "DE")]]⟩ := by
  have h := (c6_dhis2_json
      ⟨["ou", "per", "val"],
       [[.vstr "OU1", .vstr "2024-01-15", .vnum (mkRat 3 2)],
        [.vstr "OU2", .vstr "2024-02", .nan]]⟩
      "DE" "ou" "per" "val" 0 1 2
      (by decide) (by decide) (by decide)
      (by decide) (by decide) (by decide)
      (by decide) (by decide)).1
  rw [h]
  decide

/-! ## `src/dhis2eo/integrations/chap.py` -/

/-- `_PERIOD_YYYYMM = ^\\d{6}$`. -/
def periodYYYYMMToks : List Tok := digs 6

/-- `_PERIOD_YYYY_MM = ^\\d{4}-\\d{2}$`. -/
def periodYYYYMMDashToks : List Tok := digs 4 ++ [Tok.lit '-'] ++ digs 2

/-- `_PERIOD_YYYY_WWW = ^\\d{4}-W\\d{2}$`. -/
def periodYYYYWToks : List Tok := digs 4 ++ [Tok.lit '-', Tok.lit 'W'] ++ digs 2

/-- `REQUIRED_RESERVED_FIELDS`. -/
def REQUIRED_RESERVED_FIELDS : List String := ["time_period", "location", "disease_cases"]

/-- `OPTIONAL_RESERVED_FIELDS`. -/
def OPTIONAL_RESERVED_FIELDS : List String := ["population"]

/-! ### ISO week calendar on rata-die day numbers -/

/-- ISO weekday, Monday = 1 .. Sunday = 7 (0001-01-01 is a Monday). -/
def weekday (d : Date) : Nat := (rataDie d + 6) % 7 + 1

/-- Ordinal day of the year, January 1st = 1. -/
def dayOfYear (d : Date) : Nat := daysBeforeMonth d.year d.month + d.day

/-- Number of ISO weeks in year `y`: 53 when January 1st is a Thursday,
or a Wednesday of a leap year; else 52. -/
def weeksInYear (y : Nat) : Nat :=
  if weekday ⟨y, 1, 1⟩ == 4 || (isLeap y && weekday ⟨y, 1, 1⟩ == 3) then 53 else 52

/-- `date.isocalendar()` (ISO year and week; the weekday is `weekday`). -/
def isocalendar (d : Date) : Nat × Nat :=
  let wk := (dayOfYear d + 10 - weekday d) / 7
  if wk = 0 then (d.year - 1, weeksInYear (d.year - 1))
  else if weeksInYear d.year < wk then (d.year + 1, 1)
  else (d.year, wk)

/-- Rata-die number of the Monday of ISO week 1 of year `y` (the week
containing January 4th). -/
def mondayOfWeek1 (y : Nat) : Nat :=
  rataDie ⟨y, 1, 4⟩ - (weekday ⟨y, 1, 4⟩ - 1)

/-- Rata-die number of the Monday of ISO week `w` of ISO year `y`
(`strptime "%G-W%V-%u"` with weekday 1). -/
def weekMondayRd (y w : Nat) : Nat := mondayOfWeek1 y + 7 * (w - 1)

/-- Year containing rata-die day `rd`: advance from `y` while the next
year still starts at or before `rd` (fuel-bounded scan). -/
def yearOfRdAux : Nat → Nat → Nat → Nat
  | 0, y, _ => y
  | fuel + 1, y, rd => if rataDie ⟨y + 1, 1, 1⟩ ≤ rd then yearOfRdAux fuel (y + 1) rd else y

/-- Month and day within year `y` for ordinal day `n` (scan the twelve
months). -/
def monthDayOfAux (y : Nat) : Nat → Nat → Nat → Nat × Nat
  | 0, m, n => (m, n)
  | fuel + 1, m, n =>
    if daysInMonth y m < n then monthDayOfAux y fuel (m + 1) (n - daysInMonth y m)
    else (m, n)

/-- Date of a rata-die day number (inverse of `rataDie`). -/
def fromRataDie (rd : Nat) : Date :=
  let y0 := if rd / 366 = 0 then 1 else rd / 366
  let y := yearOfRdAux rd y0 rd
  let n := rd + 1 - rataDie ⟨y, 1, 1⟩
  let md := monthDayOfAux y 12 1 n
  ⟨y, md.1, md.2⟩

/-- ISO week string `YYYY-Wnn` of an ISO (year, week) pair:
`year.astype(str) + "-W" + week.astype(str).str.zfill(2)`. -/
def isoWeekStr (yw : Nat × Nat) : String :=
  pyNatRepr yw.1 ++ "-W" ++ zfill 2 (pyNatRepr yw.2)

/-! ### `_normalize_time_period` -/

/-- `s.str.slice(0, 4) + "-" + s.str.slice(4, 6)` on a `YYYYMM` value. -/
def insertMonthDash (s : String) : String :=
  String.mk (s.data.take 4) ++ "-" ++ String.mk ((s.data.drop 4).take 2)

/-- Monthly branch of `_normalize_time_period`.  `toDT` is the
`pd.to_datetime(..., errors="coerce")` oracle giving the (year, month)
of a date-like string, `none` for NaT. -/
def normalize_monthly (toDT : String → Option (Nat × Nat)) (vals : List PyVal) :
    Except PyErr (List String) :=
  let s0 := vals.map (fun v => pyStrip (pyStrOf v))
  let s1 := s0.map (fun s => if reFull periodYYYYMMToks s then insertMonthDash s else s)
  let s2 := s1.map (fun s =>
    if reFull periodYYYYMMDashToks s then s
    else match toDT s with
      | some ym => zfill 4 (pyNatRepr ym.1) ++ "-" ++ zfill 2 (pyNatRepr ym.2)
      | none => s)
  if s2.all (fun s => reFull periodYYYYMMDashToks s) then .ok s2 else .error .valueError

/-- Weekly branch of `_normalize_time_period`.  `toD` is the
`pd.to_datetime(..., errors="coerce")` oracle giving the date of a
date-like string, `none` for NaT. -/
def normalize_weekly (toD : String → Option Date) (vals : List PyVal) :
    Except PyErr (List String) :=
  let s0 := vals.map (fun v => pyStrip (pyStrOf v))
  if s0.all (fun s => reFull periodYYYYWToks s) then .ok s0
  else match s0.mapM toD with
    | none => .error .valueError
    | some ds => .ok (ds.map (fun d => isoWeekStr (isocalendar d)))

/-- Embedding of `_normalize_time_period`. -/
def normalize_time_period (toDT : String → Option (Nat × Nat))
    (toD : String → Option Date) (freq : String) (vals : List PyVal) :
    Except PyErr (List String) :=
  if freq == "monthly" then normalize_monthly toDT vals
  else if freq == "weekly" then normalize_weekly toD vals
  else .error .valueError

/-! ### `_validate_temporal_continuity` -/

/-- `pd.unique` — first occurrences, in order. -/
def uniqueFirstAux {α : Type} [BEq α] (seen : List α) : List α → List α
  | [] => []
  | a :: l => if seen.contains a then uniqueFirstAux seen l
              else a :: uniqueFirstAux (a :: seen) l

/-- `pd.PeriodIndex(_, freq="M")` on one normalized `YYYY-MM` string:
the zero-based month index `year * 12 + (month - 1)`, `none` (raise)
when the shape or month is invalid. -/
def parseYM (s : String) : Option Nat :=
  match s.data with
  | [y1, y2, y3, y4, '-', m1, m2] =>
    if y1.isDigit && y2.isDigit && y3.isDigit && y4.isDigit
        && m1.isDigit && m2.isDigit then
      let y := digitsVal [y1, y2, y3, y4]
      let m := digitsVal [m1, m2]
      if 1 ≤ m && m ≤ 12 then some (y * 12 + (m - 1)) else none
    else none
  | _ => none

/-- `pd.to_datetime(s + "-1", format="%G-W%V-%u", errors="coerce")` on
one `YYYY-Wnn` string: the rata-die Monday of that ISO week, `none`
when the shape is wrong or the week is out of range for the year. -/
def parseWeekRd (s : String) : Option Nat :=
  match s.data with
  | [y1, y2, y3, y4, '-', 'W', w1, w2] =>
    if y1.isDigit && y2.isDigit && y3.isDigit && y4.isDigit
        && w1.isDigit && w2.isDigit then
      let y := digitsVal [y1, y2, y3, y4]
      let w := digitsVal [w1, w2]
      if 1 ≤ y && 1 ≤ w && w ≤ weeksInYear y then some (weekMondayRd y w) else none
    else none
  | _ => none

/-- `pd.period_range(a, b)` / `pd.date_range(a, b, freq="W-MON")`: the
inclusive arithmetic progression from `a` to `b` with step `s`. -/
def stepRange (a b s : Nat) : List Nat :=
  (List.range ((b - a) / s + 1)).map (fun i => a + s * i)

/-- `p.strftime("%Y-%m")` of a month index. -/
def fmtMonthIdx (n : Nat) : String :=
  zfill 4 (pyNatRepr (n / 12)) ++ "-" ++ zfill 2 (pyNatRepr (n % 12 + 1))

/-- ISO week string of a rata-die Monday (the `missing.isocalendar()`
back-conversion). -/
def fmtWeekRd (rd : Nat) : String := isoWeekStr (isocalendar (fromRataDie rd))

/-- The sorted unique periods of one location
(`pd.PeriodIndex(g["_p"].unique()).sort_values()`). -/
def locPeriods (pairs : List (String × Nat)) (loc : String) : List Nat :=
  List.insertionSort (· ≤ ·)
    (uniqueFirstAux [] ((pairs.filter (fun p => p.1 == loc)).map Prod.snd))

/-- One iteration of the gap loop: `None` when the location has at most
one period or no gap, else the location with its first six missing
periods. -/
def locGapEntry (pairs : List (String × Nat)) (step : Nat) (fmt : Nat → String)
    (loc : String) : Option (String × List String) :=
  let ps := locPeriods pairs loc
  if ps.length ≤ 1 then none
  else
    let missing := (stepRange (ps.headD 0) (ps.getLastD 0) step).filter
      (fun k => !ps.contains k)
    if missing.isEmpty then none
    else some (loc, (missing.take 6).map fmt)

/-- The per-location gap loop shared by the monthly and weekly branches
of `_validate_temporal_continuity`: group the (location, period) pairs
by location in first-appearance order and collect the gap entries. -/
def locGaps (pairs : List (String × Nat)) (step : Nat) (fmt : Nat → String) :
    List (String × List String) :=
  (uniqueFirstAux [] (pairs.map Prod.fst)).filterMap (locGapEntry pairs step fmt)

/-- Embedding of `_validate_temporal_continuity`. -/
def validate_temporal_continuity (df : DataFrame) (freq : String) :
    Except PyErr (List (String × List String)) :=
  if !(freq == "monthly" || freq == "weekly") then .error .valueError
  else if df.rows.isEmpty then .ok []
  else
    match colIdx df "location", colIdx df "time_period" with
    | some li, some ti =>
      let sub := df.rows.filterMap (fun r =>
        if pdIsna (getCell r li) || pdIsna (getCell r ti) then none
        else some (pyStrOf (getCell r li), pyStrOf (getCell r ti)))
      if freq == "monthly" then
        match sub.mapM (fun p => (parseYM p.2).map (fun n => (p.1, n))) with
        | none => .error .valueError
        | some mpairs => .ok (locGaps mpairs 1 fmtMonthIdx)
      else
        match sub.mapM (fun p => (parseWeekRd p.2).map (fun n => (p.1, n))) with
        | none => .error .valueError
        | some wpairs => .ok (locGaps wpairs 7 fmtWeekRd)
    | _, _ => .error .keyError

/-! ### `dataframe_to_chap_csv` -/

/-- `out.drop(columns=[c for c in names if c in out.columns])`. -/
def dropColumns (df : DataFrame) (names : List String) : DataFrame :=
  ⟨df.cols.filter (fun c => !names.contains c),
   df.rows.map (fun r =>
     ((df.cols.zip r).filter (fun p => !names.contains p.1)).map Prod.snd)⟩

/-- `out.rename(columns={column_map[k]: k for k in column_map})` — a
duplicated input column name keeps the last Chap key (dict overwrite). -/
def chapRename (df : DataFrame) (column_map : List (String × String)) : DataFrame :=
  { df with cols := df.cols.map (fun c =>
      match column_map.reverse.find? (fun p => p.2 == c) with
      | some p => p.1
      | none => c) }

/-- The values of column `i`, `out[col]`. -/
def colVals (df : DataFrame) (i : Nat) : List PyVal :=
  df.rows.map (fun r => getCell r i)

/-- `out[col] = series` for an index-aligned string series. -/
def setColVals (df : DataFrame) (i : Nat) (vs : List String) : DataFrame :=
  { df with rows := (df.rows.zip vs).map (fun p => p.1.set i (PyVal.vstr p.2)) }

/-- Lines 290-299: `df.copy()`, the best-effort column drop, and the
rename to Chap-reserved field names. -/
def chapPrepared (df : DataFrame) (column_map : List (String × String))
    (drop_cols : Option (List String)) : DataFrame :=
  chapRename
    (match drop_cols with
     | none => df
     | some dcs => dropColumns df dcs) column_map

/-- Line 302: `out["time_period"] = _normalize_time_period(out["time_period"], freq)`
(reading a missing column raises `KeyError`). -/
def chapNormalized (toDT : String → Option (Nat × Nat))
    (toD : String → Option Date) (freq : String) (df2 : DataFrame) :
    Except PyErr DataFrame :=
  match colIdx df2 "time_period" with
  | none => .error .keyError
  | some ti =>
    (normalize_time_period toDT toD freq (colVals df2 ti)).map (setColVals df2 ti)

/-- Code-point lexicographic comparison of char lists (Python string
order). -/
def lexLe : List Char → List Char → Bool
  | [], _ => true
  | _ :: _, [] => false
  | a :: as, b :: bs =>
    if a.toNat < b.toNat then true
    else if b.toNat < a.toNat then false
    else lexLe as bs

/-- String order used by `sort_values`. -/
def strLe (a b : String) : Bool := lexLe a.data b.data

/-- Row order of `out.sort_values(["location", "time_period"])`. -/
def chapRowLe (li ti : Nat) (r1 r2 : List PyVal) : Bool :=
  let l1 := pyStrOf (getCell r1 li)
  let l2 := pyStrOf (getCell r2 li)
  if l1 == l2 then strLe (pyStrOf (getCell r1 ti)) (pyStrOf (getCell r2 ti))
  else strLe l1 l2

/-- `out.sort_values(["location", "time_period"])`. -/
def sortFrame (df : DataFrame) : DataFrame :=
  match colIdx df "location", colIdx df "time_period" with
  | some li, some ti =>
    { df with rows := (List.insertionSort (fun a b => chapRowLe li ti a b = true) df.rows) }
  | _, _ => df

/-- One CSV cell (minimal quoting; NaN renders empty). -/
def csvCell : PyVal → String
  | .nan => ""
  | .vstr s =>
    if s.data.any (fun c => c == ',' || c == '"' || c == '\n') then
      "\"" ++ String.mk (s.data.flatMap (fun c => if c == '"' then ['"', '"'] else [c])) ++ "\""
    else s
  | .vnum q => pyStrOf (.vnum q)

/-- One CSV line. -/
def csvLine (cells : List String) : String := String.intercalate "," cells

/-- `out.to_csv(index=False)`. -/
def toCsv (df : DataFrame) : String :=
  String.intercalate "\n"
    (csvLine df.cols :: df.rows.map (fun r => csvLine (r.map csvCell))) ++ "\n"

/-- Result of the exporter.  Besides the CSV text of the source, the
record keeps two observations of the run used by the specification:
whether the continuity check executed (the `continuity_policy != "ignore"`
branch was entered) and the final frame the CSV renders. -/
structure ChapOut where
  csv : String
  checkRan : Bool
  frame : DataFrame
deriving DecidableEq, Repr

/-- Lines 322-347: reserved fields present, covariate selection, the
stable column order and the column subset. -/
def chapSelect (out3 : DataFrame) (column_map : List (String × String))
    (include_other_cols : Bool) (value_cols : Option (List String)) :
    Except PyErr DataFrame :=
  let reserved_present := REQUIRED_RESERVED_FIELDS.filter
      (fun k => out3.cols.contains k)
    ++ OPTIONAL_RESERVED_FIELDS.filter (fun k =>
        (column_map.map Prod.fst).contains k && out3.cols.contains k)
  match ((match value_cols with
    | some vcs =>
      if !(vcs.filter (fun c => !out3.cols.contains c)).isEmpty
      then .error .keyError else .ok vcs
    | none =>
      if include_other_cols then
        .ok (out3.cols.filter (fun c => !reserved_present.contains c))
      else .ok ([] : List String)) : Except PyErr (List String)) with
  | .error e => .error e
  | .ok covariates =>
    let ordered0 := ["time_period", "location", "disease_cases"]
      ++ (if reserved_present.contains "population" then ["population"]
          else [])
    let ordered := ordered0
      ++ covariates.filter (fun c => !ordered0.contains c)
    subsetCols out3 ordered

/-- Embedding of `dataframe_to_chap_csv` (with `output_path=None`; the
`isinstance(column_map, Mapping)` guard always passes for the
association-list model).  `sortRows` is the `sort` parameter. -/
def dataframe_to_chap_csv (toDT : String → Option (Nat × Nat))
    (toD : String → Option Date) (df : DataFrame)
    (column_map : List (String × String)) (freq : String)
    (continuity_policy : String) (include_other_cols : Bool)
    (value_cols : Option (List String)) (drop_cols : Option (List String))
    (sortRows : Bool) : Except PyErr ChapOut :=
  let missing_keys := REQUIRED_RESERVED_FIELDS.filter
    (fun k => !(column_map.map Prod.fst).contains k)
  if !missing_keys.isEmpty then .error .keyError
  else
    let mapped_inputs := column_map.map Prod.snd
    let missing_inputs := mapped_inputs.filter (fun c => !df.cols.contains c)
    if !missing_inputs.isEmpty then .error .keyError
    else
      match chapNormalized toDT toD freq (chapPrepared df column_map drop_cols) with
      | .error e => .error e
      | .ok out3 =>
        if !(continuity_policy == "error" || continuity_policy == "warn"
            || continuity_policy == "ignore") then .error .valueError
        else
          let checkRan := continuity_policy != "ignore"
          match (if checkRan then validate_temporal_continuity out3 freq
                 else .ok []) with
          | .error e => .error e
          | .ok gaps =>
            if checkRan && !gaps.isEmpty && continuity_policy == "error" then
              .error .valueError
            else
              match chapSelect out3 column_map include_other_cols value_cols with
              | .error e => .error e
              | .ok out4 =>
                let out5 := if sortRows then sortFrame out4 else out4
                .ok ⟨toCsv out5, checkRan, out5⟩


/-! ### Characterization of the gap detector -/

theorem mem_uniqueFirstAux {α : Type} [BEq α] [LawfulBEq α]
    (l : List α) (seen : List α) (x : α) :
    x ∈ uniqueFirstAux seen l ↔ x ∈ l ∧ x ∉ seen := by
  induction l generalizing seen with
  | nil => simp [uniqueFirstAux]
  | cons a t ih =>
    by_cases ha : a ∈ seen
    · have hc : seen.contains a = true := by
        rw [List.contains]
        exact List.elem_iff.mpr ha
      rw [show uniqueFirstAux seen (a :: t) = uniqueFirstAux seen t from by
        rw [uniqueFirstAux, if_pos hc]]
      rw [ih]
      simp only [List.mem_cons]
      constructor
      · rintro ⟨hx, hns⟩
        exact ⟨Or.inr hx, hns⟩
      · rintro ⟨hx | hx, hns⟩
        · exact absurd (hx ▸ ha) hns
        · exact ⟨hx, hns⟩
    · have hc : seen.contains a = false := by
        rw [List.contains]
        cases hcc : List.elem a seen
        · rfl
        · exact absurd (List.elem_iff.mp hcc) ha
      rw [show uniqueFirstAux seen (a :: t) = a :: uniqueFirstAux (a :: seen) t from by
        rw [uniqueFirstAux, if_neg (by rw [hc]; simp)]]
      simp only [List.mem_cons, ih]
      by_cases hxa : x = a
      · subst hxa
        constructor
        · intro _
          exact ⟨Or.inl rfl, ha⟩
        · intro _
          exact Or.inl rfl
      · simp only [hxa, false_or]

theorem headD_mem (l : List Nat) (d : Nat) (h : l ≠ []) : l.headD d ∈ l := by
  cases l with
  | nil => exact absurd rfl h
  | cons a t => simp [List.headD]

theorem getLastD_mem (l : List Nat) (d : Nat) (h : l ≠ []) : l.getLastD d ∈ l := by
  induction l generalizing d with
  | nil => exact absurd rfl h
  | cons a t ih =>
    rw [List.getLastD_cons]
    cases t with
    | nil => simp [List.getLastD]
    | cons b t2 => exact List.mem_cons_of_mem a (ih a (by simp))

theorem sorted_headD_le (l : List Nat) (hs : l.Sorted (· ≤ ·)) (x : Nat)
    (hx : x ∈ l) : l.headD 0 ≤ x := by
  cases l with
  | nil => simp at hx
  | cons a t =>
    rcases List.mem_cons.mp hx with h | h
    · simp [List.headD, h]
    · exact (List.sorted_cons.mp hs).1 x h

theorem sorted_le_getLastD (l : List Nat) (hs : l.Sorted (· ≤ ·)) :
    ∀ x ∈ l, ∀ d, x ≤ l.getLastD d := by
  induction l with
  | nil =>
    intro x hx
    simp at hx
  | cons a t ih =>
    intro x hx d
    rw [List.getLastD_cons]
    obtain ⟨hall, hst⟩ := List.sorted_cons.mp hs
    cases t with
    | nil =>
      rcases List.mem_cons.mp hx with h | h
      · simp [List.getLastD, h]
      · simp at h
    | cons b t2 =>
      rcases List.mem_cons.mp hx with h | h
      · subst h
        exact le_trans (hall b (by simp)) (ih hst b (by simp) _)
      · exact ih hst x h a

theorem mem_stepRange (a b s k : Nat) :
    k ∈ stepRange a b s ↔ ∃ i, i ≤ (b - a) / s ∧ k = a + s * i := by
  unfold stepRange
  simp only [List.mem_map, List.mem_range]
  constructor
  · rintro ⟨i, hi, rfl⟩
    exact ⟨i, by omega, rfl⟩
  · rintro ⟨i, hi, rfl⟩
    exact ⟨i, by omega, rfl⟩

theorem mem_locPeriods (pairs : List (String × Nat)) (loc : String) (k : Nat) :
    k ∈ locPeriods pairs loc
      ↔ k ∈ (pairs.filter (fun p => p.1 == loc)).map Prod.snd := by
  unfold locPeriods
  rw [(List.perm_insertionSort _ _).mem_iff, mem_uniqueFirstAux]
  simp

theorem locPeriods_sorted (pairs : List (String × Nat)) (loc : String) :
    (locPeriods pairs loc).Sorted (· ≤ ·) :=
  List.sorted_insertionSort _ _

/-- The specification's reading of a temporal gap at one location: a
period on the frequency grid, strictly between two of the location's
periods, that the location does not have. -/
def specGapAtLoc (pairs : List (String × Nat)) (step : Nat) (loc : String) : Prop :=
  ∃ k,
    (∃ a ∈ (pairs.filter (fun p => p.1 == loc)).map Prod.snd,
      a < k ∧ k % step = a % step)
    ∧ (∃ b ∈ (pairs.filter (fun p => p.1 == loc)).map Prod.snd, k < b)
    ∧ k ∉ (pairs.filter (fun p => p.1 == loc)).map Prod.snd

/-- The specification's reading of "some location's time series has at
least one missing period strictly between that location's earliest and
latest period at the chosen frequency". -/
def specHasGap (pairs : List (String × Nat)) (step : Nat) : Prop :=
  ∃ loc, specGapAtLoc pairs step loc

theorem locGapEntry_ne_none_iff (pairs : List (String × Nat)) (step r : Nat)
    (fmt : Nat → String) (hstep : 0 < step)
    (hres : ∀ p ∈ pairs, p.2 % step = r) (loc : String) :
    locGapEntry pairs step fmt loc ≠ none ↔ specGapAtLoc pairs step loc := by
  unfold locGapEntry
  set ps := locPeriods pairs loc with hpsdef
  have hmem : ∀ k, k ∈ ps ↔ k ∈ (pairs.filter (fun p => p.1 == loc)).map Prod.snd :=
    mem_locPeriods pairs loc
  have hsorted : ps.Sorted (· ≤ ·) := locPeriods_sorted pairs loc
  have hres2 : ∀ k ∈ ps, k % step = r := by
    intro k hk
    rw [hmem] at hk
    obtain ⟨p, hp, rfl⟩ := List.mem_map.mp hk
    exact hres p (List.mem_of_mem_filter hp)
  by_cases hlen : ps.length ≤ 1
  · rw [if_pos hlen]
    simp only [ne_eq, not_true_eq_false, false_iff]
    rintro ⟨k, ⟨a, ha, hak, hmod⟩, ⟨b, hb, hkb⟩, hkn⟩
    have hamem : a ∈ ps := (hmem a).mpr ha
    have hbmem : b ∈ ps := (hmem b).mpr hb
    have hab : a ≠ b := by omega
    match hps : ps with
    | [] => rw [hps] at hamem; simp at hamem
    | [x] =>
      rw [hps] at hamem hbmem
      simp at hamem hbmem
      omega
    | x :: y :: t => rw [hps] at hlen; simp at hlen
  · rw [if_neg hlen]
    have hne : ps ≠ [] := by
      intro h
      rw [h] at hlen
      simp at hlen
    have hh : ps.headD 0 ∈ ps := headD_mem ps 0 hne
    have hz : ps.getLastD 0 ∈ ps := getLastD_mem ps 0 hne
    by_cases hmiss :
        ((stepRange (ps.headD 0) (ps.getLastD 0) step).filter
          (fun k => !ps.contains k)).isEmpty = true
    · rw [if_pos hmiss]
      simp only [ne_eq, not_true_eq_false, false_iff]
      rintro ⟨k, ⟨a, ha, hak, hmod⟩, ⟨b, hb, hkb⟩, hkn⟩
      have hamem : a ∈ ps := (hmem a).mpr ha
      have hbmem : b ∈ ps := (hmem b).mpr hb
      have hha : ps.headD 0 ≤ a := sorted_headD_le ps hsorted a hamem
      have hbz : b ≤ ps.getLastD 0 := sorted_le_getLastD ps hsorted b hbmem 0
      have hmodh : k % step = ps.headD 0 % step := by
        rw [hmod, hres2 a hamem, hres2 _ hh]
      have hdvd : step ∣ k - ps.headD 0 :=
        (Nat.modEq_iff_dvd' (by omega)).mp hmodh.symm
      have hkmem : k ∈ stepRange (ps.headD 0) (ps.getLastD 0) step := by
        rw [mem_stepRange]
        refine ⟨(k - ps.headD 0) / step, ?_, ?_⟩
        · exact Nat.div_le_div_right (by omega)
        · have hcancel : step * ((k - ps.headD 0) / step) = k - ps.headD 0 := by
            rw [Nat.mul_comm]
            exact Nat.div_mul_cancel hdvd
          omega
      have hkfilter : k ∈ (stepRange (ps.headD 0) (ps.getLastD 0) step).filter
          (fun k => !ps.contains k) := by
        rw [List.mem_filter]
        refine ⟨hkmem, ?_⟩
        simp only [Bool.not_eq_eq_eq_not, Bool.not_true]
        cases hcc : ps.contains k
        · rfl
        · rw [List.contains, List.elem_iff] at hcc
          exact absurd ((hmem k).mp hcc) hkn
      rw [List.isEmpty_iff] at hmiss
      rw [hmiss] at hkfilter
      simp at hkfilter
    · rw [if_neg hmiss]
      simp only [ne_eq, reduceCtorEq, not_false_eq_true, true_iff]
      unfold specGapAtLoc
      rw [List.isEmpty_iff] at hmiss
      obtain ⟨k, hkmem⟩ := List.exists_mem_of_ne_nil _ hmiss
      rw [List.mem_filter] at hkmem
      obtain ⟨hkrange, hknotps⟩ := hkmem
      have hknot : k ∉ ps := by
        intro hk
        have hcon : ps.contains k = true := by
          rw [List.contains]
          exact List.elem_iff.mpr hk
        rw [hcon] at hknotps
        simp at hknotps
      rw [mem_stepRange] at hkrange
      obtain ⟨i, hi, rfl⟩ := hkrange
      have hne0 : ps.headD 0 + step * i ≠ ps.headD 0 := by
        intro h
        apply hknot
        rw [h]
        exact hh
      have hipos : 0 < i := by
        rcases Nat.eq_zero_or_pos i with h0 | h0
        · subst h0
          simp at hne0
        · exact h0
      have hle : ps.headD 0 + step * i ≤ ps.getLastD 0 := by
        have := Nat.div_mul_le_self (ps.getLastD 0 - ps.headD 0) step
        have h2 : step * i ≤ (ps.getLastD 0 - ps.headD 0) / step * step :=
          by calc step * i = i * step := Nat.mul_comm _ _
            _ ≤ (ps.getLastD 0 - ps.headD 0) / step * step :=
              Nat.mul_le_mul_right _ hi
        have h3 : ps.headD 0 ≤ ps.getLastD 0 :=
          sorted_headD_le ps hsorted _ hz
        omega
      have hlt : ps.headD 0 + step * i < ps.getLastD 0 := by
        refine lt_of_le_of_ne hle ?_
        intro h
        apply hknot
        rw [h]
        exact hz
      refine ⟨ps.headD 0 + step * i, ⟨ps.headD 0, (hmem (ps.headD 0)).mp hh, ?_, ?_⟩,
        ⟨ps.getLastD 0, (hmem (ps.getLastD 0)).mp hz, hlt⟩,
        fun h => hknot ((hmem (ps.headD 0 + step * i)).mpr h)⟩
      · have : 0 < step * i := Nat.mul_pos hstep hipos
        omega
      · rw [Nat.add_mul_mod_self_left]

theorem locGaps_ne_nil_iff (pairs : List (String × Nat)) (step r : Nat)
    (fmt : Nat → String) (hstep : 0 < step)
    (hres : ∀ p ∈ pairs, p.2 % step = r) :
    locGaps pairs step fmt ≠ [] ↔ specHasGap pairs step := by
  unfold locGaps
  constructor
  · intro h
    have := fun hall => h (List.filterMap_eq_nil_iff.mpr hall)
    by_contra hno
    apply this
    intro loc _
    by_contra hsome
    exact hno ⟨loc, (locGapEntry_ne_none_iff pairs step r fmt hstep hres loc).mp hsome⟩
  · rintro ⟨loc, hgap⟩
    intro hnil
    have hnone := List.filterMap_eq_nil_iff.mp hnil loc
    have hlocU : loc ∈ uniqueFirstAux [] (pairs.map Prod.fst) := by
      rw [mem_uniqueFirstAux]
      refine ⟨?_, by simp⟩
      obtain ⟨k, ⟨a, ha, _⟩, _, _⟩ := hgap
      obtain ⟨p, hp, rfl⟩ := List.mem_map.mp ha
      have hpmem := List.mem_of_mem_filter hp
      have hpeq := List.of_mem_filter hp
      rw [List.mem_map]
      exact ⟨p, hpmem, by simpa using hpeq⟩
    exact (locGapEntry_ne_none_iff pairs step r fmt hstep hres loc).mpr hgap
      (hnone hlocU)


/-! ### Pipeline lemmas for the continuity claim -/

theorem contains_iff_mem {α : Type} [BEq α] [LawfulBEq α] (l : List α) (x : α) :
    l.contains x = true ↔ x ∈ l := by
  rw [List.contains]
  exact List.elem_iff

theorem colIdx_isSome_iff (df : DataFrame) (c : String) :
    (colIdx df c).isSome = true ↔ c ∈ df.cols := by
  unfold colIdx
  rw [List.findIdx?_isSome, List.any_eq_true]
  constructor
  · rintro ⟨x, hx, hbeq⟩
    rw [beq_iff_eq] at hbeq
    exact hbeq ▸ hx
  · intro h
    exact ⟨c, h, beq_self_eq_true c⟩

theorem mapM_option_length {α β : Type} (f : α → Option β) (l : List α)
    (l' : List β) (h : l.mapM f = some l') : l'.length = l.length := by
  induction l generalizing l' with
  | nil =>
    rw [List.mapM_nil] at h
    injection h with h
    rw [← h]
    rfl
  | cons a t ih =>
    rw [List.mapM_cons] at h
    cases hfa : f a with
    | none => rw [hfa] at h; cases h
    | some b =>
      rw [hfa] at h
      cases hft : t.mapM f with
      | none => rw [hft] at h; cases h
      | some bs =>
        rw [hft] at h
        injection h with h
        rw [← h]
        simp [ih bs hft]

theorem normalize_time_period_length (toDT : String → Option (Nat × Nat))
    (toD : String → Option Date) (freq : String) (vals : List PyVal)
    (ts : List String) (h : normalize_time_period toDT toD freq vals = .ok ts) :
    ts.length = vals.length := by
  unfold normalize_time_period at h
  by_cases hm : freq == "monthly"
  · rw [if_pos hm] at h
    simp only [normalize_monthly] at h
    split at h
    · injection h with h
      rw [← h]
      simp
    · cases h
  · rw [if_neg hm] at h
    by_cases hw : freq == "weekly"
    · rw [if_pos hw] at h
      simp only [normalize_weekly] at h
      split at h
      · injection h with h
        rw [← h]
        simp
      · split at h
        · cases h
        · rename_i ds hds
          injection h with h
          rw [← h]
          rw [List.length_map]
          exact mapM_option_length _ _ _ hds |>.trans (by simp)
    · rw [if_neg hw] at h
      cases h

theorem chapPrepared_rows_length (df : DataFrame) (cm : List (String × String))
    (dcs : Option (List String)) :
    (chapPrepared df cm dcs).rows.length = df.rows.length := by
  unfold chapPrepared chapRename dropColumns
  cases dcs <;> simp

theorem chapNormalized_rows_length (toDT : String → Option (Nat × Nat))
    (toD : String → Option Date) (freq : String) (df2 out3 : DataFrame)
    (h : chapNormalized toDT toD freq df2 = .ok out3) :
    out3.rows.length = df2.rows.length := by
  unfold chapNormalized at h
  cases hci : colIdx df2 "time_period" with
  | none => rw [hci] at h; cases h
  | some ti =>
    rw [hci] at h
    have h2 : (normalize_time_period toDT toD freq (colVals df2 ti)).map
        (setColVals df2 ti) = Except.ok out3 := h
    cases hn : normalize_time_period toDT toD freq (colVals df2 ti) with
    | error e => rw [hn] at h2; cases h2
    | ok ts =>
      rw [hn] at h2
      injection h2 with h2
      rw [← h2]
      unfold setColVals
      have hts : ts.length = df2.rows.length := by
        rw [normalize_time_period_length toDT toD freq _ ts hn]
        unfold colVals
        simp
      simp [hts]

theorem subsetCols_ok_of_mem (df : DataFrame) (cs : List String)
    (h : ∀ c ∈ cs, c ∈ df.cols) :
    subsetCols df cs
      = .ok { cols := cs,
              rows := df.rows.map (fun r => cs.map (fun c => getCell r ((colIdx df c).getD 0))) } := by
  unfold subsetCols
  rw [if_pos]
  rw [List.all_eq_true]
  intro c hc
  exact (colIdx_isSome_iff df c).mpr (h c hc)

theorem sortFrame_rows_length (df : DataFrame) :
    (sortFrame df).rows.length = df.rows.length := by
  unfold sortFrame
  cases hl : colIdx df "location" with
  | none => rfl
  | some li =>
    cases ht : colIdx df "time_period" with
    | none => rfl
    | some ti =>
      simp only
      exact (List.perm_insertionSort _ _).length_eq

theorem chapSelect_ok (out3 : DataFrame) (cm : List (String × String))
    (hloc : "location" ∈ out3.cols) (hdis : "disease_cases" ∈ out3.cols)
    (htp : "time_period" ∈ out3.cols) :
    ∃ out4, chapSelect out3 cm true none = .ok out4
      ∧ out4.rows.length = out3.rows.length := by
  unfold chapSelect
  simp only
  set reserved_present := REQUIRED_RESERVED_FIELDS.filter
      (fun k => out3.cols.contains k)
    ++ OPTIONAL_RESERVED_FIELDS.filter (fun k =>
        (cm.map Prod.fst).contains k && out3.cols.contains k) with hrp
  set covariates := out3.cols.filter (fun c => !reserved_present.contains c)
    with hcov
  set ordered0 := ["time_period", "location", "disease_cases"]
    ++ (if reserved_present.contains "population" then ["population"] else [])
    with hord0
  set ordered := ordered0 ++ covariates.filter (fun c => !ordered0.contains c)
    with hord
  have hmem : ∀ c ∈ ordered, c ∈ out3.cols := by
    intro c hc
    rw [hord, List.mem_append] at hc
    rcases hc with hc | hc
    · rw [hord0, List.mem_append] at hc
      rcases hc with hc | hc
      · simp only [List.mem_cons, List.not_mem_nil, or_false] at hc
        rcases hc with h | h | h
        · exact h ▸ htp
        · exact h ▸ hloc
        · exact h ▸ hdis
      · by_cases hpop : reserved_present.contains "population" = true
        · rw [if_pos hpop] at hc
          simp only [List.mem_cons, List.not_mem_nil, or_false] at hc
          subst hc
          rw [hrp] at hpop
          rw [contains_iff_mem, List.mem_append] at hpop
          rcases hpop with hp | hp
          · have := List.of_mem_filter hp
            rw [contains_iff_mem] at this
            exact this
          · have h2 := List.of_mem_filter hp
            rw [Bool.and_eq_true] at h2
            obtain ⟨h2a, h2b⟩ := h2
            rw [contains_iff_mem] at h2b
            exact h2b
        · rw [if_neg hpop] at hc
          simp at hc
    · exact List.mem_of_mem_filter (List.mem_of_mem_filter hc)
  refine ⟨_, subsetCols_ok_of_mem out3 ordered hmem, ?_⟩
  simp

theorem mondayOfWeek1_mod (y : Nat) : mondayOfWeek1 y % 7 = 1 := by
  have hR : rataDie ⟨y, 1, 4⟩ = daysBeforeYear y + daysBeforeMonth y 1 + 4 := rfl
  unfold mondayOfWeek1 weekday
  omega

theorem parseWeekRd_mod (s : String) (rd : Nat)
    (h : parseWeekRd s = some rd) : rd % 7 = 1 := by
  unfold parseWeekRd at h
  split at h
  · rename_i x y1 y2 y3 y4 w1 w2 heq
    split at h
    · simp only [] at h
      split at h
      · injection h with h
        rw [← h]
        unfold weekMondayRd
        have := mondayOfWeek1_mod (digitsVal [y1, y2, y3, y4])
        omega
      · cases h
    · cases h
  · cases h


theorem chap_run (toDT : String → Option (Nat × Nat)) (toD : String → Option Date)
    (df : DataFrame) (cm : List (String × String)) (freq : String)
    (dcs : Option (List String)) (srt : Bool) (policy : String)
    (out3 : DataFrame)
    (hreq : REQUIRED_RESERVED_FIELDS.filter
      (fun k => !(cm.map Prod.fst).contains k) = [])
    (hinp : (cm.map Prod.snd).filter (fun c => !df.cols.contains c) = [])
    (hnorm : chapNormalized toDT toD freq (chapPrepared df cm dcs) = .ok out3)
    (hpol : policy = "error" ∨ policy = "warn" ∨ policy = "ignore") :
    dataframe_to_chap_csv toDT toD df cm freq policy true none dcs srt
      = (match (if policy != "ignore" then validate_temporal_continuity out3 freq
                else .ok []) with
         | .error e => .error e
         | .ok gaps =>
           if (policy != "ignore") && !gaps.isEmpty && policy == "error" then
             .error .valueError
           else
             match chapSelect out3 cm true none with
             | .error e => .error e
             | .ok out4 =>
               let out5 := if srt then sortFrame out4 else out4
               .ok ⟨toCsv out5, policy != "ignore", out5⟩) := by
  simp only [dataframe_to_chap_csv]
  rw [hreq, hinp]
  simp only [List.isEmpty_nil, Bool.not_true, Bool.false_eq_true, if_false]
  rw [hnorm]
  have hcond : (!(policy == "error" || policy == "warn" || policy == "ignore")) = false := by
    rcases hpol with rfl | rfl | rfl <;> rfl
  rw [hcond]
  simp only [Bool.false_eq_true, if_false]


/-! ## Claim C8: temporal continuity checking of the Chap CSV exporter -/

/-- C8: with the required column mapping present and valid, normalization
succeeding, and the gap scan returning `gaps`: with the default
`continuity_policy="error"` the exporter raises `ValueError` exactly when
`gaps` is nonempty; the scan reports a nonempty `gaps` exactly when some
location is missing a period of the frequency grid strictly between two
of its periods (weekly periods all sit on the Monday grid); with
`continuity_policy="ignore"` the check never runs; and an export that
returns a CSV always keeps exactly one output row per input row — no
missing period is filled in. -/
theorem c8_chap_continuity
    (toDT : String → Option (Nat × Nat)) (toD : String → Option Date)
    (df : DataFrame) (cm : List (String × String)) (freq : String)
    (dcs : Option (List String)) (srt : Bool) (out3 : DataFrame)
    (gaps : List (String × List String))
    (hreq : REQUIRED_RESERVED_FIELDS.filter
      (fun k => !(cm.map Prod.fst).contains k) = [])
    (hinp : (cm.map Prod.snd).filter (fun c => !df.cols.contains c) = [])
    (hnorm : chapNormalized toDT toD freq (chapPrepared df cm dcs) = .ok out3)
    (hval : validate_temporal_continuity out3 freq = .ok gaps)
    (hloc : "location" ∈ out3.cols) (hdis : "disease_cases" ∈ out3.cols)
    (htp : "time_period" ∈ out3.cols) :
    (dataframe_to_chap_csv toDT toD df cm freq "error" true none dcs srt
        = .error .valueError ↔ gaps ≠ [])
    ∧ (∀ (pairs : List (String × Nat)) (step r : Nat) (fmt : Nat → String),
        0 < step → (∀ p ∈ pairs, p.2 % step = r) →
        (locGaps pairs step fmt ≠ [] ↔ specHasGap pairs step))
    ∧ (∀ s rd, parseWeekRd s = some rd → rd % 7 = 1)
    ∧ (∃ o, dataframe_to_chap_csv toDT toD df cm freq "ignore" true none dcs srt
        = .ok o ∧ o.checkRan = false ∧ o.frame.rows.length = df.rows.length)
    ∧ (∀ policy o,
        dataframe_to_chap_csv toDT toD df cm freq policy true none dcs srt
          = .ok o → o.frame.rows.length = df.rows.length) := by
  obtain ⟨out4, hsel, hlen4⟩ := chapSelect_ok out3 cm hloc hdis htp
  have hlen3 : out3.rows.length = df.rows.length := by
    rw [chapNormalized_rows_length toDT toD freq _ out3 hnorm]
    exact chapPrepared_rows_length df cm dcs
  have hlen5 : ∀ b : Bool, (if b then sortFrame out4 else out4).rows.length
      = df.rows.length := by
    intro b
    cases b
    · simp only [if_false, Bool.false_eq_true]
      omega
    · simp only [if_true]
      rw [sortFrame_rows_length]
      omega
  refine ⟨?_, ?_, ?_, ?_, ?_⟩
  · -- policy "error": ValueError iff gaps nonempty
    rw [chap_run toDT toD df cm freq dcs srt "error" out3 hreq hinp hnorm
      (Or.inl rfl)]
    rw [show (("error" : String) != "ignore") = true from rfl]
    simp only [if_true]
    rw [hval]
    rw [show (("error" : String) == "error") = true from rfl]
    simp only [Bool.true_and, Bool.and_true]
    by_cases hg : gaps = []
    · subst hg
      simp only [List.isEmpty_nil, Bool.not_true, Bool.false_eq_true, if_false]
      rw [hsel]
      simp only
      constructor
      · intro h
        cases h
      · intro h
        exact absurd rfl h
    · have hge : gaps.isEmpty = false := by
        cases hgg : gaps
        · exact absurd hgg hg
        · rfl
      rw [hge]
      rw [if_pos (show ((!false) = true) from rfl)]
      exact ⟨fun _ => hg, fun _ => rfl⟩
  · -- the scan finds a gap iff the specification has one
    intro pairs step r fmt hstep hres
    exact locGaps_ne_nil_iff pairs step r fmt hstep hres
  · -- weekly periods lie on the Monday grid
    intro s rd h
    exact parseWeekRd_mod s rd h
  · -- policy "ignore": no check, CSV produced, rows preserved
    rw [chap_run toDT toD df cm freq dcs srt "ignore" out3 hreq hinp hnorm
      (Or.inr (Or.inr rfl))]
    rw [show (("ignore" : String) != "ignore") = false from rfl]
    simp only [Bool.false_eq_true, if_false, Bool.false_and, List.isEmpty_nil]
    rw [hsel]
    simp only
    refine ⟨⟨toCsv (if srt = true then sortFrame out4 else out4), false,
      (if srt = true then sortFrame out4 else out4)⟩, ?_, rfl, hlen5 srt⟩
    rfl
  · -- whatever the policy, a produced CSV has one row per input row
    intro policy o h
    by_cases hpol : policy = "error" ∨ policy = "warn" ∨ policy = "ignore"
    · rw [chap_run toDT toD df cm freq dcs srt policy out3 hreq hinp hnorm hpol]
        at h
      rcases hpol with rfl | rfl | rfl
      · rw [show (("error" : String) != "ignore") = true from rfl] at h
        simp only [if_true] at h
        rw [hval] at h
        split at h
        · cases h
        · rw [hsel] at h
          simp only at h
          split at h
          · cases h
          · injection h with h
            rw [← h]
            exact hlen5 srt
      · rw [show (("warn" : String) != "ignore") = true from rfl] at h
        simp only [if_true] at h
        rw [hval] at h
        rw [show (("warn" : String) == "error") = false from rfl] at h
        simp only [Bool.and_false, Bool.false_eq_true, if_false] at h
        rw [hsel] at h
        simp only at h
        injection h with h
        rw [← h]
        exact hlen5 srt
      · rw [show (("ignore" : String) != "ignore") = false from rfl] at h
        simp only [Bool.false_eq_true, if_false, Bool.false_and,
          List.isEmpty_nil] at h
        rw [hsel] at h
        simp only at h
        injection h with h
        rw [← h]
        exact hlen5 srt
    · exfalso
      simp only [dataframe_to_chap_csv] at h
      rw [hreq, hinp] at h
      simp only [List.isEmpty_nil, Bool.not_true, Bool.false_eq_true,
        if_false] at h
      rw [hnorm] at h
      have hcond : (!(policy == "error" || policy == "warn"
          || policy == "ignore")) = true := by
        push_neg at hpol
        obtain ⟨h1, h2, h3⟩ := hpol
        rw [show (policy == "error") = false from beq_eq_false_iff_ne.mpr h1]
        rw [show (policy == "warn") = false from beq_eq_false_iff_ne.mpr h2]
        rw [show (policy == "ignore") = false from beq_eq_false_iff_ne.mpr h3]
        rfl
      rw [hcond] at h
      simp only [if_true] at h
      cases h


theorem c8_chap_continuity_witness :
    (dataframe_to_chap_csv (fun _ => none) (fun _ => none)
        ⟨["period", "org", "cases"],
         [[PyVal.vstr "202301", PyVal.vstr "A", PyVal.vnum 3],
          [PyVal.vstr "202302", PyVal.vstr "A", PyVal.vnum 4]]⟩
        [("time_period", "period"), ("location", "org"),
         ("disease_cases", "cases")]
        "monthly" "error" true none (some ["org_name", "population_year"]) true
      = .error .valueError ↔ ([] : List (String × List String)) ≠ [])
    ∧ (∃ o, dataframe_to_chap_csv (fun _ => none) (fun _ => none)
        ⟨["period", "org", "cases"],
         [[PyVal.vstr "202301", PyVal.vstr "A", PyVal.vnum 3],
          [PyVal.vstr "202302", PyVal.vstr "A", PyVal.vnum 4]]⟩
        [("time_period", "period"), ("location", "org"),
         ("disease_cases", "cases")]
        "monthly" "ignore" true none (some ["org_name", "population_year"]) true
        = .ok o ∧ o.checkRan = false
        ∧ o.frame.rows.length
          = ([[PyVal.vstr "202301", PyVal.vstr "A", PyVal.vnum 3],
              [PyVal.vstr "202302", PyVal.vstr "A", PyVal.vnum 4]] :
             List (List PyVal)).length) := by
  have h := c8_chap_continuity (fun _ => none) (fun _ => none)
    ⟨["period", "org", "cases"],
     [[PyVal.vstr "202301", PyVal.vstr "A", PyVal.vnum 3],
      [PyVal.vstr "202302", PyVal.vstr "A", PyVal.vnum 4]]⟩
    [("time_period", "period"), ("location", "org"),
     ("disease_cases", "cases")]
    "monthly" (some ["org_name", "population_year"]) true
    ⟨["time_period", "location", "disease_cases"],
     [[PyVal.vstr "2023-01", PyVal.vstr "A", PyVal.vnum 3],
      [PyVal.vstr "2023-02", PyVal.vstr "A", PyVal.vnum 4]]⟩
    [] (by decide) (by decide) (by decide) (by decide)
    (by decide) (by decide) (by decide)
  exact ⟨h.1, h.2.2.2.1⟩


/-! ## Claim C4: purity of the two reformatting modules (heap model) -/

/-- A heap of pandas DataFrame objects: ids below `next` are live. -/
structure Heap where
  next : Nat
  mem : Nat → DataFrame

/-- Allocate a fresh frame (returns the new heap and the fresh id). -/
def halloc (h : Heap) (df : DataFrame) : Heap × Nat :=
  (⟨h.next + 1, fun j => if j == h.next then df else h.mem j⟩, h.next)

/-- Mutate the frame at id `i` in place. -/
def hwrite (h : Heap) (i : Nat) (df : DataFrame) : Heap :=
  ⟨h.next, fun j => if j == i then df else h.mem j⟩

theorem halloc_next (h : Heap) (df : DataFrame) :
    (halloc h df).1.next = h.next + 1 := rfl

theorem halloc_get_same (h : Heap) (df : DataFrame) :
    (halloc h df).1.mem (halloc h df).2 = df := by
  simp [halloc]

theorem halloc_get_ne (h : Heap) (df : DataFrame) (j : Nat) (hj : j ≠ h.next) :
    (halloc h df).1.mem j = h.mem j := by
  simp [halloc, hj]

theorem hwrite_get_same (h : Heap) (i : Nat) (df : DataFrame) :
    (hwrite h i df).mem i = df := by
  simp [hwrite]

theorem hwrite_get_ne (h : Heap) (i : Nat) (df : DataFrame) (j : Nat)
    (hj : j ≠ i) : (hwrite h i df).mem j = h.mem j := by
  simp [hwrite, hj]

/-- `dataframe_to_dhis2_json` operating on the frame heap: the input
frame is only read; `df[[...]]` and `dropna` produce fresh objects, the
`period`, `dataElement` and `value` column assignments mutate those
fresh objects in place. -/
def dataframe_to_dhis2_json_heap (h0 : Heap) (i : Nat)
    (data_element_id org_unit_col period_col value_col : String) :
    Heap × Except PyErr Dhis2Json :=
  let df := h0.mem i
  match subsetCols df [org_unit_col, period_col, value_col] with
  | .error e => (h0, .error e)
  | .ok sub =>
    let p1 := halloc h0 sub
    let p2 := halloc p1.1 (renameCols (p1.1.mem p1.2)
      [(org_unit_col, "orgUnit"), (period_col, "period"), (value_col, "value")])
    match mapCol (p2.1.mem p2.2) "period" parse_period with
    | .error e => (p2.1, .error e)
    | .ok f3 =>
      let h3 := hwrite p2.1 p2.2 f3
      let h4 := hwrite h3 p2.2 (setConstCol (h3.mem p2.2) "dataElement"
        (.vstr data_element_id))
      match filterNotNa (h4.mem p2.2) "value" with
      | .error e => (h4, .error e)
      | .ok f5 =>
        let p5 := halloc h4 f5
        match mapCol (p5.1.mem p5.2) "value" format_value_for_dhis2 with
        | .error e => (p5.1, .error e)
        | .ok f6 =>
          let h6 := hwrite p5.1 p5.2 f6
          (h6, .ok ⟨toRecords (h6.mem p5.2)⟩)

/-- `dataframe_to_chap_csv` operating on the frame heap: the input frame
is only read; `copy`, `drop`, `rename`, the column subset and
`sort_values` produce fresh objects, the `time_period` assignment
mutates the fresh renamed frame in place. -/
def dataframe_to_chap_csv_heap (toDT : String → Option (Nat × Nat))
    (toD : String → Option Date) (h0 : Heap) (i : Nat)
    (column_map : List (String × String)) (freq : String)
    (continuity_policy : String) (include_other_cols : Bool)
    (value_cols : Option (List String)) (drop_cols : Option (List String))
    (sortRows : Bool) : Heap × Except PyErr ChapOut :=
  let df := h0.mem i
  let missing_keys := REQUIRED_RESERVED_FIELDS.filter
    (fun k => !(column_map.map Prod.fst).contains k)
  if !missing_keys.isEmpty then (h0, .error .keyError)
  else
    let mapped_inputs := column_map.map Prod.snd
    let missing_inputs := mapped_inputs.filter (fun c => !df.cols.contains c)
    if !missing_inputs.isEmpty then (h0, .error .keyError)
    else
      let p1 := halloc h0 df
      let p2 := match drop_cols with
        | none => p1
        | some dcs => halloc p1.1 (dropColumns (p1.1.mem p1.2) dcs)
      let p3 := halloc p2.1 (chapRename (p2.1.mem p2.2) column_map)
      match chapNormalized toDT toD freq (p3.1.mem p3.2) with
      | .error e => (p3.1, .error e)
      | .ok nf =>
        let h4 := hwrite p3.1 p3.2 nf
        if !(continuity_policy == "error" || continuity_policy == "warn"
            || continuity_policy == "ignore") then (h4, .error .valueError)
        else
          let checkRan := continuity_policy != "ignore"
          match (if checkRan then validate_temporal_continuity (h4.mem p3.2) freq
                 else .ok []) with
          | .error e => (h4, .error e)
          | .ok gaps =>
            if checkRan && !gaps.isEmpty && continuity_policy == "error" then
              (h4, .error .valueError)
            else
              match chapSelect (h4.mem p3.2) column_map include_other_cols
                  value_cols with
              | .error e => (h4, .error e)
              | .ok f4 =>
                let p5 := halloc h4 f4
                let p6 := if sortRows then
                    halloc p5.1 (sortFrame (p5.1.mem p5.2))
                  else p5
                (p6.1, .ok ⟨toCsv (p6.1.mem p6.2), checkRan, p6.1.mem p6.2⟩)


theorem exceptOkBind {ε α β : Type} (a : α) (f : α → Except ε β) :
    (Except.ok a >>= f : Except ε β) = f a := rfl

theorem dhis2_heap_val (h0 : Heap) (i : Nat) (deId ou pc vc : String) :
    (dataframe_to_dhis2_json_heap h0 i deId ou pc vc).2
      = dataframe_to_dhis2_json (h0.mem i) deId ou pc vc := by
  simp only [dataframe_to_dhis2_json_heap, dataframe_to_dhis2_json]
  cases hsub : subsetCols (h0.mem i) [ou, pc, vc] with
  | error e => rfl
  | ok sub =>
    simp only [halloc_get_same, hwrite_get_same, exceptOkBind]
    cases hmap : mapCol (renameCols sub
        [(ou, "orgUnit"), (pc, "period"), (vc, "value")]) "period" parse_period with
    | error e => rfl
    | ok f3 =>
      simp only [exceptOkBind]
      cases hfil : filterNotNa (setConstCol f3 "dataElement" (.vstr deId))
          "value" with
      | error e => rfl
      | ok f5 =>
        simp only [exceptOkBind]
        cases hfmt : mapCol f5 "value" format_value_for_dhis2 with
        | error e => rfl
        | ok f6 => rfl

theorem dhis2_heap_mem (h0 : Heap) (i : Nat) (deId ou pc vc : String)
    (j : Nat) (hj : j < h0.next) :
    (dataframe_to_dhis2_json_heap h0 i deId ou pc vc).1.mem j = h0.mem j := by
  have e0 : j ≠ h0.next := by omega
  have e1 : j ≠ h0.next + 1 := by omega
  have e2 : j ≠ h0.next + 2 := by omega
  simp only [dataframe_to_dhis2_json_heap]
  cases hsub : subsetCols (h0.mem i) [ou, pc, vc] with
  | error e => rfl
  | ok sub =>
    simp only [halloc_get_same, hwrite_get_same]
    split
    · simp [halloc, hwrite, e0, e1, e2]
    · split
      · simp [halloc, hwrite, e0, e1, e2]
      · split
        · simp [halloc, hwrite, e0, e1, e2]
        · simp [halloc, hwrite, e0, e1, e2]

theorem chap_heap_val (toDT : String → Option (Nat × Nat))
    (toD : String → Option Date) (h0 : Heap) (i : Nat)
    (cm : List (String × String)) (freq policy : String) (ioc : Bool)
    (vcs dcs : Option (List String)) (srt : Bool) :
    (dataframe_to_chap_csv_heap toDT toD h0 i cm freq policy ioc vcs dcs srt).2
      = dataframe_to_chap_csv toDT toD (h0.mem i) cm freq policy ioc vcs dcs srt := by
  simp only [dataframe_to_chap_csv_heap, dataframe_to_chap_csv]
  split
  · rfl
  · split
    · rfl
    · cases dcs with
      | none =>
        simp only [halloc_get_same, hwrite_get_same]
        rw [show chapPrepared (h0.mem i) cm none = chapRename (h0.mem i) cm from rfl]
        cases hn : chapNormalized toDT toD freq (chapRename (h0.mem i) cm) with
        | error e => rfl
        | ok nf =>
          by_cases hpv : (!(policy == "error" || policy == "warn"
              || policy == "ignore")) = true
          · simp only [if_pos hpv]
          · simp only [if_neg hpv]
            by_cases hck : (policy != "ignore") = true
            · simp only [if_pos hck]
              cases hv : validate_temporal_continuity nf freq with
              | error e => rfl
              | ok gaps =>
                by_cases hg : (policy != "ignore" && !gaps.isEmpty
                    && policy == "error") = true
                · simp only [if_pos hg]
                · simp only [if_neg hg]
                  cases hsel : chapSelect nf cm ioc vcs with
                  | error e => rfl
                  | ok f4 =>
                    cases srt with
                    | false => simp [halloc_get_same]
                    | true => simp [halloc_get_same]
            · simp only [if_neg hck]
              have hg : ¬ ((policy != "ignore" && !(List.isEmpty
                  ([] : List (String × List String))) && policy == "error") = true) := by
                simp
              simp only [if_neg hg]
              cases hsel : chapSelect nf cm ioc vcs with
              | error e => rfl
              | ok f4 =>
                cases srt with
                | false => simp [halloc_get_same]
                | true => simp [halloc_get_same]
      | some dclist =>
        simp only [halloc_get_same, hwrite_get_same]
        rw [show chapPrepared (h0.mem i) cm (some dclist)
          = chapRename (dropColumns (h0.mem i) dclist) cm from rfl]
        cases hn : chapNormalized toDT toD freq
            (chapRename (dropColumns (h0.mem i) dclist) cm) with
        | error e => rfl
        | ok nf =>
          by_cases hpv : (!(policy == "error" || policy == "warn"
              || policy == "ignore")) = true
          · simp only [if_pos hpv]
          · simp only [if_neg hpv]
            by_cases hck : (policy != "ignore") = true
            · simp only [if_pos hck]
              cases hv : validate_temporal_continuity nf freq with
              | error e => rfl
              | ok gaps =>
                by_cases hg : (policy != "ignore" && !gaps.isEmpty
                    && policy == "error") = true
                · simp only [if_pos hg]
                · simp only [if_neg hg]
                  cases hsel : chapSelect nf cm ioc vcs with
                  | error e => rfl
                  | ok f4 =>
                    cases srt with
                    | false => simp [halloc_get_same]
                    | true => simp [halloc_get_same]
            · simp only [if_neg hck]
              have hg : ¬ ((policy != "ignore" && !(List.isEmpty
                  ([] : List (String × List String))) && policy == "error") = true) := by
                simp
              simp only [if_neg hg]
              cases hsel : chapSelect nf cm ioc vcs with
              | error e => rfl
              | ok f4 =>
                cases srt with
                | false => simp [halloc_get_same]
                | true => simp [halloc_get_same]

theorem chap_heap_mem (toDT : String → Option (Nat × Nat))
    (toD : String → Option Date) (h0 : Heap) (i : Nat)
    (cm : List (String × String)) (freq policy : String) (ioc : Bool)
    (vcs dcs : Option (List String)) (srt : Bool)
    (j : Nat) (hj : j < h0.next) :
    (dataframe_to_chap_csv_heap toDT toD h0 i cm freq policy ioc vcs dcs
      srt).1.mem j = h0.mem j := by
  have e0 : j ≠ h0.next := by omega
  have e1 : j ≠ h0.next + 1 := by omega
  have e2 : j ≠ h0.next + 2 := by omega
  have e3 : j ≠ h0.next + 3 := by omega
  have e4 : j ≠ h0.next + 4 := by omega
  simp only [dataframe_to_chap_csv_heap]
  split
  · rfl
  · split
    · rfl
    · cases dcs with
      | none =>
        simp only [halloc_get_same, hwrite_get_same]
        cases hn : chapNormalized toDT toD freq (chapRename (h0.mem i) cm) with
        | error e => simp [halloc, hwrite, e0, e1, e2, e3, e4]
        | ok nf =>
          by_cases hpv : (!(policy == "error" || policy == "warn"
              || policy == "ignore")) = true
          · simp only [if_pos hpv]
            simp [halloc, hwrite, e0, e1, e2, e3, e4]
          · simp only [if_neg hpv]
            by_cases hck : (policy != "ignore") = true
            · simp only [if_pos hck]
              cases hv : validate_temporal_continuity nf freq with
              | error e => simp [halloc, hwrite, e0, e1, e2, e3, e4]
              | ok gaps =>
                by_cases hg : (policy != "ignore" && !gaps.isEmpty
                    && policy == "error") = true
                · simp only [if_pos hg]
                  simp [halloc, hwrite, e0, e1, e2, e3, e4]
                · simp only [if_neg hg]
                  cases hsel : chapSelect nf cm ioc vcs with
                  | error e => simp [halloc, hwrite, e0, e1, e2, e3, e4]
                  | ok f4 =>
                    cases srt with
                    | false => simp [halloc, hwrite, e0, e1, e2, e3, e4]
                    | true => simp [halloc, hwrite, e0, e1, e2, e3, e4]
            · simp only [if_neg hck]
              have hg : ¬ ((policy != "ignore" && !(List.isEmpty
                  ([] : List (String × List String))) && policy == "error") = true) := by
                simp
              simp only [if_neg hg]
              cases hsel : chapSelect nf cm ioc vcs with
              | error e => simp [halloc, hwrite, e0, e1, e2, e3, e4]
              | ok f4 =>
                cases srt with
                | false => simp [halloc, hwrite, e0, e1, e2, e3, e4]
                | true => simp [halloc, hwrite, e0, e1, e2, e3, e4]
      | some dclist =>
        simp only [halloc_get_same, hwrite_get_same]
        cases hn : chapNormalized toDT toD freq
            (chapRename (dropColumns (h0.mem i) dclist) cm) with
        | error e => simp [halloc, hwrite, e0, e1, e2, e3, e4]
        | ok nf =>
          by_cases hpv : (!(policy == "error" || policy == "warn"
              || policy == "ignore")) = true
          · simp only [if_pos hpv]
            simp [halloc, hwrite, e0, e1, e2, e3, e4]
          · simp only [if_neg hpv]
            by_cases hck : (policy != "ignore") = true
            · simp only [if_pos hck]
              cases hv : validate_temporal_continuity nf freq with
              | error e => simp [halloc, hwrite, e0, e1, e2, e3, e4]
              | ok gaps =>
                by_cases hg : (policy != "ignore" && !gaps.isEmpty
                    && policy == "error") = true
                · simp only [if_pos hg]
                  simp [halloc, hwrite, e0, e1, e2, e3, e4]
                · simp only [if_neg hg]
                  cases hsel : chapSelect nf cm ioc vcs with
                  | error e => simp [halloc, hwrite, e0, e1, e2, e3, e4]
                  | ok f4 =>
                    cases srt with
                    | false => simp [halloc, hwrite, e0, e1, e2, e3, e4]
                    | true => simp [halloc, hwrite, e0, e1, e2, e3, e4]
            · simp only [if_neg hck]
              have hg : ¬ ((policy != "ignore" && !(List.isEmpty
                  ([] : List (String × List String))) && policy == "error") = true) := by
                simp
              simp only [if_neg hg]
              cases hsel : chapSelect nf cm ioc vcs with
              | error e => simp [halloc, hwrite, e0, e1, e2, e3, e4]
              | ok f4 =>
                cases srt with
                | false => simp [halloc, hwrite, e0, e1, e2, e3, e4]
                | true => simp [halloc, hwrite, e0, e1, e2, e3, e4]

/-- C4: the two reformatting modules are pure with respect to their
inputs: run on a heap of DataFrame objects, `dataframe_to_dhis2_json`
and `dataframe_to_chap_csv` (with `output_path=None`) leave every
pre-existing frame — in particular the input frame — unchanged (they
only copy and then mutate fresh objects), and each one's returned value
equals a pure function of the input frame's value and the other
arguments alone. -/
theorem c4_reformat_pure (h0 : Heap) (i : Nat) (deId ou pc vc : String)
    (toDT : String → Option (Nat × Nat)) (toD : String → Option Date)
    (cm : List (String × String)) (freq policy : String) (ioc : Bool)
    (vcs dcs : Option (List String)) (srt : Bool) :
    (∀ j, j < h0.next →
      (dataframe_to_dhis2_json_heap h0 i deId ou pc vc).1.mem j = h0.mem j)
    ∧ (dataframe_to_dhis2_json_heap h0 i deId ou pc vc).2
        = dataframe_to_dhis2_json (h0.mem i) deId ou pc vc
    ∧ (∀ j, j < h0.next →
      (dataframe_to_chap_csv_heap toDT toD h0 i cm freq policy ioc vcs dcs
        srt).1.mem j = h0.mem j)
    ∧ (dataframe_to_chap_csv_heap toDT toD h0 i cm freq policy ioc vcs dcs
        srt).2
        = dataframe_to_chap_csv toDT toD (h0.mem i) cm freq policy ioc vcs
            dcs srt :=
  ⟨fun j hj => dhis2_heap_mem h0 i deId ou pc vc j hj,
   dhis2_heap_val h0 i deId ou pc vc,
   fun j hj => chap_heap_mem toDT toD h0 i cm freq policy ioc vcs dcs srt j hj,
   chap_heap_val toDT toD h0 i cm freq policy ioc vcs dcs srt⟩

theorem c4_reformat_pure_witness :
    (dataframe_to_dhis2_json_heap
        ⟨1, fun _ => ⟨["ou", "per", "val"],
          [[PyVal.vstr "OU1", PyVal.vstr "2024", PyVal.vnum 7]]⟩⟩
        0 "DE" "ou" "per" "val").1.mem 0
      = ⟨["ou", "per", "val"],
         [[PyVal.vstr "OU1", PyVal.vstr "2024", PyVal.vnum 7]]⟩
    ∧ (dataframe_to_chap_csv_heap (fun _ => none) (fun _ => none)
        ⟨1, fun _ => ⟨["ou", "per", "val"],
          [[PyVal.vstr "OU1", PyVal.vstr "2024", PyVal.vnum 7]]⟩⟩
        0 [("time_period", "per"), ("location", "ou"),
           ("disease_cases", "val")]
        "monthly" "error" true none none true).1.mem 0
      = ⟨["ou", "per", "val"],
         [[PyVal.vstr "OU1", PyVal.vstr "2024", PyVal.vnum 7]]⟩ := by
  have h := c4_reformat_pure
    ⟨1, fun _ => ⟨["ou", "per", "val"],
      [[PyVal.vstr "OU1", PyVal.vstr "2024", PyVal.vnum 7]]⟩⟩
    0 "DE" "ou" "per" "val" (fun _ => none) (fun _ => none)
    [("time_period", "per"), ("location", "ou"), ("disease_cases", "val")]
    "monthly" "error" true none none true
  exact ⟨h.1 0 (by decide), h.2.2.1 0 (by decide)⟩


end DHIS2EO
